import Mathlib

/-!
Verification of the CSP policy core of this repository: directive
parsing/reconstruction, hash merging, resource-driven directive updates,
validation checks, domain extraction and the heuristic inference engine,
as a shallow embedding of the Go source (parser.go, detector.go,
validator.go, the heuristics file and the strict-CSP file).

Modelling conventions:
* Go strings are modelled by Lean `String` (a structure holding a list of
  characters); the Go standard-library string functions used by the code
  (strings.Split, strings.TrimSpace, strings.Contains, strings.Fields,
  strings.Join, strings.HasPrefix, strings.IndexAny, strings.ToLower) are
  re-implemented below on character lists with their Go semantics
  (restricted to ASCII whitespace/case where Go consults Unicode tables).
* a Go `map[string]string` is modelled by an association list with
  insert-overwrite semantics (`insertD`); Go map iteration order is
  unspecified, so wherever the code ranges over a map the embedding
  fixes the textual order of the corresponding source literal.
* functions returning `(T, error)` where every return site has a nil
  error are modelled as `T × Option String` with error component `.none`.
-/

set_option maxRecDepth 8000

/-- ASCII whitespace as trimmed by Go `strings.TrimSpace` / split by
`strings.Fields` (Unicode space classes beyond ASCII are not modelled). -/
def isWS (c : Char) : Bool :=
  c = ' ' || c = '\t' || c = '\n' || c = '\x0b' || c = '\x0c' || c = '\r'

/-- The character class of Go `strings.IndexAny(part, " \t")`. -/
def isSpTab (c : Char) : Bool := c = ' ' || c = '\t'

/-- Go `strings.TrimSpace` on character lists. -/
def trimL (l : List Char) : List Char :=
  ((l.dropWhile isWS).reverse.dropWhile isWS).reverse

/-- Go `strings.TrimSpace`. -/
def trimS (s : String) : String := ⟨trimL s.data⟩

/-- Go `strings.Split` with a one-character separator. -/
def splitOnChar (sep : Char) : List Char → List (List Char)
  | [] => [[]]
  | c :: cs =>
    if c = sep then [] :: splitOnChar sep cs
    else
      match splitOnChar sep cs with
      | [] => [[c]]
      | p :: ps => (c :: p) :: ps

/-- Go `strings.HasPrefix` on character lists. -/
def isPrefixOfL : List Char → List Char → Bool
  | [], _ => true
  | _ :: _, [] => false
  | a :: as, b :: bs => a = b && isPrefixOfL as bs

/-- Go `strings.Contains`: does `sub` occur inside `s`. -/
def containsL : List Char → List Char → Bool
  | [], sub => sub.isEmpty
  | a :: rest, sub => isPrefixOfL sub (a :: rest) || containsL rest sub

/-- Go `strings.Contains`. -/
def containsS (s sub : String) : Bool := containsL s.data sub.data

/-- Go `strings.HasPrefix`. -/
def hasPrefixS (s pre : String) : Bool := isPrefixOfL pre.data s.data

theorem dropWhile_length_le (p : Char → Bool) :
    ∀ l : List Char, (l.dropWhile p).length ≤ l.length := by
  intro l
  induction l with
  | nil => simp [List.dropWhile]
  | cons c cs ih =>
    simp only [List.dropWhile]
    cases p c <;> simp <;> omega

/-- Helper for `fieldsL`: `acc` holds the reversed current field. -/
def fieldsAcc : List Char → List Char → List (List Char)
  | acc, [] => if acc.isEmpty then [] else [acc.reverse]
  | acc, c :: cs =>
    if isWS c then
      if acc.isEmpty then fieldsAcc [] cs else acc.reverse :: fieldsAcc [] cs
    else fieldsAcc (c :: acc) cs

/-- Go `strings.Fields`: split around runs of whitespace. -/
def fieldsL (l : List Char) : List (List Char) := fieldsAcc [] l

/-- Go `strings.Fields` producing strings. -/
def fieldsStr (s : String) : List String := (fieldsL s.data).map fun l => ⟨l⟩

/-- Go `strings.Join` on character lists. -/
def joinWithL (sep : List Char) : List (List Char) → List Char
  | [] => []
  | [x] => x
  | x :: y :: xs => x ++ sep ++ joinWithL sep (y :: xs)

/-- Go `strings.Join`. -/
def joinStrings (sep : String) (xs : List String) : String :=
  ⟨joinWithL sep.data (xs.map (·.data))⟩

/-- ASCII lower-casing of one character (Go `strings.ToLower`, ASCII part). -/
def lowerChar (c : Char) : Char :=
  if 'A' ≤ c ∧ c ≤ 'Z' then Char.ofNat (c.toNat + 32) else c

/-- Go `strings.ToLower` (ASCII). -/
def toLowerS (s : String) : String := ⟨s.data.map lowerChar⟩

/-! ## The directive model: Go `map[string]string` as an association list -/

abbrev Directives := List (String × String)

/-- Go map lookup `v, ok := m[k]`. -/
def findD (d : Directives) (k : String) : Option String :=
  match d with
  | [] => none
  | p :: ps => if p.1 = k then some p.2 else findD ps k

/-- Go map lookup with zero value, `m[k]`. -/
def getD (d : Directives) (k : String) : String := (findD d k).getD ""

/-- Go map assignment `m[k] = v`: overwrite the entry holding the key,
append a new entry otherwise (association lists built by the embedding
keep their keys distinct, matching Go map semantics). -/
def insertD (d : Directives) (k v : String) : Directives :=
  match d with
  | [] => [(k, v)]
  | p :: ps => if p.1 = k then (k, v) :: ps else p :: insertD ps k v

/-- Go `delete(m, k)`. -/
def eraseD (d : Directives) (k : String) : Directives :=
  d.filter fun p => !decide (p.1 = k)

/-! ## parser.go: parseCSPDirectives / reconstructCSP -/

/-- Go `strings.IndexAny(s, " \t")`: index of the first space or tab. -/
def indexAnyST : List Char → Option Nat
  | [] => none
  | c :: cs => if isSpTab c then some 0 else (indexAnyST cs).map (· + 1)

/-- One loop iteration of parser.go `parseCSPDirectives`: trim the
segment, skip it when empty, otherwise split at the first space or tab
(`strings.IndexAny(part, " \t")`) into name and trimmed value. -/
def parsePart (part0 : List Char) : Option (String × String) :=
  let part := trimL part0
  if part.isEmpty then none
  else
    match indexAnyST part with
    | none => some (⟨part⟩, "")
    | some i => some (⟨part.take i⟩, ⟨trimL (part.drop (i + 1))⟩)

/-- The loop body of parser.go `parseCSPDirectives`: a skipped empty
segment leaves the map alone, otherwise the parsed name/value pair is
assigned into the map. -/
def parseStep (d : Directives) (part : List Char) : Directives :=
  match parsePart part with
  | none => d
  | some (k, v) => insertD d k v

/-- parser.go `parseCSPDirectives`: split the header on `;` and fold the
segments into the directive map (later duplicates overwrite). -/
def parseCSPDirectives (cspHeader : String) : Directives :=
  (splitOnChar ';' cspHeader.data).foldl parseStep []

/-- parser.go `reconstructCSP`: the preferred order for common directives. -/
def orderedDirectives : List String :=
  ["default-src", "script-src", "style-src", "img-src", "font-src",
   "connect-src", "frame-src", "frame-ancestors", "object-src",
   "base-uri", "form-action"]

/-- One emitted segment of reconstructCSP: a bare name for an empty
value, `name value` otherwise. -/
def dirLine (p : String × String) : List Char :=
  if p.2 = "" then p.1.data else p.1.data ++ ' ' :: p.2.data

/-- The directive sequence reconstructCSP emits: canonical directives
that are present first, then the remaining entries (Go ranges over the
map here; the embedding keeps the association-list order). -/
def emitPairs (d : Directives) : List (String × String) :=
  orderedDirectives.filterMap (fun n => (findD d n).map fun v => (n, v)) ++
    d.filter fun p => !(orderedDirectives.any fun n => decide (n = p.1))

/-- parser.go `reconstructCSP`. -/
def reconstructCSP (d : Directives) : String :=
  ⟨joinWithL [';', ' '] ((emitPairs d).map dirLine)⟩

example :
    parseCSPDirectives "default-src 'self'; script-src 'unsafe-inline'" =
      [("default-src", "'self'"), ("script-src", "'unsafe-inline'")] := by
  decide

example :
    reconstructCSP [("script-src", "'self'"), ("default-src", "'none'"), ("upgrade-insecure-requests", "")] =
      "default-src 'none'; script-src 'self'; upgrade-insecure-requests" := by
  decide

example : parseCSPDirectives "  ;a  b ;a" = [("a", "")] := by decide

/-! ## Elementary lemmas about the string helpers -/

theorem isWS_of_isSpTab {c : Char} (h : isSpTab c = true) : isWS c = true := by
  simp only [isSpTab, Bool.or_eq_true, decide_eq_true_eq] at h
  rcases h with h | h <;> simp [isWS, h]

theorem dropWhile_eq_self_of_head (p : Char → Bool) (l : List Char)
    (h : ∀ c, l.head? = some c → p c = false) : l.dropWhile p = l := by
  cases l with
  | nil => rfl
  | cons c cs => simp [List.dropWhile_cons, h c rfl]

theorem head?_dropWhile (p : Char → Bool) :
    ∀ l : List Char, ∀ c, (l.dropWhile p).head? = some c → p c = false := by
  intro l
  induction l with
  | nil => intro c h; simp [List.dropWhile] at h
  | cons a as ih =>
    intro c h
    rw [List.dropWhile_cons] at h
    cases hpa : p a with
    | true => rw [hpa] at h; simp only [if_true] at h; exact ih c h
    | false =>
      rw [hpa] at h
      simp only [Bool.false_eq_true, if_false, List.head?_cons, Option.some.injEq] at h
      exact h ▸ hpa

theorem mem_of_mem_dropWhile (p : Char → Bool) :
    ∀ l : List Char, ∀ c, c ∈ l.dropWhile p → c ∈ l := by
  intro l
  induction l with
  | nil => intro c h; simpa [List.dropWhile] using h
  | cons a as ih =>
    intro c h
    rw [List.dropWhile_cons] at h
    cases hpa : p a with
    | true => rw [hpa] at h; simp only [if_true] at h; exact List.mem_cons_of_mem _ (ih c h)
    | false => rw [hpa] at h; simpa using h

theorem dropWhile_eq_nil_all (p : Char → Bool) :
    ∀ l : List Char, l.dropWhile p = [] → ∀ c ∈ l, p c = true := by
  intro l
  induction l with
  | nil => intro _ c hc; simp at hc
  | cons a as ih =>
    intro h c hc
    rw [List.dropWhile_cons] at h
    cases hpa : p a with
    | true =>
      rw [hpa] at h; simp only [if_true] at h
      rcases List.mem_cons.mp hc with rfl | hc
      · exact hpa
      · exact ih h c hc
    | false => rw [hpa] at h; simp at h

theorem getLast?_mem : ∀ l : List Char, ∀ c, l.getLast? = some c → c ∈ l := by
  intro l
  induction l with
  | nil => intro c h; simp at h
  | cons a as ih =>
    intro c h
    cases as with
    | nil => simp only [List.getLast?_singleton, Option.some.injEq] at h; simp [h]
    | cons b bs =>
      rw [List.getLast?_cons_cons] at h
      exact List.mem_cons_of_mem _ (ih c h)

theorem getLast?_append_right :
    ∀ xs ys : List Char, ys ≠ [] → (xs ++ ys).getLast? = ys.getLast? := by
  intro xs
  induction xs with
  | nil => intro ys _; rfl
  | cons a as ih =>
    intro ys hne
    have h1 : as ++ ys ≠ [] := by
      intro h; exact hne (List.append_eq_nil.mp h).2
    cases hcase : as ++ ys with
    | nil => exact absurd hcase h1
    | cons b bs =>
      rw [List.cons_append, hcase, List.getLast?_cons_cons, ← hcase, ih ys hne]

theorem dropWhile_append_eq_nil (p : Char → Bool) :
    ∀ xs ys : List Char, xs.dropWhile p = [] →
      (xs ++ ys).dropWhile p = ys.dropWhile p := by
  intro xs
  induction xs with
  | nil => intro ys _; rfl
  | cons a as ih =>
    intro ys h
    rw [List.dropWhile_cons] at h
    rw [List.cons_append, List.dropWhile_cons]
    by_cases hpa : p a = true
    · rw [if_pos hpa] at h ⊢
      exact ih ys h
    · rw [if_neg hpa] at h; simp at h

theorem dropWhile_append_eq_cons (p : Char → Bool) :
    ∀ xs ys : List Char, ∀ (b : Char) (bs : List Char), xs.dropWhile p = b :: bs →
      (xs ++ ys).dropWhile p = b :: (bs ++ ys) := by
  intro xs
  induction xs with
  | nil => intro ys b bs h; simp at h
  | cons a as ih =>
    intro ys b bs h
    rw [List.dropWhile_cons] at h
    rw [List.cons_append, List.dropWhile_cons]
    by_cases hpa : p a = true
    · rw [if_pos hpa] at h ⊢
      exact ih ys b bs h
    · rw [if_neg hpa] at h ⊢
      injection h with h1 h2
      subst h1; subst h2
      rfl

/-- Right trim, the second phase of `trimL`. -/
def rtrimL (l : List Char) : List Char := (l.reverse.dropWhile isWS).reverse

theorem trimL_eq_rtrim (l : List Char) : trimL l = rtrimL (l.dropWhile isWS) := rfl

theorem head?_rtrimL :
    ∀ m : List Char, ∀ c, (rtrimL m).head? = some c → m.head? = some c := by
  intro m c h
  cases m with
  | nil => simp [rtrimL, List.dropWhile] at h
  | cons a as =>
    unfold rtrimL at h
    rw [List.reverse_cons] at h
    rcases hsplit : as.reverse.dropWhile isWS with _ | ⟨b, bs⟩
    · rw [dropWhile_append_eq_nil isWS _ [a] hsplit] at h
      rw [List.dropWhile_cons] at h
      cases hwa : isWS a with
      | true => rw [hwa] at h; simp at h
      | false =>
        rw [hwa] at h
        simp only [Bool.false_eq_true, if_false, List.reverse_cons, List.reverse_nil,
          List.nil_append, List.head?_cons, Option.some.injEq] at h
        simp [h]
    · rw [dropWhile_append_eq_cons isWS _ [a] b bs hsplit] at h
      have hrev : (b :: (bs ++ [a])).reverse = a :: (bs.reverse ++ [b]) := by simp
      rw [hrev] at h
      simp only [List.head?_cons, Option.some.injEq] at h
      simp [h]

theorem trimL_head_clean (l : List Char) (c : Char)
    (h : (trimL l).head? = some c) : isWS c = false := by
  rw [trimL_eq_rtrim] at h
  exact head?_dropWhile isWS l c (head?_rtrimL _ c h)

theorem trimL_getLast_clean (l : List Char) (c : Char)
    (h : (trimL l).getLast? = some c) : isWS c = false := by
  unfold trimL at h
  rw [List.getLast?_reverse] at h
  exact head?_dropWhile isWS _ c h

theorem trimL_eq_self (l : List Char)
    (h1 : ∀ c, l.head? = some c → isWS c = false)
    (h2 : ∀ c, l.getLast? = some c → isWS c = false) : trimL l = l := by
  unfold trimL
  rw [dropWhile_eq_self_of_head isWS l h1]
  rw [dropWhile_eq_self_of_head isWS l.reverse (by
    intro c hc
    rw [List.head?_reverse] at hc
    exact h2 c hc)]
  exact List.reverse_reverse l

theorem trimL_nil : trimL [] = [] := rfl

theorem trimL_idem (l : List Char) : trimL (trimL l) = trimL l :=
  trimL_eq_self (trimL l)
    (fun c hc => trimL_head_clean l c hc)
    (fun c hc => trimL_getLast_clean l c hc)

theorem trimL_cons_ws (c : Char) (l : List Char) (h : isWS c = true) :
    trimL (c :: l) = trimL l := by
  unfold trimL
  rw [List.dropWhile_cons, if_pos h]

theorem mem_trimL (l : List Char) (c : Char) (h : c ∈ trimL l) : c ∈ l := by
  unfold trimL at h
  rw [List.mem_reverse] at h
  have h2 := mem_of_mem_dropWhile isWS _ c h
  rw [List.mem_reverse] at h2
  exact mem_of_mem_dropWhile isWS _ c h2

theorem indexAnyST_none : ∀ l : List Char, indexAnyST l = none →
    ∀ c ∈ l, isSpTab c = false := by
  intro l
  induction l with
  | nil => intro _ c hc; simp at hc
  | cons a as ih =>
    intro h c hc
    unfold indexAnyST at h
    by_cases hpa : isSpTab a = true
    · rw [if_pos hpa] at h; simp at h
    · rw [if_neg hpa] at h
      rcases List.mem_cons.mp hc with rfl | hc
      · exact Bool.not_eq_true _ ▸ (by revert hpa; cases isSpTab c <;> simp)
      · exact ih (by rcases hi : indexAnyST as with _ | j
                     · rfl
                     · rw [hi] at h; simp at h) c hc

theorem indexAnyST_all_none : ∀ l : List Char, (∀ c ∈ l, isSpTab c = false) →
    indexAnyST l = none := by
  intro l
  induction l with
  | nil => intro _; rfl
  | cons a as ih =>
    intro h
    unfold indexAnyST
    rw [if_neg (by rw [h a (List.mem_cons_self _ _)]; simp)]
    rw [ih fun c hc => h c (List.mem_cons_of_mem _ hc)]
    rfl

theorem indexAnyST_take : ∀ l : List Char, ∀ i, indexAnyST l = some i →
    ∀ c ∈ l.take i, isSpTab c = false := by
  intro l
  induction l with
  | nil => intro i h; simp [indexAnyST] at h
  | cons a as ih =>
    intro i h c hc
    unfold indexAnyST at h
    by_cases hpa : isSpTab a = true
    · rw [if_pos hpa] at h
      injection h with h
      subst h
      simp at hc
    · rw [if_neg hpa] at h
      rcases hi : indexAnyST as with _ | j
      · rw [hi] at h; simp at h
      · rw [hi] at h
        simp only [Option.map_some'] at h
        injection h with h
        subst h
        rw [List.take_succ_cons] at hc
        rcases List.mem_cons.mp hc with rfl | hc
        · revert hpa; cases isSpTab c <;> simp
        · exact ih j hi c hc

theorem indexAnyST_pos (a : Char) (as : List Char) (i : Nat)
    (h : indexAnyST (a :: as) = some i) (ha : isSpTab a = false) : 0 < i := by
  unfold indexAnyST at h
  rw [if_neg (by rw [ha]; simp)] at h
  rcases hi : indexAnyST as with _ | j
  · rw [hi] at h; simp at h
  · rw [hi] at h
    simp only [Option.map_some'] at h
    injection h with h
    omega

theorem indexAnyST_last : ∀ l : List Char, ∀ i c, indexAnyST l = some i →
    l.getLast? = some c → isWS c = false → i + 1 < l.length := by
  intro l
  induction l with
  | nil => intro i c h; simp [indexAnyST] at h
  | cons a as ih =>
    intro i c h hlast hc
    unfold indexAnyST at h
    by_cases hpa : isSpTab a = true
    · rw [if_pos hpa] at h
      injection h with h
      subst h
      cases as with
      | nil =>
        simp only [List.getLast?_singleton, Option.some.injEq] at hlast
        rw [← hlast] at hc
        rw [isWS_of_isSpTab hpa] at hc
        exact absurd hc (by simp)
      | cons b bs => simp
    · rw [if_neg hpa] at h
      rcases hi : indexAnyST as with _ | j
      · rw [hi] at h; simp at h
      · rw [hi] at h
        simp only [Option.map_some'] at h
        injection h with h
        subst h
        have hasne : as ≠ [] := by
          intro hnil; rw [hnil] at hi; simp [indexAnyST] at hi
        have hlast2 : as.getLast? = some c := by
          have : (a :: as) = [a] ++ as := rfl
          rw [this, getLast?_append_right [a] as hasne] at hlast
          exact hlast
        have := ih j c hi hlast2 hc
        simp only [List.length_cons]
        omega

theorem take_head? (l : List Char) (i : Nat) (hi : 0 < i) :
    (l.take i).head? = l.head? := by
  cases l with
  | nil => simp
  | cons a as =>
    cases i with
    | zero => omega
    | succ j => rw [List.take_succ_cons]; rfl

theorem drop_append_cons (k : List Char) (c : Char) (v : List Char) :
    (k ++ c :: v).drop (k.length + 1) = v := by
  have h : k ++ c :: v = (k ++ [c]) ++ v := by simp
  have h2 : k.length + 1 = (k ++ [c]).length := by simp
  rw [h, h2, List.drop_left]

theorem indexAnyST_append (k : List Char) (c0 : Char) (v : List Char)
    (hk : ∀ c ∈ k, isSpTab c = false) (hc : isSpTab c0 = true) :
    indexAnyST (k ++ c0 :: v) = some k.length := by
  induction k with
  | nil => simp [indexAnyST, hc]
  | cons a as ih =>
    rw [List.cons_append]
    unfold indexAnyST
    rw [if_neg (by rw [hk a (List.mem_cons_self _ _)]; simp)]
    rw [ih fun c hcm => hk c (List.mem_cons_of_mem _ hcm)]
    simp

theorem head?_append_left (k : List Char) (x : List Char) (hne : k ≠ []) :
    (k ++ x).head? = k.head? := by
  cases k with
  | nil => exact absurd rfl hne
  | cons a as => rfl

theorem trimL_ne_nil (l : List Char) (c : Char)
    (hlast : l.getLast? = some c) (hc : isWS c = false) : trimL l ≠ [] := by
  intro hnil
  unfold trimL at hnil
  rw [List.reverse_eq_nil_iff] at hnil
  have hall : ∀ x ∈ (l.dropWhile isWS).reverse, isWS x = true :=
    dropWhile_eq_nil_all isWS _ hnil
  rcases hm : l.dropWhile isWS with _ | ⟨b, bs⟩
  · have := dropWhile_eq_nil_all isWS l hm c (getLast?_mem l c hlast)
    rw [this] at hc; exact Bool.true_eq_false.mp hc
  · have hlsplit : l = l.takeWhile isWS ++ (b :: bs) := by
      rw [← hm, List.takeWhile_append_dropWhile]
    have hlast2 : (b :: bs).getLast? = some c := by
      rw [hlsplit, getLast?_append_right _ _ (by simp)] at hlast
      exact hlast
    have hcmem : c ∈ (b :: bs) := getLast?_mem _ c hlast2
    have := hall c (by rw [hm] at hall ⊢; rw [List.mem_reverse]; exact hcmem)
    rw [this] at hc; exact Bool.true_eq_false.mp hc

/-! ## Well-formed directive maps and the parse invariant -/

/-- Shape of directive names as produced by `parsePart`: nonempty, free of
spaces, tabs and semicolons, and not starting with whitespace. -/
def keyWF (k : String) : Prop :=
  k.data ≠ [] ∧ (∀ c ∈ k.data, isSpTab c = false ∧ c ≠ ';') ∧
    ∀ c, k.data.head? = some c → isWS c = false

/-- Shape of directive values accepted by the round-trip lemma: free of
semicolons, no trailing whitespace, and an empty value only next to a
fully trimmed name. -/
def valWF (k v : String) : Prop :=
  (∀ c ∈ v.data, c ≠ ';') ∧ (∀ c, v.data.getLast? = some c → isWS c = false) ∧
    (v.data = [] → trimL k.data = k.data)

def mapWF (d : Directives) : Prop :=
  (d.map Prod.fst).Nodup ∧ ∀ p ∈ d, keyWF p.1 ∧ valWF p.1 p.2

theorem parsePart_wf (part0 : List Char) (hsemi : ∀ c ∈ part0, c ≠ ';')
    (k v : String) (h : parsePart part0 = some (k, v)) :
    keyWF k ∧ valWF k v ∧ trimL v.data = v.data := by
  unfold parsePart at h
  by_cases hemp : (trimL part0).isEmpty = true
  · rw [if_pos hemp] at h; simp at h
  · rw [if_neg hemp] at h
    have hne : trimL part0 ≠ [] := by
      intro hnil; rw [hnil] at hemp; exact hemp rfl
    have hsemi2 : ∀ c ∈ trimL part0, c ≠ ';' :=
      fun c hc => hsemi c (mem_trimL part0 c hc)
    have hhead : ∀ c, (trimL part0).head? = some c → isWS c = false :=
      fun c hc => trimL_head_clean part0 c hc
    have hlast : ∀ c, (trimL part0).getLast? = some c → isWS c = false :=
      fun c hc => trimL_getLast_clean part0 c hc
    rcases hidx : indexAnyST (trimL part0) with _ | i
    · rw [hidx] at h
      injection h with h
      injection h with hk hv
      subst hk; subst hv
      refine ⟨⟨hne, fun c hc => ⟨indexAnyST_none _ hidx c hc, hsemi2 c hc⟩, hhead⟩,
        ⟨by simp, by simp, fun _ => trimL_idem part0⟩, ?_⟩
      simp [trimL_nil]
    · rw [hidx] at h
      injection h with h
      injection h with hk hv
      subst hk; subst hv
      have hipos : 0 < i := by
        rcases hp : trimL part0 with _ | ⟨a, as⟩
        · exact absurd hp hne
        · refine indexAnyST_pos a as i (hp ▸ hidx) ?_
          have := hhead a (by rw [hp]; rfl)
          have h2 := isWS_of_isSpTab (c := a)
          revert this h2; cases isSpTab a <;> simp
      have hlastc : ∃ c, (trimL part0).getLast? = some c ∧ isWS c = false := by
        rcases hgl : (trimL part0).getLast? with _ | c
        · rcases hp : trimL part0 with _ | ⟨a, as⟩
          · exact absurd hp hne
          · rw [hp] at hgl; simp [List.getLast?_eq_getLast] at hgl
        · exact ⟨c, rfl, hlast c hgl⟩
      obtain ⟨clast, hgl, hclast⟩ := hlastc
      have hlt : i + 1 < (trimL part0).length :=
        indexAnyST_last (trimL part0) i clast hidx hgl hclast
      have hdropne : (trimL part0).drop (i + 1) ≠ [] := by
        intro hnil
        have := List.length_drop (i + 1) (trimL part0)
        rw [hnil] at this
        simp at this
        omega
      have hdlast : ((trimL part0).drop (i + 1)).getLast? = some clast := by
        have hsplit : trimL part0 =
            (trimL part0).take (i + 1) ++ (trimL part0).drop (i + 1) :=
          (List.take_append_drop (i + 1) (trimL part0)).symm
        rw [hsplit, getLast?_append_right _ _ hdropne] at hgl
        exact hgl
      constructor
      · refine ⟨?_, ?_, ?_⟩
        · intro hnil
          have hlen := congrArg List.length hnil
          rw [List.length_take] at hlen
          simp only [List.length_nil] at hlen
          rcases Nat.min_eq_zero_iff.mp hlen with h0 | h0 <;> omega
        · intro c hc
          exact ⟨indexAnyST_take _ i hidx c hc,
            hsemi2 c (((trimL part0).take_sublist i).mem hc)⟩
        · intro c hc
          rw [take_head? _ i hipos] at hc
          exact hhead c hc
      constructor
      · refine ⟨?_, ?_, ?_⟩
        · intro c hc
          exact hsemi2 c (((trimL part0).drop_sublist (i + 1)).mem
            (mem_trimL _ c hc))
        · intro c hc
          exact trimL_getLast_clean _ c hc
        · intro hnil
          exact absurd hnil (trimL_ne_nil _ clast hdlast hclast)
      · exact trimL_idem _

theorem parsePart_ws_cons (c : Char) (l : List Char) (h : isWS c = true) :
    parsePart (c :: l) = parsePart l := by
  unfold parsePart
  rw [trimL_cons_ws c l h]

theorem parsePart_dirLine (k v : String) (hk : keyWF k) (hv : valWF k v) :
    parsePart (dirLine (k, v)) = some (k, trimS v) := by
  obtain ⟨hkne, hkchars, hkhead⟩ := hk
  obtain ⟨hvsemi, hvlast, hvk⟩ := hv
  unfold dirLine
  by_cases hvd : v = ""
  · rw [if_pos hvd]
    have hvdata : v.data = [] := by rw [hvd]
    unfold parsePart
    rw [hvk hvdata]
    rw [if_neg (by simpa using hkne)]
    rw [indexAnyST_all_none k.data fun c hc => (hkchars c hc).1]
    rw [hvd]
    rfl
  · rw [if_neg hvd]
    have hvdne : v.data ≠ [] := by
      intro hnil
      exact hvd (by cases v; simp at hnil; rw [hnil])
    unfold parsePart
    have htrim : trimL (k.data ++ ' ' :: v.data) = k.data ++ ' ' :: v.data := by
      apply trimL_eq_self
      · intro c hc
        rw [head?_append_left k.data _ hkne] at hc
        exact hkhead c hc
      · intro c hc
        rw [getLast?_append_right k.data _ (by simp)] at hc
        rcases hvdata : v.data with _ | ⟨b, bs⟩
        · exact absurd hvdata hvdne
        · rw [hvdata] at hc
          rw [show (' ' :: b :: bs) = [' '] ++ b :: bs from rfl,
            getLast?_append_right [' '] _ (by simp)] at hc
          exact hvlast c (hvdata ▸ hc)
    rw [htrim]
    rw [if_neg (by simp)]
    rw [indexAnyST_append k.data ' ' v.data (fun c hc => (hkchars c hc).1) rfl]
    show some (⟨(k.data ++ ' ' :: v.data).take k.data.length⟩,
        ⟨trimL ((k.data ++ ' ' :: v.data).drop (k.data.length + 1))⟩) = some (k, trimS v)
    rw [List.take_left, drop_append_cons]
    rfl

/-! ## Lemmas about the association-list map operations -/

theorem findD_nil (k : String) : findD [] k = none := rfl

theorem findD_cons (k0 v0 : String) (d : Directives) (k : String) :
    findD ((k0, v0) :: d) k = if k0 = k then some v0 else findD d k := rfl

theorem findD_insertD_self (d : Directives) (k v : String) :
    findD (insertD d k v) k = some v := by
  induction d with
  | nil => simp [insertD, findD]
  | cons p ps ih =>
    unfold insertD
    by_cases hp : p.1 = k
    · rw [if_pos hp]
      simp [findD]
    · rw [if_neg hp]
      rw [show findD (p :: insertD ps k v) k =
        if p.1 = k then some p.2 else findD (insertD ps k v) k from rfl]
      rw [if_neg hp]
      exact ih

theorem findD_insertD_ne (d : Directives) (k v k2 : String) (h : k2 ≠ k) :
    findD (insertD d k v) k2 = findD d k2 := by
  induction d with
  | nil =>
    show (if k = k2 then some v else none) = none
    rw [if_neg (fun hh => h hh.symm)]
  | cons p ps ih =>
    unfold insertD
    by_cases hp : p.1 = k
    · rw [if_pos hp]
      rw [show findD ((k, v) :: ps) k2 = if k = k2 then some v else findD ps k2 from rfl]
      rw [show findD (p :: ps) k2 = if p.1 = k2 then some p.2 else findD ps k2 from rfl]
      rw [if_neg (fun hh => h hh.symm), if_neg (by rw [hp]; exact fun hh => h hh.symm)]
    · rw [if_neg hp]
      rw [show findD (p :: insertD ps k v) k2 =
        if p.1 = k2 then some p.2 else findD (insertD ps k v) k2 from rfl]
      rw [show findD (p :: ps) k2 = if p.1 = k2 then some p.2 else findD ps k2 from rfl]
      by_cases hpk2 : p.1 = k2
      · rw [if_pos hpk2, if_pos hpk2]
      · rw [if_neg hpk2, if_neg hpk2]
        exact ih

theorem mem_insertD (d : Directives) (k v : String) (q : String × String)
    (h : q ∈ insertD d k v) : q ∈ d ∨ q = (k, v) := by
  induction d with
  | nil => simp [insertD] at h; right; exact h
  | cons p ps ih =>
    unfold insertD at h
    by_cases hp : p.1 = k
    · rw [if_pos hp] at h
      rcases List.mem_cons.mp h with rfl | h2
      · right; rfl
      · left; exact List.mem_cons_of_mem _ h2
    · rw [if_neg hp] at h
      rcases List.mem_cons.mp h with rfl | h2
      · left; exact List.mem_cons_self _ _
      · rcases ih h2 with h3 | h3
        · left; exact List.mem_cons_of_mem _ h3
        · right; exact h3

theorem mem_keys_insertD (d : Directives) (k v : String) (x : String)
    (h : x ∈ (insertD d k v).map Prod.fst) : x ∈ d.map Prod.fst ∨ x = k := by
  rcases List.mem_map.mp h with ⟨q, hq, rfl⟩
  rcases mem_insertD d k v q hq with h2 | rfl
  · left; exact List.mem_map_of_mem _ h2
  · right; rfl

theorem nodup_keys_insertD (d : Directives) (k v : String)
    (h : (d.map Prod.fst).Nodup) : ((insertD d k v).map Prod.fst).Nodup := by
  induction d with
  | nil => simp [insertD]
  | cons p ps ih =>
    rw [List.map_cons, List.nodup_cons] at h
    unfold insertD
    by_cases hp : p.1 = k
    · rw [if_pos hp]
      rw [List.map_cons, List.nodup_cons]
      exact ⟨hp ▸ h.1, h.2⟩
    · rw [if_neg hp]
      rw [List.map_cons, List.nodup_cons]
      refine ⟨?_, ih h.2⟩
      intro hmem
      rcases mem_keys_insertD ps k v p.1 hmem with h2 | h2
      · exact h.1 h2
      · exact hp h2

theorem findD_eq_none_of_not_mem (d : Directives) (k : String)
    (h : k ∉ d.map Prod.fst) : findD d k = none := by
  induction d with
  | nil => rfl
  | cons p ps ih =>
    rw [show findD (p :: ps) k = if p.1 = k then some p.2 else findD ps k from rfl]
    rw [List.map_cons] at h
    rw [if_neg (fun hh => h (by rw [← hh]; exact List.mem_cons_self _ _))]
    exact ih fun hh => h (List.mem_cons_of_mem _ hh)

theorem findD_some_mem (d : Directives) (k v : String)
    (h : findD d k = some v) : (k, v) ∈ d := by
  induction d with
  | nil => simp [findD] at h
  | cons p ps ih =>
    rw [show findD (p :: ps) k = if p.1 = k then some p.2 else findD ps k from rfl] at h
    by_cases hp : p.1 = k
    · rw [if_pos hp] at h
      injection h with h
      have hpq : (k, v) = p := by rw [← hp, ← h]
      exact hpq ▸ List.mem_cons_self _ _
    · rw [if_neg hp] at h
      exact List.mem_cons_of_mem _ (ih h)

theorem findD_of_mem_nodup (d : Directives) (k v : String)
    (hd : (d.map Prod.fst).Nodup) (h : (k, v) ∈ d) : findD d k = some v := by
  induction d with
  | nil => simp at h
  | cons p ps ih =>
    rw [List.map_cons, List.nodup_cons] at hd
    rw [show findD (p :: ps) k = if p.1 = k then some p.2 else findD ps k from rfl]
    rcases List.mem_cons.mp h with rfl | h2
    · rw [if_pos rfl]
    · by_cases hp : p.1 = k
      · exfalso
        apply hd.1
        rw [hp]
        exact List.mem_map_of_mem Prod.fst h2
      · rw [if_neg hp]
        exact ih hd.2 h2

/-! ## The parse invariant: every parsed map is well formed -/

theorem splitOnChar_no_sep (sep : Char) :
    ∀ l : List Char, ∀ part ∈ splitOnChar sep l, ∀ c ∈ part, c ≠ sep := by
  intro l
  induction l with
  | nil =>
    intro part hp c hc
    simp only [splitOnChar, List.mem_singleton] at hp
    subst hp; simp at hc
  | cons a as ih =>
    intro part hp c hc
    unfold splitOnChar at hp
    by_cases ha : a = sep
    · rw [if_pos ha] at hp
      rcases List.mem_cons.mp hp with rfl | hp2
      · simp at hc
      · exact ih part hp2 c hc
    · rw [if_neg ha] at hp
      rcases hs : splitOnChar sep as with _ | ⟨p, ps⟩
      · rw [hs] at hp
        simp only [List.mem_singleton] at hp
        subst hp
        rcases List.mem_singleton.mp hc with rfl
        exact ha
      · rw [hs] at hp
        rcases List.mem_cons.mp hp with rfl | hp2
        · rcases List.mem_cons.mp hc with rfl | hc2
          · exact ha
          · exact ih p (by rw [hs]; exact List.mem_cons_self p ps) c hc2
        · exact ih part (by rw [hs]; exact List.mem_cons_of_mem p hp2) c hc

/-- Well-formedness plus fully trimmed values: the invariant of every
map produced by `parseCSPDirectives`. -/
def mapWFT (d : Directives) : Prop :=
  mapWF d ∧ ∀ p ∈ d, trimL p.2.data = p.2.data

theorem parseStep_wft (acc : Directives) (part : List Char)
    (hacc : mapWFT acc) (hpart : ∀ c ∈ part, c ≠ ';') :
    mapWFT (parseStep acc part) := by
  unfold parseStep
  rcases hpp : parsePart part with _ | ⟨k, v⟩
  · exact hacc
  · obtain ⟨hk, hv, htrim⟩ := parsePart_wf part hpart k v hpp
    refine ⟨⟨nodup_keys_insertD acc k v hacc.1.1, ?_⟩, ?_⟩
    · intro p hp
      rcases mem_insertD acc k v p hp with h2 | rfl
      · exact hacc.1.2 p h2
      · exact ⟨hk, hv⟩
    · intro p hp
      rcases mem_insertD acc k v p hp with h2 | rfl
      · exact hacc.2 p h2
      · exact htrim

theorem foldl_parseStep_wft (parts : List (List Char)) :
    ∀ acc : Directives, mapWFT acc →
      (∀ part ∈ parts, ∀ c ∈ part, c ≠ ';') →
      mapWFT (parts.foldl parseStep acc) := by
  induction parts with
  | nil => intro acc hacc _; exact hacc
  | cons part parts ih =>
    intro acc hacc hparts
    rw [List.foldl_cons]
    exact ih (parseStep acc part)
      (parseStep_wft acc part hacc (hparts part (List.mem_cons_self _ _)))
      (fun q hq c hc => hparts q (List.mem_cons_of_mem _ hq) c hc)

theorem parseCSPDirectives_wft (s : String) : mapWFT (parseCSPDirectives s) := by
  unfold parseCSPDirectives
  exact foldl_parseStep_wft _ [] ⟨⟨List.nodup_nil, by simp⟩, by simp⟩
    (fun part hp c hc => splitOnChar_no_sep ';' s.data part hp c hc)

/-! ## The round trip: parsing a reconstructed well-formed map -/

theorem splitOnChar_of_no_sep (sep : Char) :
    ∀ xs : List Char, (∀ c ∈ xs, c ≠ sep) → splitOnChar sep xs = [xs] := by
  intro xs
  induction xs with
  | nil => intro _; rfl
  | cons a as ih =>
    intro h
    unfold splitOnChar
    rw [if_neg (h a (List.mem_cons_self _ _))]
    rw [ih fun c hc => h c (List.mem_cons_of_mem _ hc)]

theorem splitOnChar_cons (sep c : Char) (cs : List Char) :
    splitOnChar sep (c :: cs) =
      if c = sep then [] :: splitOnChar sep cs
      else match splitOnChar sep cs with
        | [] => [[c]]
        | p :: ps => (c :: p) :: ps := rfl

theorem splitOnChar_append_sep (sep : Char) :
    ∀ xs ys : List Char, (∀ c ∈ xs, c ≠ sep) →
      splitOnChar sep (xs ++ sep :: ys) = xs :: splitOnChar sep ys := by
  intro xs
  induction xs with
  | nil =>
    intro ys _
    rw [List.nil_append, splitOnChar_cons, if_pos rfl]
  | cons a as ih =>
    intro ys h
    rw [List.cons_append, splitOnChar_cons]
    rw [if_neg (h a (List.mem_cons_self _ _))]
    rw [ih ys fun c hc => h c (List.mem_cons_of_mem _ hc)]

theorem splitOnChar_cons_ne (sep c : Char) (cs : List Char) (h : c ≠ sep)
    (p : List Char) (ps : List (List Char)) (hs : splitOnChar sep cs = p :: ps) :
    splitOnChar sep (c :: cs) = (c :: p) :: ps := by
  unfold splitOnChar
  rw [if_neg h, hs]

theorem splitOnChar_join (sep2 : Char) (hsep2 : sep2 ≠ ';') :
    ∀ (ls : List (List Char)) (l : List Char),
      (∀ m ∈ l :: ls, ∀ c ∈ m, c ≠ ';') →
      splitOnChar ';' (joinWithL [';', sep2] (l :: ls)) =
        l :: ls.map (fun m => sep2 :: m) := by
  intro ls
  induction ls with
  | nil =>
    intro l h
    show splitOnChar ';' l = [l]
    exact splitOnChar_of_no_sep ';' l (h l (List.mem_cons_self _ _))
  | cons m ms ih =>
    intro l h
    show splitOnChar ';' (l ++ [';', sep2] ++ joinWithL [';', sep2] (m :: ms)) = _
    have hassoc : l ++ [';', sep2] ++ joinWithL [';', sep2] (m :: ms) =
        l ++ ';' :: (sep2 :: joinWithL [';', sep2] (m :: ms)) := by simp
    rw [hassoc]
    rw [splitOnChar_append_sep ';' l _ (h l (List.mem_cons_self _ _))]
    have hrest := ih m (fun q hq c hc => h q (List.mem_cons_of_mem _ hq) c hc)
    rw [splitOnChar_cons_ne ';' sep2 _ hsep2 _ _ hrest]
    rfl

theorem dirLine_no_semi (p : String × String) (hk : keyWF p.1) (hv : valWF p.1 p.2) :
    ∀ c ∈ dirLine p, c ≠ ';' := by
  intro c hc
  unfold dirLine at hc
  by_cases hp2 : p.2 = ""
  · rw [if_pos hp2] at hc
    exact (hk.2.1 c hc).2
  · rw [if_neg hp2] at hc
    rcases List.mem_append.mp hc with h | h
    · exact (hk.2.1 c h).2
    · rcases List.mem_cons.mp h with rfl | h2
      · intro hcon; exact absurd hcon (by decide)
      · exact hv.1 c h2

theorem insertD_not_mem (acc : Directives) (k v : String)
    (h : k ∉ acc.map Prod.fst) : insertD acc k v = acc ++ [(k, v)] := by
  induction acc with
  | nil => rfl
  | cons p ps ih =>
    unfold insertD
    rw [List.map_cons] at h
    rw [if_neg (fun hh => h (by rw [← hh]; exact List.mem_cons_self _ _))]
    rw [ih fun hh => h (List.mem_cons_of_mem _ hh)]
    rfl

theorem foldl_parseStep_of_forall2 :
    ∀ (parts : List (List Char)) (pairs : Directives),
      List.Forall₂ (fun part pr => parsePart part = some pr) parts pairs →
      ∀ acc : Directives, (pairs.map Prod.fst).Nodup →
      (∀ x ∈ pairs.map Prod.fst, x ∉ acc.map Prod.fst) →
      parts.foldl parseStep acc = acc ++ pairs := by
  intro parts pairs hfa
  induction hfa with
  | nil => intro acc _ _; simp
  | cons hp hfa2 ih =>
    rename_i part pr parts2 pairs2
    intro acc hnodup hdisj
    rw [List.foldl_cons]
    have hstep : parseStep acc part = acc ++ [pr] := by
      unfold parseStep
      rw [hp]
      exact insertD_not_mem acc pr.1 pr.2
        (hdisj pr.1 (by rw [List.map_cons]; exact List.mem_cons_self _ _))
    rw [hstep]
    rw [List.map_cons, List.nodup_cons] at hnodup
    rw [ih (acc ++ [pr]) hnodup.2 ?hdisj2]
    · simp
    case hdisj2 =>
      intro x hx
      rw [List.map_append]
      intro hmem
      rcases List.mem_append.mp hmem with h2 | h2
      · exact hdisj x (by rw [List.map_cons]; exact List.mem_cons_of_mem _ hx) h2
      · simp only [List.map_cons, List.map_nil, List.mem_singleton] at h2
        exact hnodup.1 (h2 ▸ hx)

theorem forall2_spaced_lines (qs : Directives)
    (hwf : ∀ p ∈ qs, keyWF p.1 ∧ valWF p.1 p.2) :
    List.Forall₂ (fun part pr => parsePart part = some pr)
      ((qs.map dirLine).map (fun l => ' ' :: l))
      (qs.map fun p => (p.1, trimS p.2)) := by
  induction qs with
  | nil => simp
  | cons q qs ih =>
    simp only [List.map_cons]
    refine List.Forall₂.cons ?_ (ih fun p hp => hwf p (List.mem_cons_of_mem _ hp))
    rw [parsePart_ws_cons ' ' _ rfl]
    have hq := hwf q (List.mem_cons_self _ _)
    have := parsePart_dirLine q.1 q.2 hq.1 hq.2
    rw [show (q.1, q.2) = q from rfl] at this
    exact this

theorem findD_append (l1 l2 : Directives) (k : String) :
    findD (l1 ++ l2) k =
      match findD l1 k with
      | some v => some v
      | none => findD l2 k := by
  induction l1 with
  | nil => rfl
  | cons p ps ih =>
    rw [List.cons_append]
    rw [show findD (p :: (ps ++ l2)) k =
      if p.1 = k then some p.2 else findD (ps ++ l2) k from rfl]
    rw [show findD (p :: ps) k = if p.1 = k then some p.2 else findD ps k from rfl]
    by_cases hp : p.1 = k
    · rw [if_pos hp, if_pos hp]
    · rw [if_neg hp, if_neg hp, ih]

theorem findD_filterMap_findD (d : Directives) :
    ∀ (cs : List String) (k : String),
      findD (cs.filterMap (fun n => (findD d n).map fun v => (n, v))) k =
        if k ∈ cs then findD d k else none := by
  intro cs
  induction cs with
  | nil => intro k; simp [findD]
  | cons n ns ih =>
    intro k
    rw [List.filterMap_cons]
    rcases hfd : findD d n with _ | v
    · show findD (ns.filterMap fun n => (findD d n).map fun v => (n, v)) k =
        if k ∈ n :: ns then findD d k else none
      rw [ih k]
      by_cases hk : k = n
      · subst hk
        by_cases hmem : k ∈ ns
        · rw [if_pos hmem, if_pos (List.mem_cons_self _ _)]
        · rw [if_neg hmem, if_pos (List.mem_cons_self _ _), hfd]
      · by_cases hmem : k ∈ ns
        · rw [if_pos hmem, if_pos (List.mem_cons_of_mem _ hmem)]
        · rw [if_neg hmem, if_neg (by
            intro hcon
            rcases List.mem_cons.mp hcon with h2 | h2
            · exact hk h2
            · exact hmem h2)]
    · show findD ((n, v) :: ns.filterMap fun n => (findD d n).map fun v => (n, v)) k =
        if k ∈ n :: ns then findD d k else none
      rw [show findD ((n, v) :: ns.filterMap fun n => (findD d n).map fun v => (n, v)) k =
        if n = k then some v else findD (ns.filterMap fun n => (findD d n).map fun v => (n, v)) k
        from rfl]
      by_cases hk : n = k
      · rw [if_pos hk, if_pos (by rw [← hk]; exact List.mem_cons_self _ _)]
        rw [← hk, hfd]
      · rw [if_neg hk, ih k]
        by_cases hmem : k ∈ ns
        · rw [if_pos hmem, if_pos (List.mem_cons_of_mem _ hmem)]
        · rw [if_neg hmem, if_neg (by
            intro hcon
            rcases List.mem_cons.mp hcon with h2 | h2
            · exact hk h2.symm
            · exact hmem h2)]

theorem findD_filter_pos (d : Directives) (pred : String → Bool) (k : String)
    (hk : pred k = true) :
    findD (d.filter fun p => pred p.1) k = findD d k := by
  induction d with
  | nil => rfl
  | cons p ps ih =>
    rw [List.filter_cons]
    rw [show findD (p :: ps) k = if p.1 = k then some p.2 else findD ps k from rfl]
    by_cases hpred : pred p.1 = true
    · rw [if_pos hpred]
      rw [show findD (p :: ps.filter fun p => pred p.1) k =
        if p.1 = k then some p.2 else findD (ps.filter fun p => pred p.1) k from rfl]
      by_cases hp : p.1 = k
      · rw [if_pos hp, if_pos hp]
      · rw [if_neg hp, if_neg hp, ih]
    · rw [if_neg hpred]
      have hp : p.1 ≠ k := by
        intro hcon; rw [hcon] at hpred; exact hpred hk
      rw [if_neg hp, ih]

theorem findD_filter_neg (d : Directives) (pred : String → Bool) (k : String)
    (hk : pred k = false) :
    findD (d.filter fun p => pred p.1) k = none := by
  induction d with
  | nil => rfl
  | cons p ps ih =>
    rw [List.filter_cons]
    by_cases hpred : pred p.1 = true
    · rw [if_pos hpred]
      rw [show findD (p :: ps.filter fun p => pred p.1) k =
        if p.1 = k then some p.2 else findD (ps.filter fun p => pred p.1) k from rfl]
      have hp : p.1 ≠ k := by
        intro hcon; rw [hcon] at hpred; rw [hpred] at hk; exact Bool.true_eq_false.mp hk
      rw [if_neg hp, ih]
    · rw [if_neg hpred, ih]

theorem mem_orderedDirectives_iff_any (k : String) :
    (orderedDirectives.any fun n => decide (n = k)) = true ↔ k ∈ orderedDirectives := by
  rw [List.any_eq_true]
  constructor
  · rintro ⟨n, hn, hdec⟩
    rw [decide_eq_true_eq] at hdec
    rw [← hdec]; exact hn
  · intro hk
    exact ⟨k, hk, by simp⟩

theorem findD_emitPairs (d : Directives) (k : String) :
    findD (emitPairs d) k = findD d k := by
  unfold emitPairs
  rw [findD_append]
  rw [findD_filterMap_findD d orderedDirectives k]
  by_cases hk : k ∈ orderedDirectives
  · rw [if_pos hk]
    rcases hfd : findD d k with _ | v
    · show findD (d.filter fun p => !(orderedDirectives.any fun n => decide (n = p.1))) k = none
      exact findD_filter_neg d (fun x => !(orderedDirectives.any fun n => decide (n = x))) k (by
        rw [Bool.not_eq_false']
        exact (mem_orderedDirectives_iff_any k).mpr hk)
    · rfl
  · rw [if_neg hk]
    show findD (d.filter fun p => !(orderedDirectives.any fun n => decide (n = p.1))) k = findD d k
    exact findD_filter_pos d (fun x => !(orderedDirectives.any fun n => decide (n = x))) k (by
      rw [Bool.not_eq_true']
      rw [Bool.eq_false_iff]
      intro hcon
      exact hk ((mem_orderedDirectives_iff_any k).mp hcon))

theorem keys_filterMap_findD (d : Directives) (cs : List String) :
    (cs.filterMap (fun n => (findD d n).map fun v => (n, v))).map Prod.fst
      = cs.filter (fun n => (findD d n).isSome) := by
  induction cs with
  | nil => rfl
  | cons n ns ih =>
    rw [List.filterMap_cons, List.filter_cons]
    rcases hfd : findD d n with _ | v
    · show (List.filterMap (fun n => (findD d n).map fun v => (n, v)) ns).map Prod.fst =
        if (none : Option String).isSome = true
        then n :: ns.filter (fun n => (findD d n).isSome)
        else ns.filter fun n => (findD d n).isSome
      simp only [Option.isSome_none, Bool.false_eq_true, if_false]
      exact ih
    · show ((n, v) :: List.filterMap (fun n => (findD d n).map fun v => (n, v)) ns).map Prod.fst =
        if (some v).isSome = true
        then n :: ns.filter (fun n => (findD d n).isSome)
        else ns.filter fun n => (findD d n).isSome
      simp only [Option.isSome_some, if_true, List.map_cons]
      rw [ih]

theorem nodup_keys_emitPairs (d : Directives) (hd : (d.map Prod.fst).Nodup) :
    ((emitPairs d).map Prod.fst).Nodup := by
  unfold emitPairs
  rw [List.map_append]
  refine List.Nodup.append ?_ ?_ ?_
  · rw [keys_filterMap_findD]
    exact List.Nodup.filter _ (by decide)
  · exact List.Nodup.sublist (List.Sublist.map Prod.fst (List.filter_sublist d)) hd
  · intro x hx1 hx2
    rw [keys_filterMap_findD] at hx1
    have hxord : x ∈ orderedDirectives := List.mem_of_mem_filter hx1
    rcases List.mem_map.mp hx2 with ⟨q, hq, rfl⟩
    have hpred := List.of_mem_filter hq
    rw [Bool.not_eq_true'] at hpred
    rw [Bool.eq_false_iff] at hpred
    exact hpred ((mem_orderedDirectives_iff_any q.1).mpr hxord)

theorem emitPairs_subset (d : Directives) : ∀ p ∈ emitPairs d, p ∈ d := by
  intro p hp
  rcases List.mem_append.mp hp with h | h
  · rcases List.mem_filterMap.mp h with ⟨n, hn, hmap⟩
    rcases hfd : findD d n with _ | v
    · rw [hfd] at hmap; simp at hmap
    · rw [hfd] at hmap
      simp only [Option.map_some', Option.some.injEq] at hmap
      rw [← hmap]
      exact findD_some_mem d n v hfd
  · exact List.mem_of_mem_filter h

theorem findD_map_value (l : Directives) (g : String → String) (k : String) :
    findD (l.map fun p => (p.1, g p.2)) k = (findD l k).map g := by
  induction l with
  | nil => rfl
  | cons p ps ih =>
    rw [List.map_cons]
    rw [show findD ((p.1, g p.2) :: ps.map fun p => (p.1, g p.2)) k =
      if p.1 = k then some (g p.2) else findD (ps.map fun p => (p.1, g p.2)) k from rfl]
    rw [show findD (p :: ps) k = if p.1 = k then some p.2 else findD ps k from rfl]
    by_cases hp : p.1 = k
    · rw [if_pos hp, if_pos hp]
      rfl
    · rw [if_neg hp, if_neg hp, ih]

/-- Parsing the reconstruction of a well-formed directive map returns the
emitted pair sequence with each value trimmed. -/
theorem parse_reconstruct (d : Directives) (hd : mapWF d) :
    parseCSPDirectives (reconstructCSP d) =
      (emitPairs d).map fun p => (p.1, trimS p.2) := by
  have hwfemit : ∀ p ∈ emitPairs d, keyWF p.1 ∧ valWF p.1 p.2 :=
    fun p hp => hd.2 p (emitPairs_subset d p hp)
  unfold parseCSPDirectives reconstructCSP
  rcases hemit : emitPairs d with _ | ⟨q, qs⟩
  · rfl
  · rw [List.map_cons]
    have hnosemi : ∀ m ∈ dirLine q :: qs.map dirLine, ∀ c ∈ m, c ≠ ';' := by
      intro m hm c hc
      rcases List.mem_cons.mp hm with rfl | hm2
      · have hq := hwfemit q (by rw [hemit]; exact List.mem_cons_self _ _)
        exact dirLine_no_semi q hq.1 hq.2 c hc
      · rcases List.mem_map.mp hm2 with ⟨q2, hq2, rfl⟩
        have hq := hwfemit q2 (by rw [hemit]; exact List.mem_cons_of_mem _ hq2)
        exact dirLine_no_semi q2 hq.1 hq.2 c hc
    rw [show (String.mk (joinWithL [';', ' '] (dirLine q :: qs.map dirLine))).data
      = joinWithL [';', ' '] (dirLine q :: qs.map dirLine) from rfl]
    rw [splitOnChar_join ' ' (by decide) (qs.map dirLine) (dirLine q) hnosemi]
    have hq := hwfemit q (by rw [hemit]; exact List.mem_cons_self _ _)
    have hfa : List.Forall₂ (fun part pr => parsePart part = some pr)
        (dirLine q :: (qs.map dirLine).map (fun l => ' ' :: l))
        ((q.1, trimS q.2) :: qs.map fun p => (p.1, trimS p.2)) := by
      refine List.Forall₂.cons ?_ ?_
      · have := parsePart_dirLine q.1 q.2 hq.1 hq.2
        rw [show (q.1, q.2) = q from rfl] at this
        exact this
      · exact forall2_spaced_lines qs
          (fun p hp => hwfemit p (by rw [hemit]; exact List.mem_cons_of_mem _ hp))
    have hkeys : (((q.1, trimS q.2) :: qs.map fun p => (p.1, trimS p.2)).map Prod.fst).Nodup := by
      have h1 : ((q :: qs).map fun p => (p.1, trimS p.2)).map Prod.fst
          = (q :: qs).map Prod.fst := by
        rw [List.map_map]
        rfl
      have h2 := nodup_keys_emitPairs d hd.1
      rw [hemit] at h2
      rw [show ((q.1, trimS q.2) :: qs.map fun p => (p.1, trimS p.2))
        = (q :: qs).map fun p => (p.1, trimS p.2) from rfl]
      rw [h1]
      exact h2
    have := foldl_parseStep_of_forall2 _ _ hfa [] hkeys (by simp)
    rw [this]
    rw [List.nil_append]
    rfl

/-- The round-trip lemma: after reconstructing a well-formed directive
map and parsing the result, looking up any directive returns the trimmed
original value. -/
theorem findD_parse_reconstruct (d : Directives) (hd : mapWF d) (k : String) :
    findD (parseCSPDirectives (reconstructCSP d)) k = (findD d k).map trimS := by
  rw [parse_reconstruct d hd]
  rw [findD_map_value]
  rw [findD_emitPairs]

theorem map_trimS_id (l : Directives) (ht : ∀ p ∈ l, trimL p.2.data = p.2.data) :
    (l.map fun p => (p.1, trimS p.2)) = l := by
  induction l with
  | nil => rfl
  | cons p ps ih =>
    rw [List.map_cons]
    have htp : trimS p.2 = p.2 := by
      unfold trimS
      rw [ht p (List.mem_cons_self _ _)]
    rw [htp, ih fun q hq => ht q (List.mem_cons_of_mem _ hq)]

theorem emitPairs_perm (d : Directives) (hd : (d.map Prod.fst).Nodup) :
    (emitPairs d).Perm d := by
  have hnd : d.Nodup := hd.of_map
  have hne : (emitPairs d).Nodup := (nodup_keys_emitPairs d hd).of_map
  rw [List.perm_ext_iff_of_nodup hne hnd]
  intro p
  constructor
  · exact fun hp => emitPairs_subset d p hp
  · intro hp
    unfold emitPairs
    rw [List.mem_append]
    by_cases hcanon : p.1 ∈ orderedDirectives
    · left
      rw [List.mem_filterMap]
      refine ⟨p.1, hcanon, ?_⟩
      rw [findD_of_mem_nodup d p.1 p.2 hd (by
        rw [show (p.1, p.2) = p from rfl]; exact hp)]
      rfl
    · right
      rw [List.mem_filter]
      refine ⟨hp, ?_⟩
      rw [Bool.not_eq_true']
      rw [Bool.eq_false_iff]
      intro hcon
      exact hcanon ((mem_orderedDirectives_iff_any p.1).mp hcon)

/-- **C2**: for every header string `h`, reconstructing the parsed
directive map and parsing the result is directive-set-equivalent to
parsing `h`: every directive name looks up to the same value, the entry
lists are permutations of each other, and the order normalizes to the
canonical emission order (canonical directives first, the remaining
directives after). -/
theorem reconstruct_parse_equiv (h : String) :
    (∀ k : String,
      findD (parseCSPDirectives (reconstructCSP (parseCSPDirectives h))) k =
        findD (parseCSPDirectives h) k) ∧
    (parseCSPDirectives (reconstructCSP (parseCSPDirectives h))).Perm
      (parseCSPDirectives h) ∧
    parseCSPDirectives (reconstructCSP (parseCSPDirectives h)) =
      emitPairs (parseCSPDirectives h) := by
  have hwft := parseCSPDirectives_wft h
  have h1 : parseCSPDirectives (reconstructCSP (parseCSPDirectives h)) =
      emitPairs (parseCSPDirectives h) := by
    rw [parse_reconstruct _ hwft.1]
    exact map_trimS_id _ fun p hp =>
      hwft.2 p (emitPairs_subset _ p hp)
  refine ⟨?_, ?_, h1⟩
  · intro k
    rw [h1, findD_emitPairs]
  · rw [h1]
    exact emitPairs_perm _ hwft.1.1

/-! ## parser.go: UpdateCSP (hash merge) -/

/-- The exists/absent pattern of every hash-appending block of
parser.go `UpdateCSP`: append the space-joined hashes to the existing
directive value, or create the directive from the joined hashes alone. -/
def appendHashes (cur : Option String) (hashes : List String) : String :=
  match cur with
  | some s => s ++ " " ++ joinStrings " " hashes
  | none => joinStrings " " hashes

/-- The `'unsafe-hashes'` pattern of parser.go `UpdateCSP`: when `cond`
holds and the directive's value does not already contain
`'unsafe-hashes'`, append that token to the value. -/
def addUnsafeHashesIf (cond : Bool) (d1 : Directives) (nm : String) : Directives :=
  if cond && !containsS (getD d1 nm) "'unsafe-hashes'" then
    insertD d1 nm (getD d1 nm ++ " 'unsafe-hashes'")
  else d1

/-- The script-src block of parser.go `UpdateCSP`: append the space-joined
script hashes to `script-src` (creating it when absent) and add
`'unsafe-hashes'` when event handlers were found and the token is not
already present. -/
def updateScriptSrc (directives : Directives) (scriptHashes : List String)
    (hasEventHandlers : Bool) : Directives :=
  if scriptHashes.length > 0 then
    addUnsafeHashesIf hasEventHandlers
      (insertD directives "script-src"
        (appendHashes (findD directives "script-src") scriptHashes))
      "script-src"
  else directives

/-- The style-tag block of parser.go `UpdateCSP`: append the space-joined
style-tag hashes to `style-src`, creating it when absent. -/
def updateStyleTags (directives : Directives) (styleTagHashes : List String) : Directives :=
  if styleTagHashes.length > 0 then
    insertD directives "style-src"
      (appendHashes (findD directives "style-src") styleTagHashes)
  else directives

/-- The style-attribute block of parser.go `UpdateCSP`: append the
space-joined style-attribute hashes to `style-src-attr` when that
directive already exists and to `style-src` otherwise, then add
`'unsafe-hashes'` unless it is already present (the block's unconditional
check is `addUnsafeHashesIf` with a true condition). -/
def updateStyleAttrs (directives : Directives) (styleAttrHashes : List String) : Directives :=
  if styleAttrHashes.length > 0 then
    let directiveName :=
      if (findD directives "style-src-attr").isSome then "style-src-attr" else "style-src"
    addUnsafeHashesIf true
      (insertD directives directiveName
        (appendHashes (findD directives directiveName) styleAttrHashes))
      directiveName
  else directives

/-- parser.go `UpdateCSP`: parse the header, run the three hash-merge
blocks in order, reconstruct, and return a nil error. -/
def UpdateCSP (cspHeader : String) (scriptHashes styleTagHashes styleAttrHashes : List String)
    (hasEventHandlers : Bool) : String × Option String :=
  let directives := parseCSPDirectives cspHeader
  let directives := updateScriptSrc directives scriptHashes hasEventHandlers
  let directives := updateStyleTags directives styleTagHashes
  let directives := updateStyleAttrs directives styleAttrHashes
  (reconstructCSP directives, none)

/-- The strict-CSP file, `MergeStrictCSPWithHashes`: add hashes to a
strict policy, touching a directive only when there is something to add. -/
def MergeStrictCSPWithHashes (strictCSP : String)
    (scriptHashes styleTagHashes styleAttrHashes : List String)
    (hasEventHandlers : Bool) : String × Option String :=
  let directives := parseCSPDirectives strictCSP
  let directives :=
    if scriptHashes.length > 0 || hasEventHandlers then
      let scriptSrc := getD directives "script-src"
      let scriptSrc :=
        if scriptHashes.length > 0 then
          if scriptSrc ≠ "" then scriptSrc ++ " " ++ joinStrings " " scriptHashes
          else joinStrings " " scriptHashes
        else scriptSrc
      let scriptSrc :=
        if hasEventHandlers && !containsS scriptSrc "'unsafe-hashes'" then
          if scriptSrc ≠ "" then scriptSrc ++ " 'unsafe-hashes'" else "'unsafe-hashes'"
        else scriptSrc
      insertD directives "script-src" scriptSrc
    else directives
  let directives :=
    if styleTagHashes.length > 0 || styleAttrHashes.length > 0 then
      let styleSrc := getD directives "style-src"
      let styleSrc :=
        if styleTagHashes.length > 0 then
          if styleSrc ≠ "" then styleSrc ++ " " ++ joinStrings " " styleTagHashes
          else joinStrings " " styleTagHashes
        else styleSrc
      let styleSrc :=
        if styleAttrHashes.length > 0 then
          if styleSrc ≠ "" then styleSrc ++ " " ++ joinStrings " " styleAttrHashes
          else joinStrings " " styleAttrHashes
        else styleSrc
      let styleSrc :=
        if styleAttrHashes.length > 0 && !containsS styleSrc "'unsafe-hashes'" then
          if styleSrc ≠ "" then styleSrc ++ " 'unsafe-hashes'" else "'unsafe-hashes'"
        else styleSrc
      insertD directives "style-src" styleSrc
    else directives
  (reconstructCSP directives, none)

/-! ## Token shapes for hash lists and appended values -/

/-- A well-formed CSP source token: nonempty, no whitespace, no semicolon
(hash tokens such as a quoted sha256 value have this shape). -/
abbrev tokenWF (x : String) : Prop :=
  x.data ≠ [] ∧ ∀ c ∈ x.data, isWS c = false ∧ c ≠ ';'

/-- A nonempty chunk free of semicolons whose first and last characters
are not whitespace (the shape of a space-join of well-formed tokens). -/
def chunkWF (x : String) : Prop :=
  x.data ≠ [] ∧ (∀ c ∈ x.data, c ≠ ';') ∧
    (∀ c, x.data.head? = some c → isWS c = false) ∧
    (∀ c, x.data.getLast? = some c → isWS c = false)

theorem data_append (a b : String) : (a ++ b).data = a.data ++ b.data := rfl

theorem chunkWF_token (x : String) (h : tokenWF x) : chunkWF x := by
  refine ⟨h.1, fun c hc => (h.2 c hc).2, ?_, ?_⟩
  · intro c hc
    cases hd : x.data with
    | nil => rw [hd] at hc; simp at hc
    | cons a as =>
      rw [hd] at hc
      simp only [List.head?_cons, Option.some.injEq] at hc
      exact hc ▸ (h.2 a (by rw [hd]; exact List.mem_cons_self _ _)).1
  · intro c hc
    exact (h.2 c (getLast?_mem _ c hc)).1

theorem chunkWF_append_token (a b : String) (ha : chunkWF a) (hb : chunkWF b) :
    chunkWF (a ++ " " ++ b) := by
  have hdata : (a ++ " " ++ b).data = a.data ++ ' ' :: b.data := by
    rw [data_append, data_append]
    simp
  refine ⟨?_, ?_, ?_, ?_⟩
  · rw [hdata]
    intro hnil
    exact List.append_ne_nil_of_right_ne_nil _ (by simp) hnil
  · intro c hc
    rw [hdata] at hc
    rcases List.mem_append.mp hc with h2 | h2
    · exact ha.2.1 c h2
    · rcases List.mem_cons.mp h2 with rfl | h3
      · decide
      · exact hb.2.1 c h3
  · intro c hc
    rw [hdata, head?_append_left _ _ ha.1] at hc
    exact ha.2.2.1 c hc
  · intro c hc
    rw [hdata, getLast?_append_right _ _ (by simp)] at hc
    rw [show (' ' :: b.data) = [' '] ++ b.data from rfl,
      getLast?_append_right _ _ hb.1] at hc
    exact hb.2.2.2 c hc

theorem joinStrings_chunkWF :
    ∀ hs : List String, hs ≠ [] → (∀ x ∈ hs, tokenWF x) →
      chunkWF (joinStrings " " hs) := by
  intro hs
  induction hs with
  | nil => intro hne _; exact absurd rfl hne
  | cons x xs ih =>
    intro _ hwf
    cases xs with
    | nil =>
      have : joinStrings " " [x] = x := by
        unfold joinStrings
        rfl
      rw [this]
      exact chunkWF_token x (hwf x (List.mem_cons_self _ _))
    | cons y ys =>
      have hrest := ih (by simp) (fun z hz => hwf z (List.mem_cons_of_mem _ hz))
      have hx := chunkWF_token x (hwf x (List.mem_cons_self _ _))
      have : joinStrings " " (x :: y :: ys) = x ++ " " ++ joinStrings " " (y :: ys) := by
        unfold joinStrings
        rw [List.map_cons, List.map_cons]
        rfl
      rw [this]
      exact chunkWF_append_token _ _ hx hrest

/-- Values obtained by appending a chunk after an existing value: no
semicolons and a clean trailing character, hence acceptable to the
round-trip lemma. -/
theorem valWF_append_chunk (k a b : String)
    (ha : ∀ c ∈ a.data, c ≠ ';') (hb : chunkWF b) : valWF k (a ++ " " ++ b) := by
  have hdata : (a ++ " " ++ b).data = a.data ++ ' ' :: b.data := by
    rw [data_append, data_append]
    simp
  refine ⟨?_, ?_, ?_⟩
  · intro c hc
    rw [hdata] at hc
    rcases List.mem_append.mp hc with h2 | h2
    · exact ha c h2
    · rcases List.mem_cons.mp h2 with rfl | h3
      · decide
      · exact hb.2.1 c h3
  · intro c hc
    rw [hdata, getLast?_append_right _ _ (by simp)] at hc
    rw [show (' ' :: b.data) = [' '] ++ b.data from rfl,
      getLast?_append_right _ _ hb.1] at hc
    exact hb.2.2.2 c hc
  · intro hnil
    rw [hdata] at hnil
    exact absurd hnil (List.append_ne_nil_of_right_ne_nil _ (by simp))

theorem valWF_of_chunk (k v : String) (h : chunkWF v) : valWF k v :=
  ⟨h.2.1, h.2.2.2, fun hnil => absurd hnil h.1⟩

theorem mapWF_insertD (d : Directives) (k v : String)
    (hd : mapWF d) (hk : keyWF k) (hv : valWF k v) : mapWF (insertD d k v) := by
  refine ⟨nodup_keys_insertD d k v hd.1, ?_⟩
  intro p hp
  rcases mem_insertD d k v p hp with h2 | rfl
  · exact hd.2 p h2
  · exact ⟨hk, hv⟩

theorem mapWF_no_semi (d : Directives) (hd : mapWF d) (k v : String)
    (h : findD d k = some v) : ∀ c ∈ v.data, c ≠ ';' :=
  fun c hc => ((hd.2 (k, v) (findD_some_mem d k v h)).2).1 c hc

theorem string_data_ext (a b : String) (h : a.data = b.data) : a = b :=
  congrArg String.mk h

theorem head?_mem : ∀ (l : List Char) (c : Char), l.head? = some c → c ∈ l := by
  intro l c h
  cases l with
  | nil => simp at h
  | cons a as =>
    simp only [List.head?_cons, Option.some.injEq] at h
    rw [← h]
    exact List.mem_cons_self _ _

theorem keyWF_of_forall (k : String) (h1 : k.data ≠ [])
    (h2 : ∀ c ∈ k.data, isSpTab c = false ∧ c ≠ ';' ∧ isWS c = false) : keyWF k := by
  refine ⟨h1, fun c hc => ⟨(h2 c hc).1, (h2 c hc).2.1⟩, ?_⟩
  intro c hc
  exact (h2 c (head?_mem _ c hc)).2.2

/-- The claim-level "append `'unsafe-hashes'` unless already present". -/
def forceUnsafeHashes (s : String) : String :=
  if containsS s "'unsafe-hashes'" then s else s ++ " 'unsafe-hashes'"

theorem valWF_appendHashes (d : Directives) (hd : mapWF d) (nm k : String)
    (hs : List String) (hne : hs ≠ []) (hsh : ∀ x ∈ hs, tokenWF x) :
    valWF k (appendHashes (findD d nm) hs) := by
  rcases h : findD d nm with _ | s
  · exact valWF_of_chunk _ _ (joinStrings_chunkWF hs hne hsh)
  · exact valWF_append_chunk k s _ (mapWF_no_semi d hd nm s h) (joinStrings_chunkWF hs hne hsh)

theorem append_uh_eq (V : String) :
    V ++ " 'unsafe-hashes'" = V ++ " " ++ "'unsafe-hashes'" := by
  apply string_data_ext
  rw [data_append, data_append, data_append]
  simp

theorem addUnsafeHashesIf_spec (cond : Bool) (d1 : Directives) (nm : String) (V : String)
    (hfind : findD d1 nm = some V) (hd1 : mapWF d1) (hkey : keyWF nm) (hval : valWF nm V) :
    mapWF (addUnsafeHashesIf cond d1 nm) ∧
    (∀ k, k ≠ nm → findD (addUnsafeHashesIf cond d1 nm) k = findD d1 k) ∧
    findD (addUnsafeHashesIf cond d1 nm) nm =
      some (if cond then forceUnsafeHashes V else V) := by
  unfold addUnsafeHashesIf
  have hget : getD d1 nm = V := by unfold getD; rw [hfind]; rfl
  rw [hget]
  by_cases hcond : (cond && !containsS V "'unsafe-hashes'") = true
  · rw [if_pos hcond]
    rw [Bool.and_eq_true] at hcond
    have hc2 : containsS V "'unsafe-hashes'" = false := by
      have h2 := hcond.2
      revert h2
      cases containsS V "'unsafe-hashes'" <;> simp
    refine ⟨?_, ?_, ?_⟩
    · refine mapWF_insertD d1 nm _ hd1 hkey ?_
      rw [append_uh_eq]
      exact valWF_append_chunk nm V _ hval.1 (chunkWF_token _ (by decide))
    · exact fun k hk => findD_insertD_ne d1 nm _ k hk
    · rw [findD_insertD_self]
      congr 1
      rw [hcond.1, if_pos rfl]
      unfold forceUnsafeHashes
      rw [hc2]
      rw [if_neg (by simp)]
  · rw [if_neg hcond]
    refine ⟨hd1, fun k _ => rfl, ?_⟩
    rw [hfind]
    congr 1
    cases hcondb : cond with
    | false => rw [if_neg (by simp)]
    | true =>
      rw [if_pos rfl]
      rw [hcondb] at hcond
      have hc2 : containsS V "'unsafe-hashes'" = true := by
        revert hcond
        cases containsS V "'unsafe-hashes'" <;> simp
      unfold forceUnsafeHashes
      rw [hc2, if_pos rfl]

theorem updateScriptSrc_spec (d : Directives) (sh : List String) (ev : Bool)
    (hd : mapWF d) (hsh : ∀ x ∈ sh, tokenWF x) :
    mapWF (updateScriptSrc d sh ev) ∧
    (∀ k, k ≠ "script-src" → findD (updateScriptSrc d sh ev) k = findD d k) ∧
    (sh = [] → updateScriptSrc d sh ev = d) ∧
    (sh ≠ [] → findD (updateScriptSrc d sh ev) "script-src" =
      some (if ev then forceUnsafeHashes (appendHashes (findD d "script-src") sh)
            else appendHashes (findD d "script-src") sh)) := by
  by_cases hshe : sh = []
  · subst hshe
    have hnone : updateScriptSrc d [] ev = d := by
      unfold updateScriptSrc
      rfl
    rw [hnone]
    exact ⟨hd, fun k _ => rfl, fun _ => rfl, fun hne => absurd rfl hne⟩
  · have hlen : sh.length > 0 := List.length_pos.mpr hshe
    have hkey : keyWF "script-src" := keyWF_of_forall _ (by decide) (by decide)
    have hval : valWF "script-src" (appendHashes (findD d "script-src") sh) :=
      valWF_appendHashes d hd "script-src" "script-src" sh hshe hsh
    have hrw : updateScriptSrc d sh ev =
        addUnsafeHashesIf ev
          (insertD d "script-src" (appendHashes (findD d "script-src") sh))
          "script-src" := by
      unfold updateScriptSrc
      rw [if_pos hlen]
    have hmid : mapWF (insertD d "script-src" (appendHashes (findD d "script-src") sh)) :=
      mapWF_insertD d _ _ hd hkey hval
    have hfind1 : findD (insertD d "script-src" (appendHashes (findD d "script-src") sh))
        "script-src" = some (appendHashes (findD d "script-src") sh) :=
      findD_insertD_self d _ _
    have hspec := addUnsafeHashesIf_spec ev _ "script-src" _ hfind1 hmid hkey hval
    refine ⟨hrw ▸ hspec.1, ?_, fun hcon => absurd hcon hshe, ?_⟩
    · intro k hk
      rw [hrw, hspec.2.1 k hk]
      exact findD_insertD_ne d _ _ k hk
    · intro _
      rw [hrw, hspec.2.2]

theorem updateStyleTags_spec (d : Directives) (sth : List String)
    (hd : mapWF d) (hsth : ∀ x ∈ sth, tokenWF x) :
    mapWF (updateStyleTags d sth) ∧
    (∀ k, k ≠ "style-src" → findD (updateStyleTags d sth) k = findD d k) ∧
    (sth = [] → updateStyleTags d sth = d) ∧
    (sth ≠ [] → findD (updateStyleTags d sth) "style-src" =
      some (appendHashes (findD d "style-src") sth)) := by
  by_cases hse : sth = []
  · subst hse
    have hnone : updateStyleTags d [] = d := by
      unfold updateStyleTags
      rfl
    rw [hnone]
    exact ⟨hd, fun k _ => rfl, fun _ => rfl, fun hne => absurd rfl hne⟩
  · have hlen : sth.length > 0 := List.length_pos.mpr hse
    have hkey : keyWF "style-src" := keyWF_of_forall _ (by decide) (by decide)
    have hval : valWF "style-src" (appendHashes (findD d "style-src") sth) :=
      valWF_appendHashes d hd "style-src" "style-src" sth hse hsth
    have hrw : updateStyleTags d sth =
        insertD d "style-src" (appendHashes (findD d "style-src") sth) := by
      unfold updateStyleTags
      rw [if_pos hlen]
    refine ⟨hrw ▸ mapWF_insertD d _ _ hd hkey hval, ?_, fun hcon => absurd hcon hse, ?_⟩
    · intro k hk
      rw [hrw]
      exact findD_insertD_ne d _ _ k hk
    · intro _
      rw [hrw]
      exact findD_insertD_self d _ _

theorem updateStyleAttrs_spec (d : Directives) (sah : List String)
    (hd : mapWF d) (hsah : ∀ x ∈ sah, tokenWF x) :
    mapWF (updateStyleAttrs d sah) ∧
    (∀ k, k ≠ "style-src" → k ≠ "style-src-attr" →
      findD (updateStyleAttrs d sah) k = findD d k) ∧
    (sah = [] → updateStyleAttrs d sah = d) ∧
    (sah ≠ [] → (findD d "style-src-attr").isSome = true →
      findD (updateStyleAttrs d sah) "style-src-attr" =
        some (forceUnsafeHashes (appendHashes (findD d "style-src-attr") sah)) ∧
      findD (updateStyleAttrs d sah) "style-src" = findD d "style-src") ∧
    (sah ≠ [] → findD d "style-src-attr" = none →
      findD (updateStyleAttrs d sah) "style-src" =
        some (forceUnsafeHashes (appendHashes (findD d "style-src") sah)) ∧
      findD (updateStyleAttrs d sah) "style-src-attr" = none) := by
  by_cases hse : sah = []
  · subst hse
    have hnone : updateStyleAttrs d [] = d := by
      unfold updateStyleAttrs
      rfl
    rw [hnone]
    exact ⟨hd, fun k _ _ => rfl, fun _ => rfl,
      fun hne => absurd rfl hne, fun hne => absurd rfl hne⟩
  · have hlen : sah.length > 0 := List.length_pos.mpr hse
    by_cases hattr : (findD d "style-src-attr").isSome = true
    · have hrw : updateStyleAttrs d sah =
          addUnsafeHashesIf true
            (insertD d "style-src-attr" (appendHashes (findD d "style-src-attr") sah))
            "style-src-attr" := by
        unfold updateStyleAttrs
        rw [if_pos hlen, hattr]
        rfl
      have hkey : keyWF "style-src-attr" := keyWF_of_forall _ (by decide) (by decide)
      have hval : valWF "style-src-attr" (appendHashes (findD d "style-src-attr") sah) :=
        valWF_appendHashes d hd "style-src-attr" "style-src-attr" sah hse hsah
      have hmid := mapWF_insertD d "style-src-attr" _ hd hkey hval
      have hfind1 : findD (insertD d "style-src-attr"
          (appendHashes (findD d "style-src-attr") sah)) "style-src-attr" =
          some (appendHashes (findD d "style-src-attr") sah) :=
        findD_insertD_self d _ _
      have hspec := addUnsafeHashesIf_spec true _ "style-src-attr" _ hfind1 hmid hkey hval
      refine ⟨hrw ▸ hspec.1, ?_, fun hcon => absurd hcon hse, ?_, ?_⟩
      · intro k hk1 hk2
        rw [hrw, hspec.2.1 k hk2]
        exact findD_insertD_ne d _ _ k hk2
      · intro _ _
        constructor
        · rw [hrw, hspec.2.2]
          rw [if_pos rfl]
        · rw [hrw, hspec.2.1 "style-src" (by decide)]
          exact findD_insertD_ne d _ _ _ (by decide)
      · intro _ hnone
        rw [hnone] at hattr
        simp at hattr
    · have hnone2 : findD d "style-src-attr" = none := by
        rcases hf : findD d "style-src-attr" with _ | v
        · rfl
        · rw [hf] at hattr; simp at hattr
      have hrw : updateStyleAttrs d sah =
          addUnsafeHashesIf true
            (insertD d "style-src" (appendHashes (findD d "style-src") sah))
            "style-src" := by
        unfold updateStyleAttrs
        rw [if_pos hlen, hnone2]
        rfl
      have hkey : keyWF "style-src" := keyWF_of_forall _ (by decide) (by decide)
      have hval : valWF "style-src" (appendHashes (findD d "style-src") sah) :=
        valWF_appendHashes d hd "style-src" "style-src" sah hse hsah
      have hmid := mapWF_insertD d "style-src" _ hd hkey hval
      have hfind1 : findD (insertD d "style-src"
          (appendHashes (findD d "style-src") sah)) "style-src" =
          some (appendHashes (findD d "style-src") sah) :=
        findD_insertD_self d _ _
      have hspec := addUnsafeHashesIf_spec true _ "style-src" _ hfind1 hmid hkey hval
      refine ⟨hrw ▸ hspec.1, ?_, fun hcon => absurd hcon hse, ?_, ?_⟩
      · intro k hk1 hk2
        rw [hrw, hspec.2.1 k hk1]
        exact findD_insertD_ne d _ _ k hk1
      · intro _ hsome
        rw [hnone2] at hsome
        simp at hsome
      · intro _ _
        constructor
        · rw [hrw, hspec.2.2]
          rw [if_pos rfl]
        · rw [hrw, hspec.2.1 "style-src-attr" (by decide)]
          rw [findD_insertD_ne d _ _ _ (by decide)]
          exact hnone2

/-- **C1**: for every input header and well-formed hash tokens,
`UpdateCSP` appends the space-joined script hashes to `script-src`
(creating the directive when absent) and forces `'unsafe-hashes'` onto it
when event handlers were seen; appends the style-tag hashes to
`style-src`; sends the style-attribute hashes to `style-src-attr` exactly
when that directive is already present and to `style-src` otherwise,
forcing `'unsafe-hashes'` unless already present; and leaves every other
directive unchanged.  In particular
`UpdateCSP "default-src 'self'" ["'sha256-X'"] [] [] false` yields
`default-src 'self'; script-src 'sha256-X'`. -/
theorem updateCSP_spec (h : String) (sh sth sah : List String) (ev : Bool)
    (hwf : ∀ x ∈ sh ++ sth ++ sah, tokenWF x) :
    (∀ k, k ≠ "script-src" → k ≠ "style-src" → k ≠ "style-src-attr" →
      findD (parseCSPDirectives (UpdateCSP h sh sth sah ev).1) k =
        findD (parseCSPDirectives h) k) ∧
    (sh = [] →
      findD (parseCSPDirectives (UpdateCSP h sh sth sah ev).1) "script-src" =
        findD (parseCSPDirectives h) "script-src") ∧
    (sh ≠ [] →
      findD (parseCSPDirectives (UpdateCSP h sh sth sah ev).1) "script-src" =
        some (trimS (if ev
          then forceUnsafeHashes
            (appendHashes (findD (parseCSPDirectives h) "script-src") sh)
          else appendHashes (findD (parseCSPDirectives h) "script-src") sh))) ∧
    (sah = [] →
      findD (parseCSPDirectives (UpdateCSP h sh sth sah ev).1) "style-src-attr" =
        findD (parseCSPDirectives h) "style-src-attr") ∧
    (sth = [] → sah = [] →
      findD (parseCSPDirectives (UpdateCSP h sh sth sah ev).1) "style-src" =
        findD (parseCSPDirectives h) "style-src") ∧
    (sth ≠ [] → sah = [] →
      findD (parseCSPDirectives (UpdateCSP h sh sth sah ev).1) "style-src" =
        some (trimS (appendHashes (findD (parseCSPDirectives h) "style-src") sth))) ∧
    (sah ≠ [] → (findD (parseCSPDirectives h) "style-src-attr").isSome = true →
      findD (parseCSPDirectives (UpdateCSP h sh sth sah ev).1) "style-src-attr" =
        some (trimS (forceUnsafeHashes
          (appendHashes (findD (parseCSPDirectives h) "style-src-attr") sah))) ∧
      (sth = [] →
        findD (parseCSPDirectives (UpdateCSP h sh sth sah ev).1) "style-src" =
          findD (parseCSPDirectives h) "style-src") ∧
      (sth ≠ [] →
        findD (parseCSPDirectives (UpdateCSP h sh sth sah ev).1) "style-src" =
          some (trimS (appendHashes (findD (parseCSPDirectives h) "style-src") sth)))) ∧
    (sah ≠ [] → findD (parseCSPDirectives h) "style-src-attr" = none →
      findD (parseCSPDirectives (UpdateCSP h sh sth sah ev).1) "style-src" =
        some (trimS (forceUnsafeHashes (appendHashes
          (if sth = [] then findD (parseCSPDirectives h) "style-src"
           else some (appendHashes (findD (parseCSPDirectives h) "style-src") sth))
          sah)))) ∧
    (UpdateCSP "default-src 'self'" ["'sha256-X'"] [] [] false).1 =
      "default-src 'self'; script-src 'sha256-X'" := by
  have hwft := parseCSPDirectives_wft h
  have hsh : ∀ x ∈ sh, tokenWF x := fun x hx => hwf x (by simp [hx])
  have hsth : ∀ x ∈ sth, tokenWF x := fun x hx => hwf x (by simp [hx])
  have hsah : ∀ x ∈ sah, tokenWF x := fun x hx => hwf x (by simp [hx])
  set d0 := parseCSPDirectives h with hd0def
  have hA := updateScriptSrc_spec d0 sh ev hwft.1 hsh
  set dA := updateScriptSrc d0 sh ev with hdAdef
  have hB := updateStyleTags_spec dA sth hA.1 hsth
  set dB := updateStyleTags dA sth with hdBdef
  have hC := updateStyleAttrs_spec dB sah hB.1 hsah
  set dC := updateStyleAttrs dB sah with hdCdef
  have hres : (UpdateCSP h sh sth sah ev).1 = reconstructCSP dC := rfl
  have hRT : ∀ k, findD (parseCSPDirectives (UpdateCSP h sh sth sah ev).1) k =
      (findD dC k).map trimS := by
    intro k
    rw [hres]
    exact findD_parse_reconstruct dC hC.1 k
  have htrimP : ∀ k, (findD d0 k).map trimS = findD d0 k := by
    intro k
    rcases hf : findD d0 k with _ | v
    · rfl
    · have htv := hwft.2 (k, v) (findD_some_mem _ k v hf)
      simp only [Option.map_some']
      congr 1
      exact string_data_ext _ _ htv
  refine ⟨?_, ?_, ?_, ?_, ?_, ?_, ?_, ?_, ?_⟩
  · intro k h1 h2 h3
    rw [hRT k, hC.2.1 k h2 h3, hB.2.1 k h2, hA.2.1 k h1, htrimP k]
  · intro hshe
    rw [hRT _, hC.2.1 _ (by decide) (by decide), hB.2.1 _ (by decide),
      hA.2.2.1 hshe, htrimP _]
  · intro hshe
    rw [hRT _, hC.2.1 _ (by decide) (by decide), hB.2.1 _ (by decide),
      hA.2.2.2 hshe]
    rfl
  · intro hsahe
    rw [hRT _, hC.2.2.1 hsahe, hB.2.1 _ (by decide), hA.2.1 _ (by decide), htrimP _]
  · intro hsthe hsahe
    rw [hRT _, hC.2.2.1 hsahe, hB.2.2.1 hsthe, hA.2.1 _ (by decide), htrimP _]
  · intro hsthe hsahe
    rw [hRT _, hC.2.2.1 hsahe, hB.2.2.2 hsthe, hA.2.1 _ (by decide)]
    rfl
  · intro hsahe hattr
    have hattrB : (findD dB "style-src-attr").isSome = true := by
      rw [hB.2.1 _ (by decide), hA.2.1 _ (by decide)]
      exact hattr
    have hpos := hC.2.2.2.1 hsahe hattrB
    refine ⟨?_, ?_, ?_⟩
    · rw [hRT _, hpos.1, hB.2.1 _ (by decide), hA.2.1 _ (by decide)]
      rfl
    · intro hsthe
      rw [hRT _, hpos.2, hB.2.2.1 hsthe, hA.2.1 _ (by decide), htrimP _]
    · intro hsthe
      rw [hRT _, hpos.2, hB.2.2.2 hsthe, hA.2.1 _ (by decide)]
      rfl
  · intro hsahe hattr0
    have hattrB : findD dB "style-src-attr" = none := by
      rw [hB.2.1 _ (by decide), hA.2.1 _ (by decide)]
      exact hattr0
    have hneg := hC.2.2.2.2 hsahe hattrB
    by_cases hsthe : sth = []
    · rw [hRT _, hneg.1, if_pos hsthe]
      have hdBeq : dB = dA := hB.2.2.1 hsthe
      rw [hdBeq, hA.2.1 _ (by decide)]
      rfl
    · rw [hRT _, hneg.1, if_neg hsthe, hB.2.2.2 hsthe, hA.2.1 _ (by decide)]
      rfl
  · decide

/-- **C10**: `UpdateCSP` and `MergeStrictCSPWithHashes` never fail: the
error component of their return value is nil for every input. -/
theorem updateCSP_mergeStrict_no_error
    (h : String) (sh sth sah : List String) (ev : Bool) :
    (UpdateCSP h sh sth sah ev).2 = none ∧
    (MergeStrictCSPWithHashes h sh sth sah ev).2 = none :=
  ⟨rfl, rfl⟩

/-! ## validator.go: ValidateCSP and its checks -/

structure ValidationWarning where
  Severity : String
  Message : String
  Fix : String
deriving DecidableEq

structure ValidationResult where
  Valid : Bool
  Warnings : List ValidationWarning
deriving DecidableEq

/-- One iteration of the loop in validator.go `checkUnsafeInlineWithHashes`. -/
def unsafeInlineWarningFor (directives : Directives) (directive : String) :
    List ValidationWarning :=
  match findD directives directive with
  | some value =>
    if containsS value "'unsafe-inline'" &&
        (containsS value "'sha256-" || containsS value "'sha384-" ||
         containsS value "'sha512-") then
      [⟨"warning", directive ++ " contains both 'unsafe-inline' and hash values",
        "Remove 'unsafe-inline' from " ++ directive ++
          " - hashes are ignored when 'unsafe-inline' is present"⟩]
    else []
  | none => []

/-- validator.go `checkUnsafeInlineWithHashes` over its two directives. -/
def checkUnsafeInlineWithHashes (directives : Directives) : List ValidationWarning :=
  unsafeInlineWarningFor directives "script-src" ++
    unsafeInlineWarningFor directives "style-src"

/-- validator.go `checkUnsafeEval`. -/
def checkUnsafeEval (directives : Directives) : List ValidationWarning :=
  match findD directives "script-src" with
  | some scriptSrc =>
    if containsS scriptSrc "'unsafe-eval'" then
      [⟨"warning", "script-src contains 'unsafe-eval' which allows dangerous eval() usage",
        "Remove 'unsafe-eval' if possible and refactor code to avoid eval(), Function(), setTimeout(string), etc."⟩]
    else []
  | none => []

/-- validator.go `checkMissingDefaultSrc`. -/
def checkMissingDefaultSrc (directives : Directives) : List ValidationWarning :=
  if (findD directives "default-src").isSome then []
  else
    [⟨"warning", "Missing 'default-src' directive",
      "Add 'default-src' as a fallback for other directives (recommended: 'default-src 'self'')"⟩]

/-- One iteration of the loop in validator.go `checkOverlyPermissive`:
the wildcard check followed by the data-URI check for script-src. -/
def overlyPermissiveWarningsFor (directives : Directives) (directive : String) :
    List ValidationWarning :=
  match findD directives directive with
  | some value =>
    (if containsS value "*" && !containsS value "https://*" then
      [⟨"warning", directive ++ " contains wildcard '*' which allows resources from any origin",
        "Restrict " ++ directive ++ " to specific domains or use 'self'"⟩]
    else []) ++
    (if directive = "script-src" && containsS value "data:" then
      [⟨"warning", "script-src allows 'data:' URIs which can be exploited",
        "Remove 'data:' from script-src if not absolutely necessary"⟩]
    else [])
  | none => []

/-- validator.go `checkOverlyPermissive`; the Go code ranges over a map of
five directives, determinized here in the source-literal order. -/
def checkOverlyPermissive (directives : Directives) : List ValidationWarning :=
  overlyPermissiveWarningsFor directives "default-src" ++
    overlyPermissiveWarningsFor directives "script-src" ++
    overlyPermissiveWarningsFor directives "style-src" ++
    overlyPermissiveWarningsFor directives "img-src" ++
    overlyPermissiveWarningsFor directives "connect-src"

/-- One iteration of the loop in validator.go `checkDeprecatedDirectives`. -/
def deprecatedWarningFor (directives : Directives) (directive suggestion : String) :
    List ValidationWarning :=
  if (findD directives directive).isSome then
    [⟨"warning", "'" ++ directive ++ "' is deprecated", suggestion⟩]
  else []

/-- validator.go `checkDeprecatedDirectives`; the Go map of three
deprecated directives is determinized in the source-literal order. -/
def checkDeprecatedDirectives (directives : Directives) : List ValidationWarning :=
  deprecatedWarningFor directives "block-all-mixed-content"
      "Use 'upgrade-insecure-requests' instead, or handle via HTTPS" ++
    deprecatedWarningFor directives "plugin-types"
      "Deprecated - plugins are no longer supported in modern browsers" ++
    deprecatedWarningFor directives "referrer"
      "Use the Referrer-Policy header instead"

/-- validator.go `checkConflictingDirectives`. -/
def checkConflictingDirectives (directives : Directives) : List ValidationWarning :=
  (if (findD directives "style-src-attr").isSome &&
      !(findD directives "style-src").isSome then
    [⟨"warning", "'style-src-attr' is defined but 'style-src' is not",
      "Consider adding 'style-src' as it acts as fallback for 'style-src-attr'"⟩]
  else []) ++
  (if (findD directives "script-src-attr").isSome &&
      !(findD directives "script-src").isSome then
    [⟨"warning", "'script-src-attr' is defined but 'script-src' is not",
      "Consider adding 'script-src' as it acts as fallback for 'script-src-attr'"⟩]
  else [])

/-- validator.go `ValidateCSP`: an empty header is the only invalid
input; otherwise the six advisory checks run in order and their warnings
accumulate. -/
def ValidateCSP (cspHeader : String) : ValidationResult :=
  let directives := parseCSPDirectives cspHeader
  if cspHeader = "" then
    ⟨false, [⟨"error", "CSP header is empty", "Provide a valid CSP header string"⟩]⟩
  else
    ⟨true, checkUnsafeInlineWithHashes directives ++ checkUnsafeEval directives ++
      checkMissingDefaultSrc directives ++ checkOverlyPermissive directives ++
      checkDeprecatedDirectives directives ++ checkConflictingDirectives directives⟩

example : (ValidateCSP "default-src 'self'").Warnings = [] := by decide
example : (ValidateCSP "default-src *").Warnings.length = 1 := by decide
example : (ValidateCSP "script-src 'self' 'unsafe-eval'").Warnings.length = 2 := by decide

theorem severity_unsafeInlineWarningFor (d : Directives) (nm : String)
    (w : ValidationWarning) (hw : w ∈ unsafeInlineWarningFor d nm) :
    w.Severity = "warning" := by
  unfold unsafeInlineWarningFor at hw
  split at hw
  · split at hw
    · rw [List.mem_singleton.mp hw]
    · simp at hw
  · simp at hw

theorem severity_checkUnsafeInlineWithHashes (d : Directives) (w : ValidationWarning)
    (hw : w ∈ checkUnsafeInlineWithHashes d) : w.Severity = "warning" := by
  unfold checkUnsafeInlineWithHashes at hw
  rcases List.mem_append.mp hw with hw | hw
  · exact severity_unsafeInlineWarningFor d _ w hw
  · exact severity_unsafeInlineWarningFor d _ w hw

theorem severity_checkUnsafeEval (d : Directives) (w : ValidationWarning)
    (hw : w ∈ checkUnsafeEval d) : w.Severity = "warning" := by
  unfold checkUnsafeEval at hw
  split at hw
  · split at hw
    · rw [List.mem_singleton.mp hw]
    · simp at hw
  · simp at hw

theorem severity_checkMissingDefaultSrc (d : Directives) (w : ValidationWarning)
    (hw : w ∈ checkMissingDefaultSrc d) : w.Severity = "warning" := by
  unfold checkMissingDefaultSrc at hw
  split at hw
  · simp at hw
  · rw [List.mem_singleton.mp hw]

theorem severity_overlyPermissiveWarningsFor (d : Directives) (nm : String)
    (w : ValidationWarning) (hw : w ∈ overlyPermissiveWarningsFor d nm) :
    w.Severity = "warning" := by
  unfold overlyPermissiveWarningsFor at hw
  split at hw
  · rcases List.mem_append.mp hw with hw | hw
    · split at hw
      · rw [List.mem_singleton.mp hw]
      · simp at hw
    · split at hw
      · rw [List.mem_singleton.mp hw]
      · simp at hw
  · simp at hw

theorem severity_checkOverlyPermissive (d : Directives) (w : ValidationWarning)
    (hw : w ∈ checkOverlyPermissive d) : w.Severity = "warning" := by
  unfold checkOverlyPermissive at hw
  rcases List.mem_append.mp hw with hw | hw
  rotate_left
  · exact severity_overlyPermissiveWarningsFor d _ w hw
  rcases List.mem_append.mp hw with hw | hw
  rotate_left
  · exact severity_overlyPermissiveWarningsFor d _ w hw
  rcases List.mem_append.mp hw with hw | hw
  rotate_left
  · exact severity_overlyPermissiveWarningsFor d _ w hw
  rcases List.mem_append.mp hw with hw | hw
  · exact severity_overlyPermissiveWarningsFor d _ w hw
  · exact severity_overlyPermissiveWarningsFor d _ w hw

theorem severity_deprecatedWarningFor (d : Directives) (nm sg : String)
    (w : ValidationWarning) (hw : w ∈ deprecatedWarningFor d nm sg) :
    w.Severity = "warning" := by
  unfold deprecatedWarningFor at hw
  split at hw
  · rw [List.mem_singleton.mp hw]
  · simp at hw

theorem severity_checkDeprecatedDirectives (d : Directives) (w : ValidationWarning)
    (hw : w ∈ checkDeprecatedDirectives d) : w.Severity = "warning" := by
  unfold checkDeprecatedDirectives at hw
  rcases List.mem_append.mp hw with hw | hw
  rotate_left
  · exact severity_deprecatedWarningFor d _ _ w hw
  rcases List.mem_append.mp hw with hw | hw
  · exact severity_deprecatedWarningFor d _ _ w hw
  · exact severity_deprecatedWarningFor d _ _ w hw

theorem severity_checkConflictingDirectives (d : Directives) (w : ValidationWarning)
    (hw : w ∈ checkConflictingDirectives d) : w.Severity = "warning" := by
  unfold checkConflictingDirectives at hw
  rcases List.mem_append.mp hw with hw | hw
  · split at hw
    · rw [List.mem_singleton.mp hw]
    · simp at hw
  · split at hw
    · rw [List.mem_singleton.mp hw]
    · simp at hw

theorem validateCSP_eq_of_ne (h : String) (hne : h ≠ "") :
    ValidateCSP h =
      ⟨true, checkUnsafeInlineWithHashes (parseCSPDirectives h) ++
        checkUnsafeEval (parseCSPDirectives h) ++
        checkMissingDefaultSrc (parseCSPDirectives h) ++
        checkOverlyPermissive (parseCSPDirectives h) ++
        checkDeprecatedDirectives (parseCSPDirectives h) ++
        checkConflictingDirectives (parseCSPDirectives h)⟩ := by
  unfold ValidateCSP
  rw [if_neg hne]

/-- **C6**: `ValidateCSP` returns valid=false with exactly one
error-severity warning exactly for the empty header; every non-empty
header is valid and the six advisory checks run independently, their
warnings accumulating in order, all with severity "warning"; and the
header `script-src 'self' 'unsafe-inline' 'sha256-abc'` produces exactly
the unsafe-inline-with-hashes warning followed by the missing default-src
warning. -/
theorem validateCSP_spec :
    (∀ h : String, ((ValidateCSP h).Valid = false ↔ h = "")) ∧
    ((ValidateCSP "").Warnings =
      [⟨"error", "CSP header is empty", "Provide a valid CSP header string"⟩]) ∧
    (∀ h : String, h ≠ "" →
      (ValidateCSP h).Valid = true ∧
      (ValidateCSP h).Warnings =
        checkUnsafeInlineWithHashes (parseCSPDirectives h) ++
          checkUnsafeEval (parseCSPDirectives h) ++
          checkMissingDefaultSrc (parseCSPDirectives h) ++
          checkOverlyPermissive (parseCSPDirectives h) ++
          checkDeprecatedDirectives (parseCSPDirectives h) ++
          checkConflictingDirectives (parseCSPDirectives h) ∧
      ∀ w ∈ (ValidateCSP h).Warnings, w.Severity = "warning") ∧
    ValidateCSP "script-src 'self' 'unsafe-inline' 'sha256-abc'" =
      ⟨true,
        [⟨"warning", "script-src contains both 'unsafe-inline' and hash values",
          "Remove 'unsafe-inline' from script-src - hashes are ignored when 'unsafe-inline' is present"⟩,
         ⟨"warning", "Missing 'default-src' directive",
          "Add 'default-src' as a fallback for other directives (recommended: 'default-src 'self'')"⟩]⟩ := by
  refine ⟨?_, ?_, ?_, ?_⟩
  · intro h
    by_cases hh : h = ""
    · subst hh
      constructor
      · intro _; rfl
      · intro _; rfl
    · rw [validateCSP_eq_of_ne h hh]
      constructor
      · intro hcon; exact absurd hcon (by simp)
      · intro hcon; exact absurd hcon hh
  · rfl
  · intro h hne
    rw [validateCSP_eq_of_ne h hne]
    refine ⟨rfl, rfl, ?_⟩
    intro w hw
    rcases List.mem_append.mp hw with hw | hw
    rotate_left
    · exact severity_checkConflictingDirectives _ w hw
    rcases List.mem_append.mp hw with hw | hw
    rotate_left
    · exact severity_checkDeprecatedDirectives _ w hw
    rcases List.mem_append.mp hw with hw | hw
    rotate_left
    · exact severity_checkOverlyPermissive _ w hw
    rcases List.mem_append.mp hw with hw | hw
    rotate_left
    · exact severity_checkMissingDefaultSrc _ w hw
    rcases List.mem_append.mp hw with hw | hw
    · exact severity_checkUnsafeInlineWithHashes _ w hw
    · exact severity_checkUnsafeEval _ w hw
  · decide

theorem validateCSP_spec_witness :
    (("default-src 'self'" : String) ≠ "") ∧
    (ValidateCSP "default-src 'self'").Valid = true :=
  ⟨by decide, (validateCSP_spec.2.2.1 "default-src 'self'" (by decide)).1⟩

theorem updateCSP_spec_witness :
    (∀ x ∈ (["'sha256-X'"] : List String) ++ ([] : List String) ++ ([] : List String),
      tokenWF x) ∧
    (UpdateCSP "default-src 'self'" ["'sha256-X'"] [] [] false).1 =
      "default-src 'self'; script-src 'sha256-X'" :=
  ⟨by decide,
   (updateCSP_spec "default-src 'self'" ["'sha256-X'"] [] [] false
      (by decide)).2.2.2.2.2.2.2.2⟩

/-! ## The wildcard / data-URI warnings of checkOverlyPermissive -/

/-- The wildcard warning `checkOverlyPermissive` emits for a directive. -/
def wildcardWarning (nm : String) : ValidationWarning :=
  ⟨"warning", nm ++ " contains wildcard '*' which allows resources from any origin",
   "Restrict " ++ nm ++ " to specific domains or use 'self'"⟩

/-- The data-URI warning `checkOverlyPermissive` emits for script-src. -/
def dataScriptWarning : ValidationWarning :=
  ⟨"warning", "script-src allows 'data:' URIs which can be exploited",
   "Remove 'data:' from script-src if not absolutely necessary"⟩

theorem mem_wild_block_self (d : Directives) (nm : String)
    (hnd : wildcardWarning nm ≠ dataScriptWarning) :
    wildcardWarning nm ∈ overlyPermissiveWarningsFor d nm ↔
      ∃ v, findD d nm = some v ∧
        containsS v "*" = true ∧ containsS v "https://*" = false := by
  unfold overlyPermissiveWarningsFor
  rcases hf : findD d nm with _ | v
  · simp
  · constructor
    · intro hw
      rcases List.mem_append.mp hw with hw | hw
      · split at hw
        · rename_i hA
          rw [Bool.and_eq_true] at hA
          refine ⟨v, rfl, hA.1, ?_⟩
          have h2 := hA.2
          revert h2
          cases containsS v "https://*" <;> simp
        · simp at hw
      · split at hw
        · exact absurd (List.mem_singleton.mp hw) hnd
        · simp at hw
    · rintro ⟨v2, hv2, hstar, hhttps⟩
      injection hv2 with hv2
      subst hv2
      apply List.mem_append.mpr
      left
      rw [if_pos (by rw [hstar, hhttps]; rfl)]
      exact List.mem_singleton.mpr rfl

theorem wild_not_in_block (d : Directives) (nm nm2 : String)
    (hmsg : wildcardWarning nm ≠ wildcardWarning nm2)
    (hnd : wildcardWarning nm ≠ dataScriptWarning) :
    wildcardWarning nm ∉ overlyPermissiveWarningsFor d nm2 := by
  intro hw
  unfold overlyPermissiveWarningsFor at hw
  split at hw
  · rcases List.mem_append.mp hw with hw | hw
    · split at hw
      · exact hmsg (List.mem_singleton.mp hw)
      · simp at hw
    · split at hw
      · exact hnd (List.mem_singleton.mp hw)
      · simp at hw
  · simp at hw

theorem data_block_script (d : Directives)
    (hd : dataScriptWarning ≠ wildcardWarning "script-src") :
    dataScriptWarning ∈ overlyPermissiveWarningsFor d "script-src" ↔
      ∃ v, findD d "script-src" = some v ∧ containsS v "data:" = true := by
  unfold overlyPermissiveWarningsFor
  rcases hf : findD d "script-src" with _ | v
  · simp
  · constructor
    · intro hw
      rcases List.mem_append.mp hw with hw | hw
      · split at hw
        · exact absurd (List.mem_singleton.mp hw) hd
        · simp at hw
      · split at hw
        · rename_i hB
          rw [Bool.and_eq_true] at hB
          exact ⟨v, rfl, hB.2⟩
        · simp at hw
    · rintro ⟨v2, hv2, hdata⟩
      injection hv2 with hv2
      subst hv2
      apply List.mem_append.mpr
      right
      rw [if_pos (by rw [hdata]; simp)]
      exact List.mem_singleton.mpr rfl

theorem data_not_in_block (d : Directives) (nm2 : String) (hneq : nm2 ≠ "script-src")
    (hw2 : dataScriptWarning ≠ wildcardWarning nm2) :
    dataScriptWarning ∉ overlyPermissiveWarningsFor d nm2 := by
  intro hw
  unfold overlyPermissiveWarningsFor at hw
  split at hw
  · rcases List.mem_append.mp hw with hw | hw
    · split at hw
      · exact hw2 (List.mem_singleton.mp hw)
      · simp at hw
    · split at hw
      · rename_i hB
        rw [Bool.and_eq_true] at hB
        have h1 := hB.1
        rw [decide_eq_true_eq] at h1
        exact hneq h1
      · simp at hw
  · simp at hw

/-- The message texts every check other than `checkOverlyPermissive` can
produce. -/
def otherMessages : List String :=
  ["script-src contains both 'unsafe-inline' and hash values",
   "style-src contains both 'unsafe-inline' and hash values",
   "script-src contains 'unsafe-eval' which allows dangerous eval() usage",
   "Missing 'default-src' directive",
   "'block-all-mixed-content' is deprecated",
   "'plugin-types' is deprecated",
   "'referrer' is deprecated",
   "'style-src-attr' is defined but 'style-src' is not",
   "'script-src-attr' is defined but 'script-src' is not"]

theorem message_checkUnsafeInlineWithHashes (d : Directives) (w : ValidationWarning)
    (hw : w ∈ checkUnsafeInlineWithHashes d) : w.Message ∈ otherMessages := by
  unfold checkUnsafeInlineWithHashes at hw
  rcases List.mem_append.mp hw with hw | hw <;>
    (unfold unsafeInlineWarningFor at hw
     split at hw)
  · split at hw
    · rw [List.mem_singleton.mp hw]; decide
    · simp at hw
  · simp at hw
  · split at hw
    · rw [List.mem_singleton.mp hw]; decide
    · simp at hw
  · simp at hw

theorem message_checkUnsafeEval (d : Directives) (w : ValidationWarning)
    (hw : w ∈ checkUnsafeEval d) : w.Message ∈ otherMessages := by
  unfold checkUnsafeEval at hw
  split at hw
  · split at hw
    · rw [List.mem_singleton.mp hw]; decide
    · simp at hw
  · simp at hw

theorem message_checkMissingDefaultSrc (d : Directives) (w : ValidationWarning)
    (hw : w ∈ checkMissingDefaultSrc d) : w.Message ∈ otherMessages := by
  unfold checkMissingDefaultSrc at hw
  split at hw
  · simp at hw
  · rw [List.mem_singleton.mp hw]; decide

theorem message_checkDeprecatedDirectives (d : Directives) (w : ValidationWarning)
    (hw : w ∈ checkDeprecatedDirectives d) : w.Message ∈ otherMessages := by
  unfold checkDeprecatedDirectives at hw
  rcases List.mem_append.mp hw with hw | hw
  rotate_left
  · unfold deprecatedWarningFor at hw
    split at hw
    · rw [List.mem_singleton.mp hw]; decide
    · simp at hw
  rcases List.mem_append.mp hw with hw | hw <;>
    (unfold deprecatedWarningFor at hw
     split at hw)
  · rw [List.mem_singleton.mp hw]; decide
  · simp at hw
  · rw [List.mem_singleton.mp hw]; decide
  · simp at hw

theorem message_checkConflictingDirectives (d : Directives) (w : ValidationWarning)
    (hw : w ∈ checkConflictingDirectives d) : w.Message ∈ otherMessages := by
  unfold checkConflictingDirectives at hw
  rcases List.mem_append.mp hw with hw | hw <;> split at hw
  · rw [List.mem_singleton.mp hw]; decide
  · simp at hw
  · rw [List.mem_singleton.mp hw]; decide
  · simp at hw

theorem mem_validate_iff_overly (h : String) (hne : h ≠ "") (w : ValidationWarning)
    (hmsg : w.Message ∉ otherMessages) :
    (w ∈ (ValidateCSP h).Warnings ↔
      w ∈ checkOverlyPermissive (parseCSPDirectives h)) := by
  rw [validateCSP_eq_of_ne h hne]
  show w ∈ checkUnsafeInlineWithHashes (parseCSPDirectives h) ++
      checkUnsafeEval (parseCSPDirectives h) ++
      checkMissingDefaultSrc (parseCSPDirectives h) ++
      checkOverlyPermissive (parseCSPDirectives h) ++
      checkDeprecatedDirectives (parseCSPDirectives h) ++
      checkConflictingDirectives (parseCSPDirectives h) ↔ _
  constructor
  · intro hw
    rcases List.mem_append.mp hw with hw | hw
    rotate_left
    · exact absurd (message_checkConflictingDirectives _ w hw) hmsg
    rcases List.mem_append.mp hw with hw | hw
    rotate_left
    · exact absurd (message_checkDeprecatedDirectives _ w hw) hmsg
    rcases List.mem_append.mp hw with hw | hw
    rotate_left
    · exact hw
    rcases List.mem_append.mp hw with hw | hw
    rotate_left
    · exact absurd (message_checkMissingDefaultSrc _ w hw) hmsg
    rcases List.mem_append.mp hw with hw | hw
    · exact absurd (message_checkUnsafeInlineWithHashes _ w hw) hmsg
    · exact absurd (message_checkUnsafeEval _ w hw) hmsg
  · intro hw
    exact List.mem_append.mpr (Or.inl (List.mem_append.mpr (Or.inl
      (List.mem_append.mpr (Or.inr hw)))))

/-- C4 counterexample: the header value "https://* *" contains a bare `*`
token, yet `ValidateCSP` emits no warning at all, because the code checks
the substring "*" (present) together with absence of the substring
"https://*" (also present), not bare-token occurrence. -/
theorem overlyPermissive_counterexample :
    "*" ∈ fieldsStr (getD (parseCSPDirectives "default-src https://* *") "default-src") ∧
    (ValidateCSP "default-src https://* *").Warnings = [] := by
  constructor
  · decide
  · decide

/-- C4 (amended): for every non-empty header, the wildcard warning for a
directive nm among default-src/script-src/style-src/img-src/connect-src is
emitted iff nm is present and its value contains the substring "*" but not
the substring "https://*"; and the data-URI warning is emitted iff
script-src is present and its value contains the substring "data:". -/
theorem overlyPermissive_amended (h : String) (hne : h ≠ "") :
    (∀ nm ∈ (["default-src", "script-src", "style-src", "img-src",
        "connect-src"] : List String),
      (wildcardWarning nm ∈ (ValidateCSP h).Warnings ↔
        ∃ v, findD (parseCSPDirectives h) nm = some v ∧
          containsS v "*" = true ∧ containsS v "https://*" = false)) ∧
    (dataScriptWarning ∈ (ValidateCSP h).Warnings ↔
      ∃ v, findD (parseCSPDirectives h) "script-src" = some v ∧
        containsS v "data:" = true) := by
  constructor
  · intro nm hnm
    simp only [List.mem_cons, List.not_mem_nil, or_false] at hnm
    have hblocks : wildcardWarning nm ∈ checkOverlyPermissive (parseCSPDirectives h) ↔
        ∃ v, findD (parseCSPDirectives h) nm = some v ∧
          containsS v "*" = true ∧ containsS v "https://*" = false := by
      unfold checkOverlyPermissive
      rcases hnm with h1 | h1 | h1 | h1 | h1 <;> subst h1 <;>
        simp only [List.mem_append] <;> constructor
      · intro hw
        rcases hw with ((((hw | hw) | hw) | hw) | hw)
        · exact (mem_wild_block_self _ _ (by decide)).mp hw
        · exact absurd hw (wild_not_in_block _ _ _ (by decide) (by decide))
        · exact absurd hw (wild_not_in_block _ _ _ (by decide) (by decide))
        · exact absurd hw (wild_not_in_block _ _ _ (by decide) (by decide))
        · exact absurd hw (wild_not_in_block _ _ _ (by decide) (by decide))
      · intro hex
        exact Or.inl (Or.inl (Or.inl (Or.inl
          ((mem_wild_block_self _ _ (by decide)).mpr hex))))
      · intro hw
        rcases hw with ((((hw | hw) | hw) | hw) | hw)
        · exact absurd hw (wild_not_in_block _ _ _ (by decide) (by decide))
        · exact (mem_wild_block_self _ _ (by decide)).mp hw
        · exact absurd hw (wild_not_in_block _ _ _ (by decide) (by decide))
        · exact absurd hw (wild_not_in_block _ _ _ (by decide) (by decide))
        · exact absurd hw (wild_not_in_block _ _ _ (by decide) (by decide))
      · intro hex
        exact Or.inl (Or.inl (Or.inl (Or.inr
          ((mem_wild_block_self _ _ (by decide)).mpr hex))))
      · intro hw
        rcases hw with ((((hw | hw) | hw) | hw) | hw)
        · exact absurd hw (wild_not_in_block _ _ _ (by decide) (by decide))
        · exact absurd hw (wild_not_in_block _ _ _ (by decide) (by decide))
        · exact (mem_wild_block_self _ _ (by decide)).mp hw
        · exact absurd hw (wild_not_in_block _ _ _ (by decide) (by decide))
        · exact absurd hw (wild_not_in_block _ _ _ (by decide) (by decide))
      · intro hex
        exact Or.inl (Or.inl (Or.inr
          ((mem_wild_block_self _ _ (by decide)).mpr hex)))
      · intro hw
        rcases hw with ((((hw | hw) | hw) | hw) | hw)
        · exact absurd hw (wild_not_in_block _ _ _ (by decide) (by decide))
        · exact absurd hw (wild_not_in_block _ _ _ (by decide) (by decide))
        · exact absurd hw (wild_not_in_block _ _ _ (by decide) (by decide))
        · exact (mem_wild_block_self _ _ (by decide)).mp hw
        · exact absurd hw (wild_not_in_block _ _ _ (by decide) (by decide))
      · intro hex
        exact Or.inl (Or.inr ((mem_wild_block_self _ _ (by decide)).mpr hex))
      · intro hw
        rcases hw with ((((hw | hw) | hw) | hw) | hw)
        · exact absurd hw (wild_not_in_block _ _ _ (by decide) (by decide))
        · exact absurd hw (wild_not_in_block _ _ _ (by decide) (by decide))
        · exact absurd hw (wild_not_in_block _ _ _ (by decide) (by decide))
        · exact absurd hw (wild_not_in_block _ _ _ (by decide) (by decide))
        · exact (mem_wild_block_self _ _ (by decide)).mp hw
      · intro hex
        exact Or.inr ((mem_wild_block_self _ _ (by decide)).mpr hex)
    rw [← hblocks]
    apply mem_validate_iff_overly h hne
    rcases hnm with h1 | h1 | h1 | h1 | h1 <;> subst h1 <;> decide
  · have hblocks : dataScriptWarning ∈ checkOverlyPermissive (parseCSPDirectives h) ↔
        ∃ v, findD (parseCSPDirectives h) "script-src" = some v ∧
          containsS v "data:" = true := by
      unfold checkOverlyPermissive
      simp only [List.mem_append]
      constructor
      · intro hw
        rcases hw with ((((hw | hw) | hw) | hw) | hw)
        · exact absurd hw (data_not_in_block _ _ (by decide) (by decide))
        · exact (data_block_script _ (by decide)).mp hw
        · exact absurd hw (data_not_in_block _ _ (by decide) (by decide))
        · exact absurd hw (data_not_in_block _ _ (by decide) (by decide))
        · exact absurd hw (data_not_in_block _ _ (by decide) (by decide))
      · intro hex
        exact Or.inl (Or.inl (Or.inl (Or.inr
          ((data_block_script _ (by decide)).mpr hex))))
    rw [← hblocks]
    exact mem_validate_iff_overly h hne _ (by decide)

theorem overlyPermissive_amended_witness :
    ("script-src data: *" : String) ≠ "" ∧
    dataScriptWarning ∈ (ValidateCSP "script-src data: *").Warnings ∧
    wildcardWarning "script-src" ∈ (ValidateCSP "script-src data: *").Warnings :=
  ⟨by decide,
   (overlyPermissive_amended "script-src data: *" (by decide)).2.mpr
     ⟨"data: *", by decide, by decide⟩,
   ((overlyPermissive_amended "script-src data: *" (by decide)).1 "script-src"
       (by decide)).mpr ⟨"data: *", by decide, by decide, by decide⟩⟩

/-! ## detector.go: external resources -/

/-- `ExternalResource` of detector.go (the Go field `Type` is written
`type`, since `Type` is not a legal Lean field name). -/
structure ExternalResource where
  type : String
  URL : String
  Domain : String
deriving DecidableEq

/-- `ExternalResources` of detector.go.  The Go field
`UsesDataURLs : map[string]bool` is modelled as the list of keys mapped to
true (a nil map has no true keys, so nil and empty collapse, exactly as
`m != nil && m[k]` does). -/
structure ExternalResources where
  Scripts : List ExternalResource
  Stylesheets : List ExternalResource
  Images : List ExternalResource
  Fonts : List ExternalResource
  Frames : List ExternalResource
  Other : List ExternalResource
  UsesDataURLs : List String
deriving DecidableEq

/-- The sorted list of distinct nonempty domains of a resource list.  Go
builds a `map[string]bool` and then `sort.Strings`s its keys; since the
final sort makes the result independent of map iteration order, the sorted
deduplication below is exactly the Go result. -/
def sortedDomainSet (resources : List ExternalResource) : List String :=
  List.insertionSort (fun a b => a ≤ b)
    (((resources.map (fun r => r.Domain)).filter (fun d => d != "")).dedup)

/-- `GetUniqueDomains` of detector.go. -/
def GetUniqueDomains (er : ExternalResources) : List String :=
  sortedDomainSet
    (er.Scripts ++ er.Stylesheets ++ er.Images ++ er.Fonts ++ er.Frames ++ er.Other)

/-- `GetDomainsByType` of detector.go. -/
def GetDomainsByType (er : ExternalResources) (resourceType : String) : List String :=
  let resources :=
    if resourceType = "script" then er.Scripts
    else if resourceType = "stylesheet" then er.Stylesheets
    else if resourceType = "image" then er.Images
    else if resourceType = "font" then er.Fonts
    else if resourceType = "frame" then er.Frames
    else if resourceType = "other" then er.Other
    else []
  sortedDomainSet resources

/-- The fold `appendUniqueDomainsToString` performs: append each value not
yet present (the Go `seen` set always holds exactly the values of
`result`). -/
def addUnique (acc : List String) (xs : List String) : List String :=
  xs.foldl (fun acc v => if acc.contains v then acc else acc ++ [v]) acc

/-- `appendUniqueDomainsToString` of detector.go. -/
def appendUniqueDomainsToString (existing : String) (newDomains : List String) : String :=
  joinStrings " "
    (addUnique (addUnique [] (if existing = "" then [] else fieldsStr existing)) newDomains)

/-- One data-URL block of `AddExternalResourcesToCSP` (they are textually
identical for img-src and font-src). -/
def addDataBlock (d : Directives) (dirName : String) : Directives :=
  match findD d dirName with
  | some existing =>
    if containsS existing "data:" then d
    else insertD d dirName (appendUniqueDomainsToString existing ["data:"])
  | none =>
    match findD d "default-src" with
    | some defaultSrc => insertD d dirName (appendUniqueDomainsToString defaultSrc ["data:"])
    | none => insertD d dirName "data:"

/-- One domain block of `AddExternalResourcesToCSP` (they are textually
identical for the six directives). -/
def addDomainsBlock (d : Directives) (dirName : String) (domains : List String) : Directives :=
  if domains.length > 0 then
    match findD d dirName with
    | some existing => insertD d dirName (appendUniqueDomainsToString existing domains)
    | none =>
      match findD d "default-src" with
      | some defaultSrc => insertD d dirName (appendUniqueDomainsToString defaultSrc domains)
      | none => insertD d dirName (joinStrings " " domains)
  else d

/-- The directives map `AddExternalResourcesToCSP` builds before the final
`reconstructCSP` (its body up to the return statement). -/
def addExternalDirectives (cspHeader : String) (resources : ExternalResources) : Directives :=
  let d0 := parseCSPDirectives cspHeader
  let d1 := if resources.UsesDataURLs.contains "image" then addDataBlock d0 "img-src" else d0
  let d2 := if resources.UsesDataURLs.contains "font" then addDataBlock d1 "font-src" else d1
  let d3 := addDomainsBlock d2 "script-src" (GetDomainsByType resources "script")
  let d4 := addDomainsBlock d3 "style-src" (GetDomainsByType resources "stylesheet")
  let d5 := addDomainsBlock d4 "img-src" (GetDomainsByType resources "image")
  let d6 := addDomainsBlock d5 "font-src" (GetDomainsByType resources "font")
  let d7 := addDomainsBlock d6 "frame-src" (GetDomainsByType resources "frame")
  addDomainsBlock d7 "connect-src" (GetDomainsByType resources "other")

/-- `AddExternalResourcesToCSP` of detector.go. -/
def AddExternalResourcesToCSP (cspHeader : String) (resources : ExternalResources) : String :=
  reconstructCSP (addExternalDirectives cspHeader resources)

theorem sortedDomainSet_sorted (resources : List ExternalResource) :
    (sortedDomainSet resources).Sorted (fun a b : String => a ≤ b) :=
  List.sorted_insertionSort _ _

theorem sortedDomainSet_nodup (resources : List ExternalResource) :
    (sortedDomainSet resources).Nodup :=
  (List.perm_insertionSort _ _).nodup_iff.mpr
    (List.nodup_dedup _)

/-- C9: for every resource catalog (hence regardless of insertion order or
duplicates) and every type string, GetUniqueDomains and GetDomainsByType
return lists sorted in ascending string order and without duplicates. -/
theorem domain_lists_sorted_nodup (er : ExternalResources) (resourceType : String) :
    (GetUniqueDomains er).Sorted (fun a b : String => a ≤ b) ∧
    (GetUniqueDomains er).Nodup ∧
    (GetDomainsByType er resourceType).Sorted (fun a b : String => a ≤ b) ∧
    (GetDomainsByType er resourceType).Nodup :=
  ⟨List.sorted_insertionSort _ _,
   (List.perm_insertionSort _ _).nodup_iff.mpr (List.nodup_dedup _),
   List.sorted_insertionSort _ _,
   (List.perm_insertionSort _ _).nodup_iff.mpr (List.nodup_dedup _)⟩

/-! ## detector.go: ExtractDomain, with a model of net/url.Parse

`ExtractDomain` hands the (possibly https:-prefixed) URL to Go's
`url.Parse` and keeps only `Scheme` and `Host`.  The model below follows
net/url (getScheme, parse, parseAuthority, parseHost, unescape,
validUserinfo, validOptionalPort, shouldEscape) restricted to the two
outputs the caller reads; where parse stores a component without decoding
it (RawQuery) or only decodes it (Path, Fragment, userinfo), only the
error condition of that decoding is modelled.  Byte-level scanning is
modelled per character; this is faithful because every byte under 0x80
is a one-byte character and the checks treat all bytes ≥ 0x80 alike. -/

/-- Control bytes rejected by `stringContainsCTLByte`
(byte < 0x20 or byte = 0x7f). -/
def isCTL (c : Char) : Bool := decide (c.toNat < 0x20) || decide (c.toNat = 0x7f)

/-- `'a' <= c && c <= 'z' || 'A' <= c && c <= 'Z'` (97–122 and 65–90). -/
def isAlphaC (c : Char) : Bool :=
  (decide (97 ≤ c.toNat) && decide (c.toNat ≤ 122)) ||
    (decide (65 ≤ c.toNat) && decide (c.toNat ≤ 90))

/-- `'0' <= c && c <= '9'` (48–57). -/
def isDigitC (c : Char) : Bool := decide (48 ≤ c.toNat) && decide (c.toNat ≤ 57)

/-- `ishex` of net/url: digits, `'a'`–`'f'` (97–102), `'A'`–`'F'` (65–70). -/
def isHexC (c : Char) : Bool :=
  isDigitC c || (decide (97 ≤ c.toNat) && decide (c.toNat ≤ 102)) ||
    (decide (65 ≤ c.toNat) && decide (c.toNat ≤ 70))

/-- `unhex` of net/url. -/
def hexVal (c : Char) : Nat :=
  if isDigitC c then c.toNat - 48
  else if decide (97 ≤ c.toNat) && decide (c.toNat ≤ 102) then c.toNat - 97 + 10
  else if decide (65 ≤ c.toNat) && decide (c.toNat ≤ 70) then c.toNat - 65 + 10
  else 0

/-- `getScheme` of net/url; `none` is the "missing protocol scheme" error,
otherwise the scheme (possibly empty) and the remainder. -/
def getSchemeAux (orig : List Char) : Nat → List Char → Option (List Char × List Char)
  | _, [] => some ([], orig)
  | i, c :: cs =>
    if isAlphaC c then getSchemeAux orig (i + 1) cs
    else if isDigitC c || c == '+' || c == '-' || c == '.' then
      if i == 0 then some ([], orig) else getSchemeAux orig (i + 1) cs
    else if c == ':' then
      if i == 0 then none else some (orig.take i, orig.drop (i + 1))
    else some ([], orig)

def getScheme (l : List Char) : Option (List Char × List Char) := getSchemeAux l 0 l

/-- Every `%` begins a valid two-hex-digit escape: the only way
`unescape` can fail in the modes (path, fragment, user/password) that
have no extra character restrictions. -/
def validEscapes : List Char → Bool
  | [] => true
  | c :: rest =>
    if c == '%' then
      match rest with
      | a :: b :: rest2 => isHexC a && isHexC b && validEscapes rest2
      | _ => false
    else validEscapes rest

/-- The ASCII characters `shouldEscape` leaves unescaped in hosts and
zones: alphanumerics, the host sub-delims, and the unreserved marks. -/
def hostAllowedChar (c : Char) : Bool :=
  isAlphaC c || isDigitC c ||
    (['!', '$', '&', '\'', '(', ')', '*', '+', ',', ';', '=', ':', '[', ']',
      '<', '>', '"', '-', '_', '.', '~'].contains c)

/-- `unescape` with mode `encodeHost`: a `%`-escape must be two hex digits
and must be `%25` or encode a byte ≥ 0x80; an unescaped character below
0x80 must be a host-allowed character. -/
def unescapeHost : List Char → Option (List Char)
  | [] => some []
  | c :: rest =>
    if c == '%' then
      match rest with
      | a :: b :: rest2 =>
        if isHexC a && isHexC b then
          if decide (hexVal a < 8) && !(a == '2' && b == '5') then none
          else (unescapeHost rest2).map (fun r => Char.ofNat (16 * hexVal a + hexVal b) :: r)
        else none
      | _ => none
    else
      if decide (c.toNat < 0x80) && !hostAllowedChar c then none
      else (unescapeHost rest).map (fun r => c :: r)

/-- `unescape` with mode `encodeZone`: as for hosts but without the
%25-or-high-byte restriction on escapes. -/
def unescapeZone : List Char → Option (List Char)
  | [] => some []
  | c :: rest =>
    if c == '%' then
      match rest with
      | a :: b :: rest2 =>
        if isHexC a && isHexC b then
          (unescapeZone rest2).map (fun r => Char.ofNat (16 * hexVal a + hexVal b) :: r)
        else none
      | _ => none
    else
      if decide (c.toNat < 0x80) && !hostAllowedChar c then none
      else (unescapeZone rest).map (fun r => c :: r)

/-- `validOptionalPort` of net/url. -/
def validOptionalPort : List Char → Bool
  | [] => true
  | ':' :: rest => rest.all isDigitC
  | _ => false

/-- `validUserinfo` of net/url (rune-wise; any rune outside the listed
ASCII characters fails). -/
def validUserinfo (l : List Char) : Bool :=
  l.all fun c =>
    isAlphaC c || isDigitC c ||
      (['-', '.', '_', ':', '~', '!', '$', '&', '\'', '(', ')', '*', '+',
        ',', ';', '=', '%', '@'].contains c)

/-- `strings.LastIndex` for a single character. -/
def lastIndexOf (ch : Char) : List Char → Option Nat
  | [] => none
  | c :: cs =>
    match lastIndexOf ch cs with
    | some i => some (i + 1)
    | none => if c == ch then some 0 else none

/-- `strings.Index` for a substring. -/
def indexOfSub (sub : List Char) : List Char → Option Nat
  | [] => if sub.isEmpty then some 0 else none
  | c :: cs =>
    if isPrefixOfL sub (c :: cs) then some 0
    else (indexOfSub sub cs).map (fun i => i + 1)

/-- `parseHost` of net/url. -/
def parseHost (host : List Char) : Option (List Char) :=
  if host.head? == some '[' then
    match lastIndexOf ']' host with
    | none => none
    | some i =>
      if !validOptionalPort (host.drop (i + 1)) then none
      else
        match indexOfSub ['%', '2', '5'] (host.take i) with
        | some z =>
          match unescapeHost (host.take z), unescapeZone ((host.take i).drop z),
              unescapeHost (host.drop i) with
          | some h1, some h2, some h3 => some (h1 ++ h2 ++ h3)
          | _, _, _ => none
        | none => unescapeHost host
  else
    match lastIndexOf ':' host with
    | none => unescapeHost host
    | some i =>
      if validOptionalPort (host.drop i) then unescapeHost host else none

/-- `parseAuthority` of net/url, keeping only the host; the userinfo is
only validated (validUserinfo, then unescaping with mode
encodeUserPassword, whose sole failure mode is a bad %-escape). -/
def parseAuthority (authority : List Char) : Option (List Char) :=
  match lastIndexOf '@' authority with
  | none => parseHost authority
  | some i =>
    match parseHost (authority.drop (i + 1)) with
    | none => none
    | some host =>
      if validUserinfo (authority.take i) && validEscapes (authority.take i) then some host
      else none

/-- `parse(rawURL, viaRequest=false)` of net/url, keeping (Scheme, Host);
an opaque (rootless) URL and an authority-less URL both leave Host "". -/
def parseNoFrag (rawURL : List Char) : Option (List Char × List Char) :=
  if rawURL.any isCTL then none
  else if rawURL == ['*'] then some ([], [])
  else
    match getScheme rawURL with
    | none => none
    | some (scheme0, rest0) =>
      let scheme := scheme0.map lowerChar
      let rest1 := rest0.takeWhile (fun c => c != '?')
      if !(rest1.head? == some '/') then
        if !scheme.isEmpty then some (scheme, [])
        else if ((rest1.takeWhile (fun c => c != '/')).contains ':') then none
        else if validEscapes rest1 then some (scheme, []) else none
      else
        if (!scheme.isEmpty || !(isPrefixOfL ['/', '/', '/'] rest1)) &&
            isPrefixOfL ['/', '/'] rest1 then
          let authority := (rest1.drop 2).takeWhile (fun c => c != '/')
          let rest2 := (rest1.drop 2).dropWhile (fun c => c != '/')
          match parseAuthority authority with
          | none => none
          | some host => if validEscapes rest2 then some (scheme, host) else none
        else
          if validEscapes rest1 then some (scheme, []) else none

/-- `url.Parse` of net/url, keeping (Scheme, Host): cut the fragment at
the first '#', parse the rest, then validate the fragment's escapes. -/
def urlParse (rawURL : List Char) : Option (List Char × List Char) :=
  match parseNoFrag (rawURL.takeWhile (fun c => c != '#')) with
  | none => none
  | some su =>
    if validEscapes ((rawURL.dropWhile (fun c => c != '#')).drop 1) then some su
    else none

/-- `ExtractDomain` of detector.go. -/
def ExtractDomain (rawURL : String) : String :=
  if hasPrefixS rawURL "data:" then ""
  else if !hasPrefixS rawURL "http://" && !hasPrefixS rawURL "https://" &&
      !hasPrefixS rawURL "//" then ""
  else
    let r := if hasPrefixS rawURL "//" then "https:" ++ rawURL else rawURL
    match urlParse r.data with
    | none => ""
    | some (scheme, host) =>
      if host.isEmpty then "" else String.mk scheme ++ "://" ++ String.mk host

example : ExtractDomain "//cdn.example.com/file.js" = "https://cdn.example.com" := by decide
example : ExtractDomain "data:image/png;base64,AA" = "" := by decide
example : ExtractDomain "https://example.com/path?q=1#f" = "https://example.com" := by decide
example : ExtractDomain "http://user:pw@example.com:8080/x" = "http://example.com:8080" := by decide
example : ExtractDomain "/relative/path.js" = "" := by decide
example : ExtractDomain "http://" = "" := by decide
example : ExtractDomain "http://%zz" = "" := by decide
example : ExtractDomain "http://[::1]:80/x" = "http://[::1]:80" := by decide

/-! ### Helper lemmas for the ExtractDomain proof -/

theorem if_pos_of_eq_true {α : Sort _} {b : Bool} (h : b = true) {x y : α} :
    (if b then x else y) = x := by rw [h]; rfl

theorem if_neg_of_eq_false {α : Sort _} {b : Bool} (h : b = false) {x y : α} :
    (if b then x else y) = y := by rw [h]; rfl

theorem takeWhile_append_all (p : Char → Bool) :
    ∀ xs ys : List Char, (∀ c ∈ xs, p c = true) →
      (xs ++ ys).takeWhile p = xs ++ ys.takeWhile p := by
  intro xs
  induction xs with
  | nil => intro ys _; rfl
  | cons a as ih =>
    intro ys h
    rw [List.cons_append, List.takeWhile_cons,
      if_pos_of_eq_true (h a (List.mem_cons_self a as)),
      ih ys (fun c hc => h c (List.mem_cons_of_mem a hc)), List.cons_append]

theorem takeWhile_all_eq (p : Char → Bool) (xs : List Char)
    (h : ∀ c ∈ xs, p c = true) : xs.takeWhile p = xs := by
  have h2 := takeWhile_append_all p xs [] h
  simpa using h2

theorem dropWhile_append_all (p : Char → Bool) :
    ∀ xs ys : List Char, (∀ c ∈ xs, p c = true) →
      (xs ++ ys).dropWhile p = ys.dropWhile p := by
  intro xs
  induction xs with
  | nil => intro ys _; rfl
  | cons a as ih =>
    intro ys h
    rw [List.cons_append, List.dropWhile_cons,
      if_pos_of_eq_true (h a (List.mem_cons_self a as)),
      ih ys (fun c hc => h c (List.mem_cons_of_mem a hc))]

theorem dropWhile_all_nil (p : Char → Bool) (xs : List Char)
    (h : ∀ c ∈ xs, p c = true) : xs.dropWhile p = [] := by
  have h2 := dropWhile_append_all p xs [] h
  simpa using h2

theorem mem_of_mem_takeWhile (p : Char → Bool) :
    ∀ l : List Char, ∀ c ∈ l.takeWhile p, c ∈ l := by
  intro l
  induction l with
  | nil => intro c hc; simp [List.takeWhile] at hc
  | cons a as ih =>
    intro c hc
    rw [List.takeWhile_cons] at hc
    by_cases hpa : p a = true
    · rw [if_pos hpa] at hc
      rcases List.mem_cons.mp hc with rfl | hc
      · exact List.mem_cons_self _ _
      · exact List.mem_cons_of_mem a (ih c hc)
    · rw [if_neg hpa] at hc
      simp at hc

theorem validEscapes_no_pct : ∀ l : List Char, (∀ c ∈ l, c ≠ '%') →
    validEscapes l = true := by
  intro l
  induction l with
  | nil => intro _; rfl
  | cons a as ih =>
    intro h
    unfold validEscapes
    rw [if_neg_of_eq_false (beq_eq_false_iff_ne.mpr (h a (List.mem_cons_self a as)))]
    exact ih fun c hc => h c (List.mem_cons_of_mem a hc)

theorem unescapeHost_id : ∀ l : List Char,
    (∀ c ∈ l, c ≠ '%' ∧ hostAllowedChar c = true) → unescapeHost l = some l := by
  intro l
  induction l with
  | nil => intro _; rfl
  | cons a as ih =>
    intro h
    unfold unescapeHost
    rw [if_neg_of_eq_false
      (beq_eq_false_iff_ne.mpr (h a (List.mem_cons_self a as)).1)]
    rw [(h a (List.mem_cons_self a as)).2, Bool.not_true, Bool.and_false]
    show (unescapeHost as).map (fun r => a :: r) = some (a :: as)
    rw [ih fun c hc => h c (List.mem_cons_of_mem a hc)]
    rfl

theorem lastIndexOf_none (ch : Char) : ∀ l : List Char,
    (∀ c ∈ l, c ≠ ch) → lastIndexOf ch l = none := by
  intro l
  induction l with
  | nil => intro _; rfl
  | cons a as ih =>
    intro h
    show (match lastIndexOf ch as with
      | some i => some (i + 1)
      | none => if a == ch then some 0 else none) = none
    rw [ih fun c hc => h c (List.mem_cons_of_mem a hc)]
    show (if a == ch then some 0 else none) = none
    rw [if_neg_of_eq_false (beq_eq_false_iff_ne.mpr (h a (List.mem_cons_self a as)))]

theorem lastIndexOf_append (ch : Char) :
    ∀ l₁ l₂ : List Char, (∀ c ∈ l₂, c ≠ ch) →
      lastIndexOf ch (l₁ ++ ch :: l₂) = some l₁.length := by
  intro l₁
  induction l₁ with
  | nil =>
    intro l₂ h
    show (match lastIndexOf ch l₂ with
      | some i => some (i + 1)
      | none => if ch == ch then some 0 else none) = some 0
    rw [lastIndexOf_none ch l₂ h]
    show (if ch == ch then some 0 else none) = some 0
    rw [if_pos_of_eq_true (beq_self_eq_true ch)]
  | cons a as ih =>
    intro l₂ h
    show (match lastIndexOf ch (as ++ ch :: l₂) with
      | some i => some (i + 1)
      | none => if a == ch then some 0 else none) = some (as.length + 1)
    rw [ih l₂ h]

theorem getScheme_http (tail : List Char) :
    getScheme ('h' :: 't' :: 't' :: 'p' :: ':' :: tail) =
      some (['h', 't', 't', 'p'], tail) := rfl

theorem getScheme_https (tail : List Char) :
    getScheme ('h' :: 't' :: 't' :: 'p' :: 's' :: ':' :: tail) =
      some (['h', 't', 't', 'p', 's'], tail) := rfl

/-- A conservative class of host characters: alphanumerics and `-._~`.
Hosts made of these survive net/url parsing verbatim. -/
def simpleHostChar (c : Char) : Bool :=
  isAlphaC c || isDigitC c || (['-', '.', '_', '~'].contains c)

theorem simpleHostChar_toNat (c : Char) (h : simpleHostChar c = true) :
    (97 ≤ c.toNat ∧ c.toNat ≤ 122) ∨ (65 ≤ c.toNat ∧ c.toNat ≤ 90) ∨
    (48 ≤ c.toNat ∧ c.toNat ≤ 57) ∨ c.toNat = 45 ∨ c.toNat = 46 ∨
    c.toNat = 95 ∨ c.toNat = 126 := by
  unfold simpleHostChar isAlphaC isDigitC at h
  simp only [Bool.or_eq_true, Bool.and_eq_true, decide_eq_true_eq] at h
  rcases h with ((⟨h1, h2⟩ | ⟨h1, h2⟩) | ⟨h1, h2⟩) | h1
  · exact Or.inl ⟨h1, h2⟩
  · exact Or.inr (Or.inl ⟨h1, h2⟩)
  · exact Or.inr (Or.inr (Or.inl ⟨h1, h2⟩))
  · have hm := List.mem_of_elem_eq_true h1
    clear h1
    rcases List.mem_cons.mp hm with rfl | hm
    · decide
    rcases List.mem_cons.mp hm with rfl | hm
    · decide
    rcases List.mem_cons.mp hm with rfl | hm
    · decide
    rcases List.mem_cons.mp hm with rfl | hm
    · decide
    · simp at hm

theorem simpleHostChar_facts (c : Char) (h : simpleHostChar c = true) :
    c ≠ '#' ∧ c ≠ '?' ∧ c ≠ '/' ∧ c ≠ ':' ∧ c ≠ '%' ∧ c ≠ '@' ∧ c ≠ '[' ∧
    isCTL c = false ∧ hostAllowedChar c = true := by
  have ht := simpleHostChar_toNat c h
  refine ⟨?_, ?_, ?_, ?_, ?_, ?_, ?_, ?_, ?_⟩
  · intro he; rw [he] at ht; revert ht; decide
  · intro he; rw [he] at ht; revert ht; decide
  · intro he; rw [he] at ht; revert ht; decide
  · intro he; rw [he] at ht; revert ht; decide
  · intro he; rw [he] at ht; revert ht; decide
  · intro he; rw [he] at ht; revert ht; decide
  · intro he; rw [he] at ht; revert ht; decide
  · have h1 : ¬(c.toNat < 0x20) := by
      rcases ht with ⟨a, b⟩ | ⟨a, b⟩ | ⟨a, b⟩ | a | a | a | a <;> omega
    have h2 : ¬(c.toNat = 0x7f) := by
      rcases ht with ⟨a, b⟩ | ⟨a, b⟩ | ⟨a, b⟩ | a | a | a | a <;> omega
    unfold isCTL
    rw [decide_eq_false h1, decide_eq_false h2]
    rfl
  · unfold simpleHostChar at h
    unfold hostAllowedChar
    simp only [Bool.or_eq_true] at h
    rcases h with (h1 | h1) | h1
    · rw [h1]; rfl
    · rw [h1]; simp
    · have hm := List.mem_of_elem_eq_true h1
      clear h1 ht
      rcases List.mem_cons.mp hm with rfl | hm
      · decide
      rcases List.mem_cons.mp hm with rfl | hm
      · decide
      rcases List.mem_cons.mp hm with rfl | hm
      · decide
      rcases List.mem_cons.mp hm with rfl | hm
      · decide
      · simp at hm

theorem isDigitC_facts (c : Char) (h : isDigitC c = true) :
    c ≠ '#' ∧ c ≠ '?' ∧ c ≠ '/' ∧ c ≠ ':' ∧ c ≠ '%' ∧ c ≠ '@' ∧
    isCTL c = false ∧ hostAllowedChar c = true := by
  have hd := simpleHostChar_toNat c (by unfold simpleHostChar; rw [h]; simp)
  refine ⟨?_, ?_, ?_, ?_, ?_, ?_, ?_, ?_⟩
  · intro he; rw [he] at h; revert h; decide
  · intro he; rw [he] at h; revert h; decide
  · intro he; rw [he] at h; revert h; decide
  · intro he; rw [he] at h; revert h; decide
  · intro he; rw [he] at h; revert h; decide
  · intro he; rw [he] at h; revert h; decide
  · have h1 : ¬(c.toNat < 0x20) := by
      rcases hd with ⟨a, b⟩ | ⟨a, b⟩ | ⟨a, b⟩ | a | a | a | a <;> omega
    have h2 : ¬(c.toNat = 0x7f) := by
      rcases hd with ⟨a, b⟩ | ⟨a, b⟩ | ⟨a, b⟩ | a | a | a | a <;> omega
    unfold isCTL
    rw [decide_eq_false h1, decide_eq_false h2]
    rfl
  · unfold hostAllowedChar
    rw [h]
    simp

theorem parseAuthority_simple (hostL portL : List Char)
    (hh : hostL ≠ [])
    (hhost : ∀ c ∈ hostL, simpleHostChar c = true)
    (hport : portL = [] ∨ ∃ pd, portL = ':' :: pd ∧ ∀ c ∈ pd, isDigitC c = true) :
    parseAuthority (hostL ++ portL) = some (hostL ++ portL) := by
  have hhostc := fun c hc => simpleHostChar_facts c (hhost c hc)
  have hat : lastIndexOf '@' (hostL ++ portL) = none := by
    apply lastIndexOf_none
    intro c hc
    rcases List.mem_append.mp hc with hc | hc
    · exact (hhostc c hc).2.2.2.2.2.1
    · rcases hport with rfl | ⟨pd, rfl, hpd⟩
      · simp at hc
      · rcases List.mem_cons.mp hc with rfl | hc
        · decide
        · exact (isDigitC_facts c (hpd c hc)).2.2.2.2.2.1
  have hiduh : unescapeHost (hostL ++ portL) = some (hostL ++ portL) := by
    apply unescapeHost_id
    intro c hc
    rcases List.mem_append.mp hc with hc | hc
    · exact ⟨(hhostc c hc).2.2.2.2.1, (hhostc c hc).2.2.2.2.2.2.2.2⟩
    · rcases hport with rfl | ⟨pd, rfl, hpd⟩
      · simp at hc
      · rcases List.mem_cons.mp hc with rfl | hc
        · exact ⟨by decide, by decide⟩
        · exact ⟨(isDigitC_facts c (hpd c hc)).2.2.2.2.1,
            (isDigitC_facts c (hpd c hc)).2.2.2.2.2.2.2⟩
  obtain ⟨hc0, ht0, rfl⟩ := List.exists_cons_of_ne_nil hh
  unfold parseAuthority
  rw [hat]
  show parseHost ((hc0 :: ht0) ++ portL) = some ((hc0 :: ht0) ++ portL)
  unfold parseHost
  have hbr : (((hc0 :: ht0) ++ portL).head? == some '[') = false := by
    show (hc0 == '[') = false
    exact beq_eq_false_iff_ne.mpr
      (hhostc hc0 (List.mem_cons_self hc0 ht0)).2.2.2.2.2.2.1
  rw [if_neg_of_eq_false hbr]
  rcases hport with rfl | ⟨pd, rfl, hpd⟩
  · rw [lastIndexOf_none ':' ((hc0 :: ht0) ++ [])
      (fun c hc => (hhostc c (by simpa using hc)).2.2.2.1)]
    exact hiduh
  · rw [lastIndexOf_append ':' (hc0 :: ht0) pd
      (fun c hc he => by have hd := hpd c hc; rw [he] at hd; revert hd; decide)]
    show (if validOptionalPort (((hc0 :: ht0) ++ ':' :: pd).drop (hc0 :: ht0).length)
      then unescapeHost ((hc0 :: ht0) ++ ':' :: pd) else none) = some ((hc0 :: ht0) ++ ':' :: pd)
    rw [List.drop_left]
    have hvp : validOptionalPort (':' :: pd) = true := by
      show pd.all isDigitC = true
      rw [List.all_eq_true]
      exact fun c hc => hpd c hc
    rw [if_pos_of_eq_true hvp]
    exact hiduh

theorem parseNoFrag_core (schemeL hostL portL rtk : List Char)
    (hmap : schemeL.map lowerChar = schemeL)
    (hsne : schemeL.isEmpty = false)
    (hgs : getScheme (schemeL ++ ':' :: '/' :: '/' :: (hostL ++ portL ++ rtk)) =
      some (schemeL, '/' :: '/' :: (hostL ++ portL ++ rtk)))
    (hsctl : ∀ c ∈ schemeL, isCTL c = false)
    (hstar : ((schemeL ++ ':' :: '/' :: '/' :: (hostL ++ portL ++ rtk)) == ['*']) = false)
    (hh : hostL ≠ [])
    (hhost : ∀ c ∈ hostL, simpleHostChar c = true)
    (hport : portL = [] ∨ ∃ pd, portL = ':' :: pd ∧ ∀ c ∈ pd, isDigitC c = true)
    (hrtk : rtk = [] ∨ (∃ t, rtk = '/' :: t) ∨ (∃ t, rtk = '?' :: t))
    (hrchars : ∀ c ∈ rtk, c ≠ '%' ∧ isCTL c = false) :
    parseNoFrag (schemeL ++ ':' :: '/' :: '/' :: (hostL ++ portL ++ rtk)) =
      some (schemeL, hostL ++ portL) := by
  have hhostc := fun c hc => simpleHostChar_facts c (hhost c hc)
  have hportc : ∀ c ∈ portL, c ≠ '?' ∧ c ≠ '/' ∧ isCTL c = false := by
    rcases hport with rfl | ⟨pd, rfl, hpd⟩
    · intro c hc; simp at hc
    · intro c hc
      rcases List.mem_cons.mp hc with rfl | hc
      · exact ⟨by decide, by decide, by decide⟩
      · have hd := isDigitC_facts c (hpd c hc)
        exact ⟨hd.2.1, hd.2.2.1, hd.2.2.2.2.2.2.1⟩
  have hctl : (schemeL ++ ':' :: '/' :: '/' :: (hostL ++ portL ++ rtk)).any isCTL = false := by
    rw [List.any_eq_false]
    intro c hc hct
    rcases List.mem_append.mp hc with hc | hc
    · rw [hsctl c hc] at hct; exact Bool.false_ne_true hct
    · rcases List.mem_cons.mp hc with rfl | hc
      · revert hct; decide
      rcases List.mem_cons.mp hc with rfl | hc
      · revert hct; decide
      rcases List.mem_cons.mp hc with rfl | hc
      · revert hct; decide
      rcases List.mem_append.mp hc with hc | hc
      · rcases List.mem_append.mp hc with hc | hc
        · rw [(hhostc c hc).2.2.2.2.2.2.2.1] at hct; exact Bool.false_ne_true hct
        · rw [(hportc c hc).2.2] at hct; exact Bool.false_ne_true hct
      · rw [(hrchars c hc).2] at hct; exact Bool.false_ne_true hct
  have hq : ∀ c ∈ hostL ++ portL, ((fun c => c != '?') c) = true := by
    intro c hc
    rcases List.mem_append.mp hc with hc | hc
    · exact bne_iff_ne.mpr (hhostc c hc).2.1
    · exact bne_iff_ne.mpr (hportc c hc).1
  have hslash : ∀ c ∈ hostL ++ portL, ((fun c => c != '/') c) = true := by
    intro c hc
    rcases List.mem_append.mp hc with hc | hc
    · exact bne_iff_ne.mpr (hhostc c hc).2.2.1
    · exact bne_iff_ne.mpr (hportc c hc).2.1
  have htake1 : ('/' :: '/' :: (hostL ++ portL ++ rtk)).takeWhile (fun c => c != '?') =
      '/' :: '/' :: (hostL ++ portL ++ rtk.takeWhile (fun c => c != '?')) := by
    rw [List.takeWhile_cons, if_pos_of_eq_true (by decide), List.takeWhile_cons,
      if_pos_of_eq_true (by decide), takeWhile_append_all _ (hostL ++ portL) rtk hq]
  have hr2 : rtk.takeWhile (fun c => c != '?') = [] ∨
      ∃ t, rtk.takeWhile (fun c => c != '?') = '/' :: t := by
    rcases hrtk with rfl | ⟨t, rfl⟩ | ⟨t, rfl⟩
    · exact Or.inl rfl
    · right
      refine ⟨t.takeWhile (fun c => c != '?'), ?_⟩
      rw [List.takeWhile_cons, if_pos_of_eq_true (by decide)]
    · left
      rw [List.takeWhile_cons, if_neg_of_eq_false (by decide)]
  have hr2chars : ∀ c ∈ rtk.takeWhile (fun c => c != '?'), c ≠ '%' :=
    fun c hc => (hrchars c (mem_of_mem_takeWhile _ rtk c hc)).1
  unfold parseNoFrag
  rw [if_neg_of_eq_false hctl, if_neg_of_eq_false hstar]
  simp only [hgs]
  rw [hmap, htake1]
  have hcond1 : (!(('/' :: '/' ::
      (hostL ++ portL ++ rtk.takeWhile (fun c => c != '?'))).head? == some '/')) = false := rfl
  rw [if_neg_of_eq_false hcond1]
  have hcond2 : ((!schemeL.isEmpty ||
      !isPrefixOfL ['/', '/', '/']
        ('/' :: '/' :: (hostL ++ portL ++ rtk.takeWhile (fun c => c != '?')))) &&
      isPrefixOfL ['/', '/']
        ('/' :: '/' :: (hostL ++ portL ++ rtk.takeWhile (fun c => c != '?')))) = true := by
    rw [hsne]
    rfl
  rw [if_pos_of_eq_true hcond2]
  rcases hr2 with h2 | ⟨t2, h2⟩
  · rw [h2, List.append_nil]
    have hauthA : (('/' :: '/' :: (hostL ++ portL)).drop 2).takeWhile
        (fun c => c != '/') = hostL ++ portL := by
      show (hostL ++ portL).takeWhile (fun c => c != '/') = hostL ++ portL
      exact takeWhile_all_eq _ _ hslash
    have hrest2A : (('/' :: '/' :: (hostL ++ portL)).drop 2).dropWhile
        (fun c => c != '/') = [] := by
      show (hostL ++ portL).dropWhile (fun c => c != '/') = []
      exact dropWhile_all_nil _ _ hslash
    rw [hauthA, hrest2A, parseAuthority_simple hostL portL hh hhost hport]
    show (if validEscapes [] then some (schemeL, hostL ++ portL) else none) =
      some (schemeL, hostL ++ portL)
    rfl
  · rw [h2]
    have hauthB : (('/' :: '/' :: (hostL ++ portL ++ '/' :: t2)).drop 2).takeWhile
        (fun c => c != '/') = hostL ++ portL := by
      show ((hostL ++ portL) ++ '/' :: t2).takeWhile (fun c => c != '/') = hostL ++ portL
      rw [takeWhile_append_all _ (hostL ++ portL) ('/' :: t2) hslash,
        List.takeWhile_cons, if_neg_of_eq_false (by decide), List.append_nil]
    have hrest2B : (('/' :: '/' :: (hostL ++ portL ++ '/' :: t2)).drop 2).dropWhile
        (fun c => c != '/') = '/' :: t2 := by
      show ((hostL ++ portL) ++ '/' :: t2).dropWhile (fun c => c != '/') = '/' :: t2
      rw [dropWhile_append_all _ (hostL ++ portL) ('/' :: t2) hslash,
        List.dropWhile_cons, if_neg_of_eq_false (by decide)]
    rw [hauthB, hrest2B, parseAuthority_simple hostL portL hh hhost hport]
    show (if validEscapes ('/' :: t2) then some (schemeL, hostL ++ portL) else none) =
      some (schemeL, hostL ++ portL)
    rw [if_pos_of_eq_true (validEscapes_no_pct _
      (fun c hc => hr2chars c (by rw [h2]; exact hc)))]

theorem urlParse_general (schemeL hostL portL restL : List Char)
    (hs : schemeL = "http".data ∨ schemeL = "https".data)
    (hh : hostL ≠ [])
    (hhost : ∀ c ∈ hostL, simpleHostChar c = true)
    (hport : portL = [] ∨ ∃ pd, portL = ':' :: pd ∧ ∀ c ∈ pd, isDigitC c = true)
    (hrest : restL = [] ∨ (∃ t, restL = '/' :: t) ∨ (∃ t, restL = '?' :: t) ∨
      (∃ t, restL = '#' :: t))
    (hrchars : ∀ c ∈ restL, c ≠ '%' ∧ isCTL c = false) :
    urlParse (schemeL ++ ':' :: '/' :: '/' :: (hostL ++ portL ++ restL)) =
      some (schemeL, hostL ++ portL) := by
  have hhostc := fun c hc => simpleHostChar_facts c (hhost c hc)
  have h35 : ∀ c ∈ hostL ++ portL, ((fun c => c != '#') c) = true := by
    intro c hc
    rcases List.mem_append.mp hc with hc | hc
    · exact bne_iff_ne.mpr (hhostc c hc).1
    · rcases hport with rfl | ⟨pd, rfl, hpd⟩
      · simp at hc
      · rcases List.mem_cons.mp hc with rfl | hc
        · decide
        · exact bne_iff_ne.mpr (isDigitC_facts c (hpd c hc)).1
  have hs35 : ∀ c ∈ schemeL, ((fun c => c != '#') c) = true := by
    rcases hs with rfl | rfl <;> decide
  have hmap : schemeL.map lowerChar = schemeL := by
    rcases hs with rfl | rfl <;> decide
  have hsne : schemeL.isEmpty = false := by
    rcases hs with rfl | rfl <;> rfl
  have hsctl : ∀ c ∈ schemeL, isCTL c = false := by
    rcases hs with rfl | rfl <;> decide
  have hcut : (schemeL ++ ':' :: '/' :: '/' :: (hostL ++ portL ++ restL)).takeWhile
      (fun c => c != '#') =
      schemeL ++ ':' :: '/' :: '/' :: (hostL ++ portL ++ restL.takeWhile (fun c => c != '#')) := by
    rw [takeWhile_append_all _ schemeL _ hs35, List.takeWhile_cons,
      if_pos_of_eq_true (by decide), List.takeWhile_cons, if_pos_of_eq_true (by decide),
      List.takeWhile_cons, if_pos_of_eq_true (by decide),
      takeWhile_append_all _ (hostL ++ portL) restL h35]
  have hdrop : (schemeL ++ ':' :: '/' :: '/' :: (hostL ++ portL ++ restL)).dropWhile
      (fun c => c != '#') = restL.dropWhile (fun c => c != '#') := by
    rw [dropWhile_append_all _ schemeL _ hs35, List.dropWhile_cons,
      if_pos_of_eq_true (by decide), List.dropWhile_cons, if_pos_of_eq_true (by decide),
      List.dropWhile_cons, if_pos_of_eq_true (by decide),
      dropWhile_append_all _ (hostL ++ portL) restL h35]
  have hstar : ((schemeL ++ ':' :: '/' :: '/' ::
      (hostL ++ portL ++ restL.takeWhile (fun c => c != '#'))) == ['*']) = false := by
    rcases hs with rfl | rfl <;> rfl
  have hgs : getScheme (schemeL ++ ':' :: '/' :: '/' ::
      (hostL ++ portL ++ restL.takeWhile (fun c => c != '#'))) =
      some (schemeL, '/' :: '/' :: (hostL ++ portL ++ restL.takeWhile (fun c => c != '#'))) := by
    rcases hs with rfl | rfl
    · exact getScheme_http _
    · exact getScheme_https _
  have hrtk : restL.takeWhile (fun c => c != '#') = [] ∨
      (∃ t, restL.takeWhile (fun c => c != '#') = '/' :: t) ∨
      (∃ t, restL.takeWhile (fun c => c != '#') = '?' :: t) := by
    rcases hrest with rfl | ⟨t, rfl⟩ | ⟨t, rfl⟩ | ⟨t, rfl⟩
    · exact Or.inl rfl
    · right; left
      refine ⟨t.takeWhile (fun c => c != '#'), ?_⟩
      rw [List.takeWhile_cons, if_pos_of_eq_true (by decide)]
    · right; right
      refine ⟨t.takeWhile (fun c => c != '#'), ?_⟩
      rw [List.takeWhile_cons, if_pos_of_eq_true (by decide)]
    · left
      rw [List.takeWhile_cons, if_neg_of_eq_false (by decide)]
  have hrtkchars : ∀ c ∈ restL.takeWhile (fun c => c != '#'), c ≠ '%' ∧ isCTL c = false :=
    fun c hc => hrchars c (mem_of_mem_takeWhile _ restL c hc)
  have hfragOK : validEscapes ((restL.dropWhile (fun c => c != '#')).drop 1) = true := by
    apply validEscapes_no_pct
    intro c hc
    exact (hrchars c (mem_of_mem_dropWhile _ restL c (List.mem_of_mem_drop hc))).1
  unfold urlParse
  rw [hcut, parseNoFrag_core schemeL hostL portL (restL.takeWhile (fun c => c != '#'))
    hmap hsne hgs hsctl hstar hh hhost hport hrtk hrtkchars, hdrop]
  show (if validEscapes ((restL.dropWhile (fun c => c != '#')).drop 1)
    then some (schemeL, hostL ++ portL) else none) = some (schemeL, hostL ++ portL)
  rw [if_pos_of_eq_true hfragOK]

theorem extractDomain_general (scheme host portPart rest : String)
    (hs : scheme = "http" ∨ scheme = "https")
    (hh : host ≠ "")
    (hhost : ∀ c ∈ host.data, simpleHostChar c = true)
    (hport : portPart = "" ∨ ∃ pd : String, portPart = ":" ++ pd ∧
      ∀ c ∈ pd.data, isDigitC c = true)
    (hrest : rest = "" ∨ (∃ t, rest.data = '/' :: t) ∨ (∃ t, rest.data = '?' :: t) ∨
      (∃ t, rest.data = '#' :: t))
    (hrchars : ∀ c ∈ rest.data, c ≠ '%' ∧ isCTL c = false) :
    ExtractDomain (scheme ++ "://" ++ host ++ portPart ++ rest) =
      scheme ++ "://" ++ host ++ portPart := by
  have hdataS : (scheme ++ "://" ++ host ++ portPart ++ rest).data =
      scheme.data ++ ':' :: '/' :: '/' :: (host.data ++ portPart.data ++ rest.data) := by
    show scheme.data ++ [':', '/', '/'] ++ host.data ++ portPart.data ++ rest.data =
      scheme.data ++ ':' :: '/' :: '/' :: (host.data ++ portPart.data ++ rest.data)
    simp only [List.append_assoc, List.cons_append, List.nil_append]
  have h1 : hasPrefixS (scheme ++ "://" ++ host ++ portPart ++ rest) "data:" = false := by
    unfold hasPrefixS
    rw [hdataS]
    rcases hs with rfl | rfl <;> rfl
  have h2 : (!hasPrefixS (scheme ++ "://" ++ host ++ portPart ++ rest) "http://" &&
      !hasPrefixS (scheme ++ "://" ++ host ++ portPart ++ rest) "https://" &&
      !hasPrefixS (scheme ++ "://" ++ host ++ portPart ++ rest) "//") = false := by
    unfold hasPrefixS
    rw [hdataS]
    rcases hs with rfl | rfl <;> rfl
  have h3 : hasPrefixS (scheme ++ "://" ++ host ++ portPart ++ rest) "//" = false := by
    unfold hasPrefixS
    rw [hdataS]
    rcases hs with rfl | rfl <;> rfl
  have hs2 : scheme.data = "http".data ∨ scheme.data = "https".data := by
    rcases hs with rfl | rfl
    · exact Or.inl rfl
    · exact Or.inr rfl
  have hh2 : host.data ≠ [] := by
    intro hd
    exact hh (string_data_ext host "" hd)
  have hport2 : portPart.data = [] ∨ ∃ pd, portPart.data = ':' :: pd ∧
      ∀ c ∈ pd, isDigitC c = true := by
    rcases hport with rfl | ⟨pd, rfl, hpdd⟩
    · exact Or.inl rfl
    · exact Or.inr ⟨pd.data, rfl, hpdd⟩
  have hrest2 : rest.data = [] ∨ (∃ t, rest.data = '/' :: t) ∨
      (∃ t, rest.data = '?' :: t) ∨ (∃ t, rest.data = '#' :: t) := by
    rcases hrest with rfl | hr
    · exact Or.inl rfl
    · exact Or.inr hr
  unfold ExtractDomain
  rw [if_neg_of_eq_false h1, if_neg_of_eq_false h2, if_neg_of_eq_false h3]
  show (match urlParse (scheme ++ "://" ++ host ++ portPart ++ rest).data with
    | none => ""
    | some (sc, ho) =>
      if ho.isEmpty then "" else String.mk sc ++ "://" ++ String.mk ho) =
    scheme ++ "://" ++ host ++ portPart
  rw [hdataS, urlParse_general scheme.data host.data portPart.data rest.data
    hs2 hh2 hhost hport2 hrest2 hrchars]
  show (if (host.data ++ portPart.data).isEmpty then ""
    else String.mk scheme.data ++ "://" ++ String.mk (host.data ++ portPart.data)) =
    scheme ++ "://" ++ host ++ portPart
  have hhe : (host.data ++ portPart.data).isEmpty = false := by
    obtain ⟨hc0, ht0, hje⟩ := List.exists_cons_of_ne_nil hh2
    rw [hje]
    rfl
  rw [if_neg_of_eq_false hhe]
  apply string_data_ext
  show scheme.data ++ [':', '/', '/'] ++ (host.data ++ portPart.data) =
    scheme.data ++ [':', '/', '/'] ++ host.data ++ portPart.data
  simp only [List.append_assoc]

theorem isPrefixOfL_cons_true (p : Char) (ps l : List Char)
    (h : isPrefixOfL (p :: ps) l = true) : ∃ t, l = p :: t ∧ isPrefixOfL ps t = true := by
  cases l with
  | nil => exact absurd h Bool.false_ne_true
  | cons a l2 =>
    have h2 := h
    rw [show isPrefixOfL (p :: ps) (a :: l2) = (decide (p = a) && isPrefixOfL ps l2)
      from rfl, Bool.and_eq_true] at h2
    obtain ⟨hpa, hrest⟩ := h2
    rw [decide_eq_true_eq] at hpa
    exact ⟨l2, by rw [hpa], hrest⟩

/-- C7: ExtractDomain applies its rules in priority order — a `data:`
prefix yields ""; an input starting with none of `http://`, `https://`,
`//` yields ""; a protocol-relative input is treated as its `https:`
completion; otherwise the URL is parsed and `scheme://host[:port]` is
returned with path, query and fragment stripped (shown here for
well-formed hosts and ports; parse failure or an empty host yields "",
shown by the closed `http://` and `http://%` cases).  Totality — "never
raising a fault" — holds because `ExtractDomain` is a Lean function.
The two examples of the claim close the conjunction. -/
theorem extractDomain_spec :
    (∀ s : String, hasPrefixS s "data:" = true → ExtractDomain s = "") ∧
    (∀ s : String, hasPrefixS s "http://" = false → hasPrefixS s "https://" = false →
      hasPrefixS s "//" = false → ExtractDomain s = "") ∧
    (∀ s : String, hasPrefixS s "//" = true →
      ExtractDomain s = ExtractDomain ("https:" ++ s)) ∧
    (∀ scheme host portPart rest : String,
      (scheme = "http" ∨ scheme = "https") → host ≠ "" →
      (∀ c ∈ host.data, simpleHostChar c = true) →
      (portPart = "" ∨ ∃ pd : String, portPart = ":" ++ pd ∧
        ∀ c ∈ pd.data, isDigitC c = true) →
      (rest = "" ∨ (∃ t, rest.data = '/' :: t) ∨ (∃ t, rest.data = '?' :: t) ∨
        (∃ t, rest.data = '#' :: t)) →
      (∀ c ∈ rest.data, c ≠ '%' ∧ isCTL c = false) →
      ExtractDomain (scheme ++ "://" ++ host ++ portPart ++ rest) =
        scheme ++ "://" ++ host ++ portPart) ∧
    ExtractDomain "//cdn.example.com/file.js" = "https://cdn.example.com" ∧
    ExtractDomain "data:image/png;base64,AA" = "" ∧
    ExtractDomain "http://" = "" ∧
    ExtractDomain "http://%" = "" := by
  refine ⟨?_, ?_, ?_, ?_, by decide, by decide, by decide, by decide⟩
  · intro s h
    unfold ExtractDomain
    rw [if_pos_of_eq_true h]
  · intro s h1 h2 h3
    unfold ExtractDomain
    by_cases hd : hasPrefixS s "data:" = true
    · rw [if_pos_of_eq_true hd]
    · have hd2 : hasPrefixS s "data:" = false := by
        revert hd; cases hasPrefixS s "data:" <;> simp
      rw [if_neg_of_eq_false hd2, h1, h2, h3,
        if_pos_of_eq_true (show (!false && !false && !false) = true from rfl)]
  · intro s h2
    have hsd : ∃ t, s.data = '/' :: '/' :: t := by
      unfold hasPrefixS at h2
      obtain ⟨t1, ht1, h2b⟩ := isPrefixOfL_cons_true '/' ['/'] s.data h2
      obtain ⟨t2, ht2, _⟩ := isPrefixOfL_cons_true '/' [] t1 h2b
      exact ⟨t2, by rw [ht1, ht2]⟩
    obtain ⟨t, hdat⟩ := hsd
    obtain rfl : s = ⟨'/' :: '/' :: t⟩ := string_data_ext _ _ hdat
    rfl
  · exact fun scheme host portPart rest hs hh hhost hport hrest hrchars =>
      extractDomain_general scheme host portPart rest hs hh hhost hport hrest hrchars

theorem extractDomain_spec_witness :
    ("cdn.example.com" : String) ≠ "" ∧
    ExtractDomain ("https" ++ "://" ++ "cdn.example.com" ++ ":8080" ++ "/x?y#z") =
      "https" ++ "://" ++ "cdn.example.com" ++ ":8080" :=
  ⟨by decide,
   extractDomain_spec.2.2.2.1 "https" "cdn.example.com" ":8080" "/x?y#z"
    (Or.inr rfl) (by decide) (by decide) (Or.inr ⟨"8080", rfl, by decide⟩)
    (Or.inr (Or.inl ⟨"x?y#z".data, rfl⟩)) (by decide)⟩

/-! ### C5: block-level lemmas for AddExternalResourcesToCSP -/

theorem findD_addDataBlock_ne (D : Directives) (k k2 : String) (h : k2 ≠ k) :
    findD (addDataBlock D k) k2 = findD D k2 := by
  unfold addDataBlock
  rcases hfk : findD D k with _ | ex
  · rcases hfd : findD D "default-src" with _ | df
    · exact findD_insertD_ne D k _ k2 h
    · exact findD_insertD_ne D k _ k2 h
  · show findD (if containsS ex "data:" = true then D
      else insertD D k (appendUniqueDomainsToString ex ["data:"])) k2 = findD D k2
    by_cases hc : containsS ex "data:" = true
    · rw [if_pos hc]
    · rw [if_neg hc]
      exact findD_insertD_ne D k _ k2 h

theorem findD_addDomainsBlock_ne (D : Directives) (k : String) (doms : List String)
    (k2 : String) (h : k2 ≠ k) :
    findD (addDomainsBlock D k doms) k2 = findD D k2 := by
  unfold addDomainsBlock
  by_cases hl : doms.length > 0
  · rw [if_pos hl]
    rcases hfk : findD D k with _ | ex
    · rcases hfd : findD D "default-src" with _ | df
      · exact findD_insertD_ne D k _ k2 h
      · exact findD_insertD_ne D k _ k2 h
    · exact findD_insertD_ne D k _ k2 h
  · rw [if_neg hl]

theorem findD_addDataBlock_some (D : Directives) (k v : String)
    (hv : findD D k = some v) :
    findD (addDataBlock D k) k =
      some (if containsS v "data:" then v
        else appendUniqueDomainsToString v ["data:"]) := by
  unfold addDataBlock
  rw [hv]
  show findD (if containsS v "data:" = true then D
    else insertD D k (appendUniqueDomainsToString v ["data:"])) k =
    some (if containsS v "data:" then v else appendUniqueDomainsToString v ["data:"])
  by_cases hc : containsS v "data:" = true
  · rw [if_pos hc, if_pos hc]
    exact hv
  · rw [if_neg hc, if_neg hc]
    exact findD_insertD_self D k _

theorem findD_addDomainsBlock_self (D : Directives) (k : String) (doms : List String) :
    findD (addDomainsBlock D k doms) k =
      if doms = [] then findD D k
      else match findD D k, findD D "default-src" with
        | some ex, _ => some (appendUniqueDomainsToString ex doms)
        | none, some df => some (appendUniqueDomainsToString df doms)
        | none, none => some (joinStrings " " doms) := by
  unfold addDomainsBlock
  rcases doms with _ | ⟨d0, drest⟩
  · rw [if_neg (by simp), if_pos rfl]
  · rw [if_pos (by simp), if_neg (by simp)]
    rcases hfk : findD D k with _ | ex
    · rcases hfd : findD D "default-src" with _ | df
      · exact findD_insertD_self D k _
      · exact findD_insertD_self D k _
    · exact findD_insertD_self D k _

theorem addUnique_cons (acc : List String) (x : String) (xs : List String) :
    addUnique acc (x :: xs) =
      addUnique (if acc.contains x then acc else acc ++ [x]) xs := rfl

theorem addUnique_extend : ∀ (xs acc : List String), ∃ zs, addUnique acc xs = acc ++ zs := by
  intro xs
  induction xs with
  | nil => intro acc; exact ⟨[], by simp [addUnique]⟩
  | cons x xs ih =>
    intro acc
    rw [addUnique_cons]
    by_cases hc : acc.contains x = true
    · rw [if_pos hc]; exact ih acc
    · rw [if_neg hc]
      obtain ⟨zs, hz⟩ := ih (acc ++ [x])
      exact ⟨x :: zs, by rw [hz, List.append_assoc]; rfl⟩

theorem mem_addUnique : ∀ (xs acc : List String) (v : String),
    v ∈ addUnique acc xs ↔ v ∈ acc ∨ v ∈ xs := by
  intro xs
  induction xs with
  | nil => intro acc v; simp [addUnique]
  | cons x xs ih =>
    intro acc v
    rw [addUnique_cons]
    by_cases hc : acc.contains x = true
    · rw [if_pos hc, ih]
      constructor
      · rintro (hv | hv)
        · exact Or.inl hv
        · exact Or.inr (List.mem_cons_of_mem x hv)
      · rintro (hv | hv)
        · exact Or.inl hv
        · rcases List.mem_cons.mp hv with rfl | hv
          · exact Or.inl (List.mem_of_elem_eq_true hc)
          · exact Or.inr hv
    · rw [if_neg hc, ih]
      constructor
      · rintro (hv | hv)
        · rcases List.mem_append.mp hv with hv | hv
          · exact Or.inl hv
          · exact Or.inr (by rw [List.mem_singleton.mp hv]; exact List.mem_cons_self x xs)
        · exact Or.inr (List.mem_cons_of_mem x hv)
      · rintro (hv | hv)
        · exact Or.inl (List.mem_append.mpr (Or.inl hv))
        · rcases List.mem_cons.mp hv with rfl | hv
          · exact Or.inl (List.mem_append.mpr (Or.inr (List.mem_singleton.mpr rfl)))
          · exact Or.inr hv

theorem addUnique_nodup : ∀ (xs acc : List String), acc.Nodup → (addUnique acc xs).Nodup := by
  intro xs
  induction xs with
  | nil => intro acc h; exact h
  | cons x xs ih =>
    intro acc h
    rw [addUnique_cons]
    by_cases hc : acc.contains x = true
    · rw [if_pos hc]; exact ih acc h
    · rw [if_neg hc]
      apply ih
      rw [List.nodup_append]
      refine ⟨h, List.nodup_singleton x, ?_⟩
      intro a ha hax
      rw [List.mem_singleton.mp hax] at ha
      exact hc (List.elem_eq_true_of_mem ha)

theorem addDomainsBlock_nil (D : Directives) (k : String) :
    addDomainsBlock D k [] = D := by
  unfold addDomainsBlock
  rw [if_neg (by simp)]

theorem findD_dataStage_ne (D : Directives) (b : Bool) (k k2 : String) (h : k2 ≠ k) :
    findD (if b then addDataBlock D k else D) k2 = findD D k2 := by
  cases b
  · rfl
  · show findD (addDataBlock D k) k2 = findD D k2
    exact findD_addDataBlock_ne D k k2 h

theorem findD_dataStage_self (D : Directives) (b : Bool) (k v : String)
    (hv : findD D k = some v) :
    findD (if b then addDataBlock D k else D) k =
      some (if b && !containsS v "data:" then appendUniqueDomainsToString v ["data:"]
        else v) := by
  cases b
  · exact hv
  · show findD (addDataBlock D k) k = _
    rw [findD_addDataBlock_some D k v hv]
    by_cases hcc : containsS v "data:" = true
    · rw [hcc]; rfl
    · have hcf : containsS v "data:" = false := by
        revert hcc; cases containsS v "data:" <;> simp
      rw [hcf]; rfl

theorem findD_addDataBlock_full (D : Directives) (k : String) :
    findD (addDataBlock D k) k =
      some (match findD D k with
        | some v => if containsS v "data:" then v
            else appendUniqueDomainsToString v ["data:"]
        | none =>
          match findD D "default-src" with
          | some df => appendUniqueDomainsToString df ["data:"]
          | none => "data:") := by
  unfold addDataBlock
  rcases hfk : findD D k with _ | v
  · rcases hfd : findD D "default-src" with _ | df
    · exact findD_insertD_self D k _
    · exact findD_insertD_self D k _
  · show findD (if containsS v "data:" = true then D
      else insertD D k (appendUniqueDomainsToString v ["data:"])) k =
      some (if containsS v "data:" then v else appendUniqueDomainsToString v ["data:"])
    by_cases hc : containsS v "data:" = true
    · rw [if_pos hc, if_pos hc]
      exact hfk
    · rw [if_neg hc, if_neg hc]
      exact findD_insertD_self D k _

theorem findD_dataStage_full (D : Directives) (b : Bool) (k : String) :
    findD (if b then addDataBlock D k else D) k =
      (if b then
        some (match findD D k with
          | some v => if containsS v "data:" then v
              else appendUniqueDomainsToString v ["data:"]
          | none =>
            match findD D "default-src" with
            | some df => appendUniqueDomainsToString df ["data:"]
            | none => "data:")
      else findD D k) := by
  cases b
  · rfl
  · show findD (addDataBlock D k) k = _
    rw [findD_addDataBlock_full]
    rfl

/-- C5 counterexample: with data-URL usage recorded for "image" and an
existing img-src whose value contains "data:" only as a substring of the
token "foodata:bar", the header comes back unchanged — the literal token
`data:` is NOT ensured present, because the code tests
`strings.Contains(existing, "data:")`, a substring check. -/
theorem addExternal_counterexample :
    AddExternalResourcesToCSP "img-src foodata:bar"
      ⟨[], [], [], [], [], [], ["image"]⟩ = "img-src foodata:bar" ∧
    "data:" ∉ fieldsStr ((getD (parseCSPDirectives
      (AddExternalResourcesToCSP "img-src foodata:bar"
        ⟨[], [], [], [], [], [], ["image"]⟩)) "img-src")) := by
  constructor
  · decide
  · decide

/-- C5 (amended): AddExternalResourcesToCSP reconstructs the directives
map built by its blocks; with no recorded data-URL usage and no domains
the map is untouched; each plain directive (script-src/style-src/
frame-src/connect-src) receives the order-preserving duplicate-free union
of its existing tokens with the unique domain list of its resource type,
seeded from default-src when absent (bare join when both absent); img-src
and font-src follow the same union/seeding scheme applied to the value
left by the data-URL step, which — when usage was recorded — keeps an
existing value already containing "data:" as a SUBSTRING (not as a token:
see the counterexample), appends "data:" to an existing value otherwise,
and for an absent directive seeds "data:" from default-src or creates the
directive as the bare token; and the underlying accumulator is an
order-preserving duplicate-free union. -/
theorem addExternal_amended (h : String) (er : ExternalResources) :
    (AddExternalResourcesToCSP h er = reconstructCSP (addExternalDirectives h er)) ∧
    (er.UsesDataURLs.contains "image" = false →
     er.UsesDataURLs.contains "font" = false →
     (∀ ty ∈ (["script", "stylesheet", "image", "font", "frame", "other"] : List String),
       GetDomainsByType er ty = []) →
     addExternalDirectives h er = parseCSPDirectives h) ∧
    (∀ k ty, (k, ty) ∈ ([("script-src", "script"), ("style-src", "stylesheet"),
        ("frame-src", "frame"), ("connect-src", "other")] : List (String × String)) →
      findD (addExternalDirectives h er) k =
        (if GetDomainsByType er ty = [] then findD (parseCSPDirectives h) k
         else match findD (parseCSPDirectives h) k,
             findD (parseCSPDirectives h) "default-src" with
           | some ex, _ => some (appendUniqueDomainsToString ex (GetDomainsByType er ty))
           | none, some df => some (appendUniqueDomainsToString df (GetDomainsByType er ty))
           | none, none => some (joinStrings " " (GetDomainsByType er ty)))) ∧
    (findD (addExternalDirectives h er) "img-src" =
      (if GetDomainsByType er "image" = []
       then (if er.UsesDataURLs.contains "image" then
          some (match findD (parseCSPDirectives h) "img-src" with
            | some v => if containsS v "data:" then v
                else appendUniqueDomainsToString v ["data:"]
            | none =>
              match findD (parseCSPDirectives h) "default-src" with
              | some df => appendUniqueDomainsToString df ["data:"]
              | none => "data:")
        else findD (parseCSPDirectives h) "img-src")
       else match (if er.UsesDataURLs.contains "image" then
          some (match findD (parseCSPDirectives h) "img-src" with
            | some v => if containsS v "data:" then v
                else appendUniqueDomainsToString v ["data:"]
            | none =>
              match findD (parseCSPDirectives h) "default-src" with
              | some df => appendUniqueDomainsToString df ["data:"]
              | none => "data:")
        else findD (parseCSPDirectives h) "img-src"),
           findD (parseCSPDirectives h) "default-src" with
         | some ex, _ => some (appendUniqueDomainsToString ex (GetDomainsByType er "image"))
         | none, some df => some (appendUniqueDomainsToString df (GetDomainsByType er "image"))
         | none, none => some (joinStrings " " (GetDomainsByType er "image")))) ∧
    (findD (addExternalDirectives h er) "font-src" =
      (if GetDomainsByType er "font" = []
       then (if er.UsesDataURLs.contains "font" then
          some (match findD (parseCSPDirectives h) "font-src" with
            | some v => if containsS v "data:" then v
                else appendUniqueDomainsToString v ["data:"]
            | none =>
              match findD (parseCSPDirectives h) "default-src" with
              | some df => appendUniqueDomainsToString df ["data:"]
              | none => "data:")
        else findD (parseCSPDirectives h) "font-src")
       else match (if er.UsesDataURLs.contains "font" then
          some (match findD (parseCSPDirectives h) "font-src" with
            | some v => if containsS v "data:" then v
                else appendUniqueDomainsToString v ["data:"]
            | none =>
              match findD (parseCSPDirectives h) "default-src" with
              | some df => appendUniqueDomainsToString df ["data:"]
              | none => "data:")
        else findD (parseCSPDirectives h) "font-src"),
           findD (parseCSPDirectives h) "default-src" with
         | some ex, _ => some (appendUniqueDomainsToString ex (GetDomainsByType er "font"))
         | none, some df => some (appendUniqueDomainsToString df (GetDomainsByType er "font"))
         | none, none => some (joinStrings " " (GetDomainsByType er "font")))) ∧
    AddExternalResourcesToCSP "default-src 'self'" ⟨[], [], [], [], [], [], ["image"]⟩ =
      "default-src 'self'; img-src 'self' data:" ∧
    AddExternalResourcesToCSP "" ⟨[], [], [], [], [], [], ["font"]⟩ = "font-src data:" ∧
    (∀ existing newDomains, appendUniqueDomainsToString existing newDomains =
      joinStrings " " (addUnique (addUnique []
        (if existing = "" then [] else fieldsStr existing)) newDomains)) ∧
    (∀ xs ys : List String, (addUnique (addUnique [] xs) ys).Nodup ∧
      (∀ v, v ∈ addUnique (addUnique [] xs) ys ↔ v ∈ xs ∨ v ∈ ys) ∧
      (∃ zs, addUnique (addUnique [] xs) ys = addUnique [] xs ++ zs)) := by
  refine ⟨rfl, ?_, ?_, ?_, ?_, by decide, by decide,
    fun existing newDomains => rfl, ?_⟩
  · intro hi hf hty
    simp only [addExternalDirectives]
    rw [if_neg_of_eq_false hi, if_neg_of_eq_false hf,
      hty "script" (by decide), hty "stylesheet" (by decide), hty "image" (by decide),
      hty "font" (by decide), hty "frame" (by decide), hty "other" (by decide),
      addDomainsBlock_nil, addDomainsBlock_nil, addDomainsBlock_nil,
      addDomainsBlock_nil, addDomainsBlock_nil, addDomainsBlock_nil]
  · intro k ty hmem
    simp only [List.mem_cons, List.not_mem_nil, or_false, Prod.mk.injEq] at hmem
    simp only [addExternalDirectives]
    rcases hmem with ⟨rfl, rfl⟩ | ⟨rfl, rfl⟩ | ⟨rfl, rfl⟩ | ⟨rfl, rfl⟩ <;>
      (repeat rw [findD_addDomainsBlock_ne _ _ _ _ (by decide)]) <;>
      rw [findD_addDomainsBlock_self] <;>
      (repeat rw [findD_addDomainsBlock_ne _ _ _ _ (by decide)]) <;>
      (repeat rw [findD_dataStage_ne _ _ _ _ (by decide)])
  · simp only [addExternalDirectives]
    repeat rw [findD_addDomainsBlock_ne _ _ _ _ (by decide)]
    rw [findD_addDomainsBlock_self]
    repeat rw [findD_addDomainsBlock_ne _ _ _ _ (by decide)]
    rw [findD_dataStage_ne _ _ _ _ (by decide), findD_dataStage_full]
    repeat rw [findD_dataStage_ne _ _ _ _ (by decide)]
  · simp only [addExternalDirectives]
    repeat rw [findD_addDomainsBlock_ne _ _ _ _ (by decide)]
    rw [findD_addDomainsBlock_self]
    repeat rw [findD_addDomainsBlock_ne _ _ _ _ (by decide)]
    rw [findD_dataStage_full]
    repeat rw [findD_dataStage_ne _ _ _ _ (by decide)]
  · intro xs ys
    refine ⟨addUnique_nodup ys (addUnique [] xs) (addUnique_nodup xs [] List.nodup_nil),
      ?_, addUnique_extend ys (addUnique [] xs)⟩
    intro v
    rw [mem_addUnique, mem_addUnique]
    simp

theorem addExternal_amended_witness :
    (("script-src", "script") ∈ ([("script-src", "script"), ("style-src", "stylesheet"),
      ("frame-src", "frame"), ("connect-src", "other")] : List (String × String))) ∧
    findD (addExternalDirectives "default-src 'self'"
      ⟨[⟨"script", "https://cdn.example.com/a.js", "https://cdn.example.com"⟩],
        [], [], [], [], [], []⟩) "script-src" =
      some "'self' https://cdn.example.com" := by
  refine ⟨by decide, ?_⟩
  rw [(addExternal_amended "default-src 'self'"
    ⟨[⟨"script", "https://cdn.example.com/a.js", "https://cdn.example.com"⟩],
      [], [], [], [], [], []⟩).2.2.1 "script-src" "script" (by decide)]
  decide

/-! ## Heuristics (ApplyHeuristics and its rule functions)

The Go `seen` map is the list of keys marked true.  Go maps used as
pattern tables are embedded as association lists in source-literal order
and the first-match-then-break loops as `List.find?` (see the header on
map-iteration determinization). -/

/-- `HeuristicResource` (the Go field `Type` is written `type`). -/
structure HeuristicResource where
  URL : String
  type : String
  Confidence : String
  Reason : String
  SourceURL : String
  SourceType : String
deriving DecidableEq

/-- One guarded emission: `if cond { if !seen[key] { append; mark } }`. -/
def emitIf (cond : Bool) (key : String) (hr : HeuristicResource)
    (st : List HeuristicResource × List String) :
    List HeuristicResource × List String :=
  if cond && !st.2.contains key then (st.1 ++ [hr], key :: st.2) else st

/-- Hand-compiled matcher for the group
`(xs|sm|md|lg|xl|[0-9]+x|2x|3x|retina)` at the head of a list (`2x` and
`3x` are instances of `[0-9]+x`, kept for the existence check). -/
def moreDigitsX : List Char → Bool
  | [] => false
  | c :: rest => if c == 'x' then true else isDigitC c && moreDigitsX rest

def digitsThenX : List Char → Bool
  | [] => false
  | d :: rest => isDigitC d && moreDigitsX rest

def altMatch (l : List Char) : Bool :=
  isPrefixOfL "xs".data l || isPrefixOfL "sm".data l || isPrefixOfL "md".data l ||
    isPrefixOfL "lg".data l || isPrefixOfL "xl".data l || digitsThenX l ||
    isPrefixOfL "retina".data l

def atDigitX : List Char → Bool
  | d :: c :: _ => isDigitC d && c == 'x'
  | _ => false

/-- `regexp.MustCompile`d `[-_@](xs|sm|md|lg|xl|[0-9]+x|2x|3x|retina)|@[0-9]x`
as an anywhere-match. -/
def responsiveMatch : List Char → Bool
  | [] => false
  | c :: rest =>
    ((c == '-' || c == '_' || c == '@') && altMatch rest) ||
      (c == '@' && atDigitX rest) || responsiveMatch rest

/-- `inferFromStylesheet` of the heuristics file. -/
def inferFromStylesheet (resource : ExternalResource) (seen : List String) :
    List HeuristicResource × List String :=
  if resource.type ≠ "stylesheet" then ([], seen)
  else
    let urlStr := toLowerS resource.URL
    let domain := ExtractDomain resource.URL
    let st1 := emitIf (containsS urlStr "font") (domain ++ "-font-inference")
      ⟨domain, "font", "high", "Stylesheet name contains 'font' keyword",
        resource.URL, "stylesheet"⟩ ([], seen)
    let st2 := emitIf (containsS domain "fonts.googleapis.com") "https://fonts.gstatic.com"
      ⟨"https://fonts.gstatic.com", "font", "high",
        "Google Fonts CSS always loads from fonts.gstatic.com",
        resource.URL, "stylesheet"⟩ st1
    let st3 := match ["fontawesome", "font-awesome", "material-icons", "icomoon",
        "glyphicons"].find? (fun p => containsS urlStr p) with
      | some pattern => emitIf true domain
          ⟨domain, "font", "high", "Icon font library detected (" ++ pattern ++ ")",
            resource.URL, "stylesheet"⟩ st2
      | none => st2
    let st4 := match ["bootstrap", "foundation", "bulma", "tailwind"].find?
        (fun p => containsS urlStr p) with
      | some pattern => emitIf true (domain ++ "-fonts")
          ⟨domain, "font", "medium",
            "CSS framework may include custom fonts (" ++ pattern ++ ")",
            resource.URL, "stylesheet"⟩ st3
      | none => st3
    match ["cdn.jsdelivr.net", "unpkg.com", "cdnjs.cloudflare.com"].find?
        (fun p => containsS domain p) with
    | some _ => emitIf true (domain ++ "-connect")
        ⟨domain, "connect", "medium", "CDN may dynamically load additional resources",
          resource.URL, "stylesheet"⟩ st4
    | none => st4

/-- `inferFromScript` of the heuristics file. -/
def inferFromScript (resource : ExternalResource) (seen : List String) :
    List HeuristicResource × List String :=
  if resource.type ≠ "script" then ([], seen)
  else
    let urlStr := toLowerS resource.URL
    let domain := ExtractDomain resource.URL
    let st1 := match ([("google-analytics.com", "google-analytics.com"),
        ("googletagmanager.com", "google-analytics.com"),
        ("analytics.js", domain),
        ("gtag/js", "google-analytics.com"),
        ("ga.js", "google-analytics.com"),
        ("analytics", domain)] : List (String × String)).find?
        (fun p => containsS urlStr p.1) with
      | some p => emitIf true (p.2 ++ "-connect")
          ⟨p.2, "connect", "high", "Analytics/tracking script needs to send data",
            resource.URL, "script"⟩ ([], seen)
      | none => ([], seen)
    let st2 := match ["react", "vue", "angular", "chunk", "bundle"].find?
        (fun p => containsS urlStr p) with
      | some _ => emitIf true (domain ++ "-script-chunks")
          ⟨domain, "script", "high",
            "JavaScript framework may lazy-load additional chunks",
            resource.URL, "script"⟩ st1
      | none => st1
    let st3 := match ([("stripe.com", "stripe.com"), ("paypal.com", "paypal.com"),
        ("square.com", "square.com"), ("braintree.com", "braintreegateway.com")] :
          List (String × String)).find? (fun p => containsS domain p.1) with
      | some p => emitIf true (p.2 ++ "-frame")
          ⟨p.2, "frame", "high", "Payment processor may use iframes",
            resource.URL, "script"⟩
          (emitIf true (p.2 ++ "-connect")
            ⟨p.2, "connect", "high", "Payment processor needs API connection",
              resource.URL, "script"⟩ st2)
      | none => st2
    let st4 := match ([("facebook", ["connect.facebook.net", "facebook.com"]),
        ("twitter", ["platform.twitter.com", "twitter.com"]),
        ("linkedin", ["platform.linkedin.com", "linkedin.com"]),
        ("instagram", ["instagram.com"]),
        ("youtube", ["youtube.com"])] : List (String × List String)).find?
        (fun p => containsS domain p.1) with
      | some p => p.2.foldl (fun st cd => emitIf true (cd ++ "-social")
          ⟨cd, "connect", "high", "Social media widget needs API access",
            resource.URL, "script"⟩ st) st3
      | none => st3
    emitIf (containsS urlStr "polyfill") (domain ++ "-polyfill")
      ⟨domain, "script", "medium",
        "Polyfill service may serve different files based on user agent",
        resource.URL, "script"⟩ st4

/-- `inferFromImage` of the heuristics file. -/
def inferFromImage (resource : ExternalResource) (seen : List String) :
    List HeuristicResource × List String :=
  if resource.type ≠ "image" then ([], seen)
  else
    let urlStr := toLowerS resource.URL
    let domain := ExtractDomain resource.URL
    let st1 := match ["cloudinary", "imgix", "cloudflare", "fastly", "akamai",
        "cloudfront"].find? (fun p => containsS domain p) with
      | some _ => emitIf true (domain ++ "-img")
          ⟨domain, "image", "high", "CDN domain likely serves multiple images",
            resource.URL, "image"⟩ ([], seen)
      | none => ([], seen)
    let st2 := emitIf (responsiveMatch urlStr.data) (domain ++ "-responsive")
      ⟨domain, "image", "high",
        "Responsive image pattern detected, likely has multiple variants",
        resource.URL, "image"⟩ st1
    match ["/avatar", "/profile", "/user", "/photo"].find?
        (fun p => containsS urlStr p) with
    | some _ => emitIf true (domain ++ "-ugc")
        ⟨domain, "image", "medium", "User-generated content pattern detected",
          resource.URL, "image"⟩ st2
    | none => st2

/-- `inferFromHTML` of the heuristics file. -/
def inferFromHTML (resource : ExternalResource) (seen : List String) :
    List HeuristicResource × List String :=
  let domain := ExtractDomain resource.URL
  let urlStr := toLowerS resource.URL
  match ["api.", "/api/", "graphql", "rest"].find?
      (fun p => containsS urlStr p || containsS domain "api.") with
  | some _ => emitIf true (domain ++ "-api")
      ⟨domain, "connect", "high", "API endpoint detected",
        resource.URL, resource.type⟩ ([], seen)
  | none => ([], seen)

/-- One iteration of the `ApplyHeuristics` loop. -/
def applyStep (st : List HeuristicResource × List String)
    (resource : ExternalResource) : List HeuristicResource × List String :=
  let p1 := inferFromStylesheet resource st.2
  let p2 := inferFromScript resource p1.2
  let p3 := inferFromImage resource p2.2
  let p4 := inferFromHTML resource p3.2
  (st.1 ++ p1.1 ++ p2.1 ++ p3.1 ++ p4.1, p4.2)

/-- `ApplyHeuristics` of the heuristics file. -/
def ApplyHeuristics (resources : List ExternalResource) : List HeuristicResource :=
  (resources.foldl applyStep ([], [])).1

/-- `ConvertHeuristicToExternalResource` of the heuristics file. -/
def ConvertHeuristicToExternalResource (heuristic : HeuristicResource) : ExternalResource :=
  let url := if !hasPrefixS heuristic.URL "http://" && !hasPrefixS heuristic.URL "https://"
    then "https://" ++ heuristic.URL else heuristic.URL
  ⟨heuristic.type, url, ExtractDomain url⟩

theorem applyStep_fst (st : List HeuristicResource × List String) (r : ExternalResource) :
    (applyStep st r).1 = st.1 ++ (applyStep ([], st.2) r).1 := by
  show st.1 ++ _ ++ _ ++ _ ++ _ = st.1 ++ ([] ++ _ ++ _ ++ _ ++ _)
  simp only [List.append_assoc, List.nil_append]

theorem foldl_applyStep_fst_extend :
    ∀ (S : List ExternalResource) (st : List HeuristicResource × List String),
      ∃ T, (S.foldl applyStep st).1 = st.1 ++ T := by
  intro S
  induction S with
  | nil => intro st; exact ⟨[], by simp⟩
  | cons r S ih =>
    intro st
    rw [List.foldl_cons]
    obtain ⟨T, hT⟩ := ih (applyStep st r)
    exact ⟨(applyStep ([], st.2) r).1 ++ T,
      by rw [hT, applyStep_fst st r, List.append_assoc]⟩

/-- C3 counterexample: a script at `analytics.example.com` loading
`gtag/js/bundle.js` infers (pass 1) a connect to google-analytics.com and
a script-chunks entry for its own domain; re-running on the original list
extended with the converted inferences produces a heuristic resource that
pass 1 did not contain (the converted script's URL matches the bare
"analytics" pattern with a different connect domain) — so ApplyHeuristics
is not idempotent under re-application. -/
theorem applyHeuristics_counterexample :
    ((ApplyHeuristics ([⟨"script", "https://analytics.example.com/gtag/js/bundle.js",
        "https://analytics.example.com"⟩] ++
      (ApplyHeuristics [⟨"script", "https://analytics.example.com/gtag/js/bundle.js",
        "https://analytics.example.com"⟩]).map ConvertHeuristicToExternalResource)).all
      (fun hr => (ApplyHeuristics [⟨"script",
        "https://analytics.example.com/gtag/js/bundle.js",
        "https://analytics.example.com"⟩]).contains hr)) = false := by
  decide

/-- C3 (amended): ApplyHeuristics deduplicates within one invocation via
its `seen` keys and extending the input list only appends inferences —
`ApplyHeuristics (R ++ S)` always begins with `ApplyHeuristics R` (the
first pass is preserved, but the converted second-pass resources may
append genuinely new inferences: see the counterexample).  In particular
two Google Fonts stylesheet URLs yield the fonts.gstatic.com font
inference exactly once. -/
theorem applyHeuristics_amended :
    (∀ R S : List ExternalResource, ∃ T,
      ApplyHeuristics (R ++ S) = ApplyHeuristics R ++ T) ∧
    ((ApplyHeuristics [⟨"stylesheet", "https://fonts.googleapis.com/css?family=A",
        "https://fonts.googleapis.com"⟩,
      ⟨"stylesheet", "https://fonts.googleapis.com/css?family=B",
        "https://fonts.googleapis.com"⟩]).filter
      (fun hr => hr.URL == "https://fonts.gstatic.com")).length = 1 := by
  constructor
  · intro R S
    unfold ApplyHeuristics
    rw [List.foldl_append]
    obtain ⟨T, hT⟩ := foldl_applyStep_fst_extend S (R.foldl applyStep ([], []))
    exact ⟨T, hT⟩
  · decide

/-! ## C8: ApplyCSPModifications (spec-modelled)

The repository sources under src/ contain the caller and the test file
for `ApplyCSPModifications` but not its implementation, so the function
is modelled from the specification text. -/

/-- Modelled from the spec: `CSPModification` —
`{ action: {add, remove}, directive: string, value: string }`. -/
structure CSPModification where
  Action : String
  Directive : String
  Value : String
deriving DecidableEq

/-- Modelled from the spec: one add/remove operation on an individual
directive token set — "add" is a no-op if the token is already present,
otherwise appends it; "remove" deletes the token if present, and removing
the last remaining token deletes the directive entirely rather than
leaving it with an empty value. -/
def applyModification (d : Directives) (m : CSPModification) : Directives :=
  let toks := fieldsStr (getD d m.Directive)
  if m.Action = "add" then
    if m.Value ∈ toks then d
    else insertD d m.Directive (joinStrings " " (toks ++ [m.Value]))
  else if m.Action = "remove" then
    let toks2 := toks.filter (fun t => t != m.Value)
    if toks2 = [] then eraseD d m.Directive
    else insertD d m.Directive (joinStrings " " toks2)
  else d

/-- Modelled from the spec: `ApplyCSPModifications` applies an ordered
list of add/remove operations strictly in the order given, then
serializes the directive model. -/
def ApplyCSPModifications (cspHeader : String) (modifications : List CSPModification) : String :=
  reconstructCSP (modifications.foldl applyModification (parseCSPDirectives cspHeader))

theorem findD_eraseD (d : Directives) (k : String) : findD (eraseD d k) k = none :=
  findD_filter_neg d (fun s => !decide (s = k)) k (by simp)

/-- C8: ApplyCSPModifications folds its operations strictly in order over
the parsed directive map; "add" is a no-op when the token is present and
otherwise appends it; "remove" filters the token out, deleting the
directive entirely when no token remains (its lookup afterwards is none);
remove-then-add differs from add-then-remove; and the claim's example
`ApplyCSPModifications "script-src 'self'" [{remove, script-src, 'self'}]`
yields the empty header with no script-src directive at all. -/
theorem applyCSPModifications_spec :
    (∀ (h : String) (ms : List CSPModification), ApplyCSPModifications h ms =
      reconstructCSP (ms.foldl applyModification (parseCSPDirectives h))) ∧
    (∀ (d : Directives) (m : CSPModification), m.Action = "add" →
      m.Value ∈ fieldsStr (getD d m.Directive) → applyModification d m = d) ∧
    (∀ (d : Directives) (m : CSPModification), m.Action = "add" →
      m.Value ∉ fieldsStr (getD d m.Directive) →
      applyModification d m = insertD d m.Directive
        (joinStrings " " (fieldsStr (getD d m.Directive) ++ [m.Value]))) ∧
    (∀ (d : Directives) (m : CSPModification), m.Action = "remove" →
      (fieldsStr (getD d m.Directive)).filter (fun t => t != m.Value) = [] →
      applyModification d m = eraseD d m.Directive ∧
      findD (applyModification d m) m.Directive = none) ∧
    (∀ (d : Directives) (m : CSPModification), m.Action = "remove" →
      (fieldsStr (getD d m.Directive)).filter (fun t => t != m.Value) ≠ [] →
      applyModification d m = insertD d m.Directive
        (joinStrings " " ((fieldsStr (getD d m.Directive)).filter (fun t => t != m.Value)))) ∧
    (ApplyCSPModifications "script-src 'self'"
      [⟨"add", "script-src", "https://example.com"⟩,
       ⟨"remove", "script-src", "https://example.com"⟩] ≠
     ApplyCSPModifications "script-src 'self'"
      [⟨"remove", "script-src", "https://example.com"⟩,
       ⟨"add", "script-src", "https://example.com"⟩]) ∧
    (ApplyCSPModifications "script-src 'self'"
      [⟨"remove", "script-src", "'self'"⟩] = "" ∧
     findD (parseCSPDirectives (ApplyCSPModifications "script-src 'self'"
      [⟨"remove", "script-src", "'self'"⟩])) "script-src" = none) := by
  refine ⟨fun h ms => rfl, ?_, ?_, ?_, ?_, by decide, by decide, by decide⟩
  · intro d m ha hv
    unfold applyModification
    rw [if_pos ha, if_pos hv]
  · intro d m ha hv
    unfold applyModification
    rw [if_pos ha, if_neg hv]
  · intro d m ha hf
    constructor
    · unfold applyModification
      rw [if_neg (by rw [ha]; decide), if_pos ha, if_pos hf]
    · unfold applyModification
      rw [if_neg (by rw [ha]; decide), if_pos ha, if_pos hf]
      exact findD_eraseD d m.Directive
  · intro d m ha hf
    unfold applyModification
    rw [if_neg (by rw [ha]; decide), if_pos ha, if_neg hf]

theorem applyCSPModifications_spec_witness :
    (("'self'" : String) ∈ fieldsStr (getD (parseCSPDirectives "script-src 'self'")
      "script-src")) ∧
    applyModification (parseCSPDirectives "script-src 'self'")
      ⟨"add", "script-src", "'self'"⟩ = parseCSPDirectives "script-src 'self'" :=
  ⟨by decide,
   applyCSPModifications_spec.2.1 (parseCSPDirectives "script-src 'self'")
     ⟨"add", "script-src", "'self'"⟩ rfl (by decide)⟩
